import Mathlib

/-!
# Neural_Net.cpp: a shallow embedding and its verified properties

The program is a fully connected feed-forward network trained by online
back-propagation with momentum.  The embedding follows `Neural_Net.cpp`
function by function.

* `double` is an arbitrary field `α` (the real-number reading of the
  arithmetic); `tanh` and `sqrt` of `<cmath>` are the two fields of `CMath`,
  of which a theorem assumes only what it states.
* `std::vector` is `List`; `v[i]` is `idx v i`, which faults when `i` is out of
  range, `v.back()` is `back v`, which faults on an empty vector.
* `unsigned` is 32 bits wide and `size_t` 64 bits wide; the subtractions
  `size() - 1` and `size() - 2` wrap as they do in the program.
* Fields the constructors leave uninitialised take their value from an
  `Indeterminate` record; `rand()` and `RAND_MAX` come from a `Libc` record.
* Every member function that mutates `*this` returns the new object; a failing
  `assert`, a call of `abort()`, an out-of-range access and a loop that cannot
  exit are faults.
-/

namespace NeuralNet

/-! ## Faults, loops and vector access -/

/-- Ways in which a call can fail to return. -/
inductive Fault where
  | outOfBounds
  | assertion
  | nontermination
  | abort
  deriving DecidableEq, Repr

/-- Largest value of an `unsigned`. -/
def UINT_MAX : Nat := 4294967295

/-- Subtraction `a - b` of two `size_t` values: below zero it wraps around `2^64`. -/
def subSize (a b : Nat) : Nat := if b ≤ a then a - b else a + 18446744073709551616 - b

/-- Subtraction `a - b` carried out in `size_t` and stored in an `unsigned`. -/
def subUnsigned (a b : Nat) : Nat := subSize a b % 4294967296

/-- Element access `v[i]`. -/
def idx {β : Type} (v : List β) (i : Nat) : Except Fault β :=
  match v[i]? with
  | some x => .ok x
  | none => .error .outOfBounds

/-- Last element `v.back()`. -/
def back {β : Type} (v : List β) : Except Fault β :=
  match v.getLast? with
  | some x => .ok x
  | none => .error .outOfBounds

/-- Loop `for (n = lo; n < lo + count; ++n) body`, threading the state. -/
def loopUp {σ : Type} (body : Nat → σ → Except Fault σ) : Nat → Nat → σ → Except Fault σ
  | 0, _, s => .ok s
  | count + 1, n, s =>
    match body n s with
    | .ok s' => loopUp body count (n + 1) s'
    | .error e => .error e

/-- Loop `for (unsigned n = lo; n < hi; ++n) body`. -/
def forRange {σ : Type} (lo hi : Nat) (body : Nat → σ → Except Fault σ) (s : σ) :
    Except Fault σ :=
  loopUp body (hi - lo) lo s

/-- Loop `for (unsigned n = start; n > 0; --n) body`. -/
def forDown {σ : Type} (body : Nat → σ → Except Fault σ) : Nat → σ → Except Fault σ
  | 0, s => .ok s
  | n + 1, s =>
    match body (n + 1) s with
    | .ok s' => forDown body n s'
    | .error e => .error e

/-- In-place call `v[n].f(...)`: the element is read, changed and written back. -/
def modifyAt {β : Type} (v : List β) (n : Nat) (f : β → Except Fault β) :
    Except Fault (List β) :=
  match idx v n with
  | .ok x =>
    match f x with
    | .ok y => .ok (v.set n y)
    | .error e => .error e
  | .error e => .error e

/-! ## Data model -/

/-- The two `<cmath>` functions the program calls. -/
structure CMath (α : Type) where
  tanh : α → α
  sqrt : α → α

/-- The C library's random source: `rand k` is what the `k`-th call of `rand()` returns. -/
structure Libc where
  RAND_MAX : Nat
  rand : Nat → Nat

/-- Values found in the fields that the constructors do not initialise. -/
structure Indeterminate (α : Type) where
  outputVal : Nat → Nat → α
  gradient : Nat → Nat → α
  error : α
  recentAverageError : α

/-- The struct `Connection`. -/
structure Connection (α : Type) where
  weight : α
  deltaWeight : α
  deriving DecidableEq, Repr

/-- The class `Neuron`. -/
structure Neuron (α : Type) where
  m_outputVal : α
  m_outputWeights : List (Connection α)
  m_myIndex : Nat
  m_gradient : α
  deriving DecidableEq, Repr

/-- The typedef `Layer`. -/
abbrev Layer (α : Type) := List (Neuron α)

/-- The class `Net`. -/
structure Net (α : Type) where
  m_layers : List (Layer α)
  m_error : α
  m_recentAverageError : α
  deriving DecidableEq, Repr

section Code

variable {α : Type} [Field α]

/-! ## class TrainingData -/

/-- The characters `std::isspace` accepts: the blank and the control characters 9 to 13. -/
def isSpace (c : Char) : Bool := c.toNat = 32 || (9 ≤ c.toNat && c.toNat ≤ 13)

/-- Extraction `ss >> word` of a `std::string` from a stream: leading white space is skipped
and the word is the run of characters up to the next white space.  Returns the word and what
is left of the stream; the stream is at its end afterwards exactly when nothing is left. -/
def extractWord (ss : List Char) : List Char × List Char :=
  ((ss.dropWhile isSpace).takeWhile (fun c => !isSpace c),
    (ss.dropWhile isSpace).dropWhile (fun c => !isSpace c))

/-- The member `TrainingData::getTopology`.  `firstLine` is the line `std::getline` reads from
the file and `isEof` what `isEof()` returns after that read.  The loop
`while (!ss.eof()) { ss >> n; topology.push_back(n); }` is the formatted extraction of the
standard library on what is left of the line: `readNumbers` gives the numbers it pushes. -/
def TrainingData.getTopology (readNumbers : List Char → Except Fault (List Nat))
    (firstLine : List Char) (isEof : Bool) (topology : List Nat) : Except Fault (List Nat) :=
  let label : List Char := []
  -- ss >> line: the first word goes to `line`, `label` stays empty
  let ss := (extractWord firstLine).2
  if isEof || decide (label = "topology:".toList) then
    .error .abort
  else
    match readNumbers ss with
    | .ok ns => .ok (topology ++ ns)
    | .error e => .error e

/-! ## class Neuron -/

/-- The static `Neuron::eta`. -/
def Neuron.eta : α := 0.15

/-- The static `Neuron::alpha`. -/
def Neuron.alpha : α := 0.5

/-- The member `Neuron::setOutputVal`. -/
def Neuron.setOutputVal (self : Neuron α) (val : α) : Neuron α :=
  { self with m_outputVal := val }

/-- The member `Neuron::getOutputVal`. -/
def Neuron.getOutputVal (self : Neuron α) : α := self.m_outputVal

/-- The static `Neuron::transferFunction`. -/
def Neuron.transferFunction (M : CMath α) (x : α) : α := M.tanh x

/-- The static `Neuron::transferFunctionDerivative`. -/
def Neuron.transferFunctionDerivative (x : α) : α := 1 - x * x

/-- The static `Neuron::randomWeight`, on the `k`-th call of `rand()`. -/
def Neuron.randomWeight (C : Libc) (k : Nat) : α := (C.rand k : α) / (C.RAND_MAX : α)

/-- The member `Neuron::updateInputWeights`; returns the updated `prevLayer`. -/
def Neuron.updateInputWeights (self : Neuron α) (prevLayer : Layer α) :
    Except Fault (Layer α) :=
  forRange 0 prevLayer.length (fun n prevLayer =>
    modifyAt prevLayer n (fun neuron =>
      modifyAt neuron.m_outputWeights self.m_myIndex (fun c =>
        let oldDeltaWeight := c.deltaWeight
        let newDeltaWeight :=
          Neuron.eta * neuron.getOutputVal * self.m_gradient + Neuron.alpha * oldDeltaWeight
        .ok { weight := c.weight + newDeltaWeight, deltaWeight := newDeltaWeight })
      |>.map (fun ws => { neuron with m_outputWeights := ws }))) prevLayer

/-- The member `Neuron::sumDOW`. -/
def Neuron.sumDOW (self : Neuron α) (nextLayer : Layer α) : Except Fault α :=
  forRange 0 (subSize nextLayer.length 1) (fun n sum => do
    let c ← idx self.m_outputWeights n
    let nx ← idx nextLayer n
    pure (sum + c.weight * nx.m_gradient)) 0

/-- The member `Neuron::calcHiddenGradients`. -/
def Neuron.calcHiddenGradients (self : Neuron α) (nextLayer : Layer α) :
    Except Fault (Neuron α) := do
  let dow ← self.sumDOW nextLayer
  pure { self with m_gradient := dow * Neuron.transferFunctionDerivative self.m_outputVal }

/-- The member `Neuron::calcOutputGradients`. -/
def Neuron.calcOutputGradients (self : Neuron α) (targetVals : α) : Neuron α :=
  let delta := targetVals - self.m_outputVal
  { self with m_gradient := delta * Neuron.transferFunctionDerivative self.m_outputVal }

/-- The member `Neuron::feedForward`. -/
def Neuron.feedForward (M : CMath α) (self : Neuron α) (prevLayer : Layer α) :
    Except Fault (Neuron α) := do
  let sum ← forRange 0 prevLayer.length (fun n sum => do
    let p ← idx prevLayer n
    let c ← idx p.m_outputWeights self.m_myIndex
    pure (sum + p.getOutputVal * c.weight)) 0
  pure { self with m_outputVal := Neuron.transferFunction M sum }

/-- The constructor `Neuron::Neuron` (named `construct` here); `calls` counts the calls of `rand()` made so far,
`out` and `grad` are what the two uninitialised members hold. -/
def Neuron.construct (C : Libc) (out grad : α) (numOutputs myIndex calls : Nat) :
    Neuron α × Nat :=
  ({ m_outputVal := out
     m_outputWeights := (List.range numOutputs).map (fun c =>
        { weight := Neuron.randomWeight C (calls + c), deltaWeight := 0 })
     m_myIndex := myIndex
     m_gradient := grad },
   calls + numOutputs)

/-! ## class Net -/

/-- The static `Net::m_recentAverageSmoothingFactor`. -/
def Net.m_recentAverageSmoothingFactor : α := 100

/-- The member `Net::getRecentAverageError`. -/
def Net.getRecentAverageError (self : Net α) : α := self.m_recentAverageError

/-- The member `Net::getResults`; returns the new content of `resultVals`. -/
def Net.getResults (self : Net α) (resultVals : List α) : Except Fault (List α) := do
  -- resultVals.clear()
  let resultVals := resultVals.take 0
  let outputLayer ← back self.m_layers
  forRange 0 (subSize outputLayer.length 1) (fun n resultVals => do
    let nrn ← idx outputLayer n
    pure (resultVals ++ [nrn.getOutputVal])) resultVals

/-- The member `Net::backProp`. -/
def Net.backProp (M : CMath α) (self : Net α) (targetVals : List α) :
    Except Fault (Net α) := do
  let outputLayer ← back self.m_layers
  let last := self.m_layers.length - 1
  -- overall net error
  let m_error ← forRange 0 (subSize outputLayer.length 1) (fun n m_error => do
    let t ← idx targetVals n
    let o ← idx outputLayer n
    let delta := t - o.getOutputVal
    pure (m_error + delta * delta)) 0
  let m_error := m_error / ((subSize outputLayer.length 1 : Nat) : α)
  let m_error := M.sqrt m_error
  let m_recentAverageError :=
    (self.m_recentAverageError * Net.m_recentAverageSmoothingFactor + m_error)
      / (Net.m_recentAverageSmoothingFactor + 1)
  -- output layer gradients
  let outputLayer ← forRange 0 (subSize outputLayer.length 1) (fun n outputLayer =>
    modifyAt outputLayer n (fun nrn => do
      let t ← idx targetVals n
      pure (nrn.calcOutputGradients t))) outputLayer
  let m_layers := self.m_layers.set last outputLayer
  -- gradients on hidden layers
  let m_layers ← forDown (fun layerNum m_layers => do
    let nextLayer ← idx m_layers (layerNum + 1)
    modifyAt m_layers layerNum (fun hiddenLayer =>
      forRange 0 hiddenLayer.length (fun n hiddenLayer =>
        modifyAt hiddenLayer n (fun nrn => nrn.calcHiddenGradients nextLayer)) hiddenLayer))
    (subUnsigned m_layers.length 2) m_layers
  -- update connection weights
  let m_layers ← forDown (fun layerNum m_layers => do
    let layer ← idx m_layers layerNum
    modifyAt m_layers (layerNum - 1) (fun prevLayer =>
      forRange 0 (subSize layer.length 1) (fun n prevLayer => do
        let nrn ← idx layer n
        nrn.updateInputWeights prevLayer) prevLayer))
    (subUnsigned m_layers.length 1) m_layers
  pure { m_layers := m_layers, m_error := m_error, m_recentAverageError := m_recentAverageError }

/-- The member `Net::feedForward`. -/
def Net.feedForward (M : CMath α) (self : Net α) (inputVals : List α) :
    Except Fault (Net α) := do
  let layer0 ← idx self.m_layers 0
  if inputVals.length ≠ subSize layer0.length 1 then throw Fault.assertion
  -- latch the input values into the input neurons
  let m_layers ← forRange 0 inputVals.length (fun i m_layers =>
    modifyAt m_layers 0 (fun layer0 =>
      modifyAt layer0 i (fun nrn => do
        let v ← idx inputVals i
        pure (nrn.setOutputVal v)))) self.m_layers
  -- forward propagate
  let m_layers ← forRange 1 m_layers.length (fun layerNum m_layers => do
    let prevLayer ← idx m_layers (layerNum - 1)
    modifyAt m_layers layerNum (fun layer =>
      forRange 0 (subSize layer.length 1) (fun n layer =>
        modifyAt layer n (fun nrn => nrn.feedForward M prevLayer)) layer)) m_layers
  pure { self with m_layers := m_layers }

/-- One layer of the constructor `Net::Net`: the neurons `0 .. topology[layerNum]` are
pushed and the last one gets output `1.0`.  The loop test `neuronNum <= topology[layerNum]`
on an `unsigned` counter cannot fail when the bound is `UINT_MAX`. -/
def Net.makeLayer (C : Libc) (U : Indeterminate α) (layerNum numOutputs size calls : Nat) :
    Except Fault (Layer α × Nat) :=
  if size < UINT_MAX then
    match loopUp (fun neuronNum (st : Layer α × Nat) =>
        let r := Neuron.construct C (U.outputVal layerNum neuronNum) (U.gradient layerNum neuronNum)
          numOutputs neuronNum st.2
        .ok (st.1 ++ [r.1], r.2)) (size + 1) 0 ([], calls) with
    | .ok (layer, calls) =>
      match modifyAt layer (layer.length - 1) (fun nrn => .ok (nrn.setOutputVal 1)) with
      | .ok layer => .ok (layer, calls)
      | .error e => .error e
    | .error e => .error e
  else .error .nontermination

/-- The constructor `Net::Net` (named `construct` here). -/
def Net.construct (C : Libc) (U : Indeterminate α) (topology : List Nat) : Except Fault (Net α) := do
  let numLayers := topology.length % 4294967296
  let st ← forRange 0 numLayers (fun layerNum (st : List (Layer α) × Nat) => do
    let numOutputs ←
      if layerNum = subSize topology.length 1 then pure 0 else idx topology (layerNum + 1)
    let size ← idx topology layerNum
    let r ← Net.makeLayer C U layerNum numOutputs size st.2
    pure (st.1 ++ [r.1], r.2)) ([], 0)
  pure { m_layers := st.1, m_error := U.error, m_recentAverageError := U.recentAverageError }

/-! ## Closed forms used in the statements -/

/-- Weight of the outgoing connection of `p` at slot `j` (zero when there is none). -/
def Neuron.weightAt (p : Neuron α) (j : Nat) : α :=
  match p.m_outputWeights[j]? with
  | some c => c.weight
  | none => 0

/-- Delta weight of the outgoing connection of `p` at slot `j` (zero when there is none). -/
def Neuron.deltaAt (p : Neuron α) (j : Nat) : α :=
  match p.m_outputWeights[j]? with
  | some c => c.deltaWeight
  | none => 0

/-- Sum over all neurons of `prev` of output times the weight at slot `j`. -/
def weightedSum (prev : Layer α) (j : Nat) : α :=
  (prev.map (fun p => p.m_outputVal * p.weightAt j)).sum

/-- Gradient stored in neuron `n` of a layer (zero when there is none). -/
def gradAt (l : Layer α) (n : Nat) : α :=
  match l[n]? with
  | some x => x.m_gradient
  | none => 0

/-- Output stored in neuron `n` of a layer (zero when there is none). -/
def outAt (l : Layer α) (n : Nat) : α :=
  match l[n]? with
  | some x => x.m_outputVal
  | none => 0

/-- Sum computed by `sumDOW`: over the functional neurons of the next layer. -/
def dowSum (self : Neuron α) (next : Layer α) : α :=
  ((List.range (next.length - 1)).map (fun n => self.weightAt n * gradAt next n)).sum

/-- A connection after one application of the momentum rule. -/
def Connection.updated (c : Connection α) (out grad : α) : Connection α :=
  { weight := c.weight + (Neuron.eta * out * grad + Neuron.alpha * c.deltaWeight)
    deltaWeight := Neuron.eta * out * grad + Neuron.alpha * c.deltaWeight }

/-- Neuron `p` after the connection at slot `j` went through the momentum rule. -/
def Neuron.setSlot (p : Neuron α) (j : Nat) (grad : α) : Neuron α :=
  match p.m_outputWeights[j]? with
  | some c => { p with m_outputWeights := p.m_outputWeights.set j (c.updated p.m_outputVal grad) }
  | none => p

/-- Neuron `p` after its first `count` connections went through the momentum rule, slot `k`
with the gradient of neuron `k` of `cur`. -/
def Neuron.slotsUpdated (cur : Layer α) (count : Nat) (p : Neuron α) : Neuron α :=
  { p with m_outputWeights := p.m_outputWeights.mapIdx (fun k c =>
      if k < count then c.updated p.m_outputVal (gradAt cur k) else c) }

/-- Topologies whose layer count and layer sizes (bias included) fit in an `unsigned`. -/
def TopologyOK (T : List Nat) : Prop := T.length ≤ UINT_MAX ∧ ∀ t ∈ T, t < UINT_MAX

/-- What the constructor fixes of a neuron: its index and its number of connections. -/
def Neuron.shape (n : Neuron α) : Nat × Nat := (n.m_myIndex, n.m_outputWeights.length)

/-- Shape of a layer with `t` functional neurons, each neuron having `nOut` connections. -/
def layerShape (t nOut : Nat) : List (Nat × Nat) := (List.range (t + 1)).map (fun k => (k, nOut))

/-- Shape of the network the constructor builds from topology `T`. -/
def expectedShape (T : List Nat) : List (List (Nat × Nat)) :=
  (List.range T.length).map (fun L => layerShape (T.getD L 0) (T.getD (L + 1) 0))

/-- Shape of a network. -/
def Net.shape (net : Net α) : List (List (Nat × Nat)) :=
  net.m_layers.map (fun l => l.map Neuron.shape)

/-- The network has the layout the constructor gives a network of topology `T`. -/
def Net.WellFormed (T : List Nat) (net : Net α) : Prop :=
  TopologyOK T ∧ net.shape = expectedShape T

instance (T : List Nat) : Decidable (TopologyOK T) := by
  unfold TopologyOK; infer_instance

instance (T : List Nat) (net : Net α) : Decidable (net.WellFormed T) := by
  unfold Net.WellFormed; infer_instance

/-- Layer after the functional neurons were fed from `prev`. -/
def Layer.fed (M : CMath α) (prev cur : Layer α) : Layer α :=
  cur.mapIdx (fun k nrn =>
    if k < cur.length - 1 then { nrn with m_outputVal := M.tanh (weightedSum prev k) } else nrn)

/-- Input layer after the input values were latched. -/
def Layer.latched (inputVals : List α) (l0 : Layer α) : Layer α :=
  l0.mapIdx (fun i nrn =>
    if i < inputVals.length then nrn.setOutputVal (inputVals.getD i 0) else nrn)

/-- Layer `L` of the network after a forward pass. -/
def fedLayer (M : CMath α) (layers : List (Layer α)) (inputVals : List α) : Nat → Layer α
  | 0 => Layer.latched inputVals (layers.getD 0 [])
  | L + 1 => Layer.fed M (fedLayer M layers inputVals L) (layers.getD (L + 1) [])

/-- All layers of the network after a forward pass. -/
def fedLayers (M : CMath α) (layers : List (Layer α)) (inputVals : List α) : List (Layer α) :=
  layers.mapIdx (fun L _ => fedLayer M layers inputVals L)

/-- The output layer `m_layers.back()` (empty when there is no layer). -/
def Net.outputLayer (net : Net α) : Layer α :=
  net.m_layers.getD (net.m_layers.length - 1) []

/-- Outputs of all neurons of a layer but the last one. -/
def resultsOf (l : Layer α) : List α :=
  (l.take (l.length - 1)).map (fun n => n.m_outputVal)

/-- Sum of the squared differences between the first `m` targets and outputs. -/
def sqErr (targetVals : List α) (out : Layer α) (m : Nat) : α :=
  ((List.range m).map (fun n =>
    (targetVals.getD n 0 - outAt out n) * (targetVals.getD n 0 - outAt out n))).sum

/-- Output layer after `calcOutputGradients` ran on its functional neurons. -/
def Layer.outGrads (targetVals : List α) (out : Layer α) : Layer α :=
  out.mapIdx (fun n nrn =>
    if n < out.length - 1 then nrn.calcOutputGradients (targetVals.getD n 0) else nrn)

/-- Hidden layer after `calcHiddenGradients` ran on all its neurons. -/
def Layer.hidGrads (next h : Layer α) : Layer α :=
  h.map (fun nrn =>
    { nrn with m_gradient := dowSum nrn next * (1 - nrn.m_outputVal * nrn.m_outputVal) })

/-- Layer at distance `d` below the output layer, after the gradient phase of `backProp`. -/
def gradLayer (layers : List (Layer α)) (targetVals : List α) : Nat → Layer α
  | 0 => Layer.outGrads targetVals (layers.getD (layers.length - 1) [])
  | d + 1 => Layer.hidGrads (gradLayer layers targetVals d)
      (layers.getD (layers.length - 1 - (d + 1)) [])

/-- All layers after the gradient phase of `backProp`: layer 0 is left alone. -/
def gradLayers (layers : List (Layer α)) (targetVals : List α) : List (Layer α) :=
  layers.mapIdx (fun L l =>
    if 1 ≤ L then gradLayer layers targetVals (layers.length - 1 - L) else l)

/-- Layer `prev` after every functional neuron of `next` updated its input weights. -/
def Layer.updatedFrom (next prev : Layer α) : Layer α :=
  prev.map (Neuron.slotsUpdated next (next.length - 1))

/-- All layers after the weight-update phase of `backProp`. -/
def updatedLayers (layers : List (Layer α)) : List (Layer α) :=
  layers.mapIdx (fun L l =>
    if L + 1 < layers.length then Layer.updatedFrom (layers.getD (L + 1) []) l else l)

/-- The network after a forward pass. -/
def Net.fedForward (M : CMath α) (net : Net α) (inputVals : List α) : Net α :=
  { net with m_layers := fedLayers M net.m_layers inputVals }

/-- The error `backProp` stores in `m_error`. -/
def Net.errorOf (M : CMath α) (net : Net α) (targetVals : List α) : α :=
  M.sqrt (sqErr targetVals net.outputLayer (net.outputLayer.length - 1)
    / ((net.outputLayer.length - 1 : Nat) : α))

/-- The network after a backward pass. -/
def Net.backPropagated (M : CMath α) (net : Net α) (targetVals : List α) : Net α :=
  { m_layers := updatedLayers (gradLayers net.m_layers targetVals)
    m_error := net.errorOf M targetVals
    m_recentAverageError :=
      (net.m_recentAverageError * Net.m_recentAverageSmoothingFactor + net.errorOf M targetVals)
        / (Net.m_recentAverageSmoothingFactor + 1) }

/-- Neuron `k` of a layer the constructor builds: the last one is the bias neuron. -/
def builtNeuron (C : Libc) (U : Indeterminate α) (layerNum numOutputs size calls k : Nat) :
    Neuron α :=
  let n := (Neuron.construct C (U.outputVal layerNum k) (U.gradient layerNum k) numOutputs k
    (calls + k * numOutputs)).1
  if k = size then n.setOutputVal 1 else n

/-- Layer the constructor builds when `calls` calls of `rand()` were made before. -/
def builtLayer (C : Libc) (U : Indeterminate α) (layerNum numOutputs size calls : Nat) :
    Layer α :=
  (List.range (size + 1)).map (builtNeuron C U layerNum numOutputs size calls)

/-- Number of calls of `rand()` made before layer `L` is built. -/
def callsBefore (T : List Nat) : Nat → Nat
  | 0 => 0
  | L + 1 => callsBefore T L + (T.getD L 0 + 1) * T.getD (L + 1) 0

/-- The network the constructor builds from topology `T`. -/
def builtNet (C : Libc) (U : Indeterminate α) (T : List Nat) : Net α :=
  { m_layers := (List.range T.length).map (fun L =>
      builtLayer C U L (T.getD (L + 1) 0) (T.getD L 0) (callsBefore T L))
    m_error := U.error
    m_recentAverageError := U.recentAverageError }

/-- Neuron `k` of layer `L` of the network, when there is one. -/
def Net.neuron? (net : Net α) (L k : Nat) : Option (Neuron α) :=
  (net.m_layers[L]?).bind (fun l => l[k]?)

/-- The last neuron of every layer has output `1.0`. -/
def Net.BiasOne (net : Net α) : Prop :=
  ∀ l ∈ net.m_layers, (l.map (fun n => n.m_outputVal)).getLast? = some 1

/-- States the program can reach: construction from topology `T`, then any successful calls of
`feedForward` and `backProp`. -/
inductive Reachable (C : Libc) (U : Indeterminate α) (M : CMath α) (T : List Nat) :
    Net α → Prop where
  | construct {net : Net α} : Net.construct C U T = .ok net → Reachable C U M T net
  | feedForward {net net' : Net α} (inputVals : List α) :
      Reachable C U M T net → net.feedForward M inputVals = .ok net' → Reachable C U M T net'
  | backProp {net net' : Net α} (targetVals : List α) :
      Reachable C U M T net → net.backProp M targetVals = .ok net' → Reachable C U M T net'

/-- Stand-ins for `tanh` and `sqrt` on the rationals, for the examples. -/
def exampleMath : CMath ℚ := ⟨fun x => x / 2, fun x => x⟩

/-- A random source for the examples. -/
def exampleLibc : Libc := ⟨32767, fun k => (k * 7919 + 1) % 32768⟩

/-- Memory content for the examples. -/
def exampleIndet : Indeterminate ℚ := ⟨fun _ _ => 3, fun _ _ => 5, 7, 2⟩

/-- A network of topology `[1, 1]` for the examples. -/
def exampleNet : Net ℚ :=
  { m_layers := [[⟨0, [⟨1, 0⟩], 0, 0⟩, ⟨1, [⟨1, 0⟩], 1, 0⟩], [⟨0, [], 0, 0⟩, ⟨1, [], 1, 0⟩]]
    m_error := 0
    m_recentAverageError := 0 }

/-- A network of topology `[1, 1, 1]` for the examples. -/
def exampleNet3 : Net ℚ :=
  { m_layers := [[⟨0, [⟨1, 0⟩], 0, 0⟩, ⟨1, [⟨1, 0⟩], 1, 0⟩],
      [⟨0, [⟨1, 0⟩], 0, 0⟩, ⟨1, [⟨1, 0⟩], 1, 0⟩], [⟨0, [], 0, 0⟩, ⟨1, [], 1, 0⟩]]
    m_error := 0
    m_recentAverageError := 0 }

/-- The network between the gradient phase and the weight-update phase of `backProp`. -/
def Net.withGradients (net : Net α) (targetVals : List α) : Net α :=
  { net with m_layers := gradLayers net.m_layers targetVals }

/-- A network of topology `[2, 2, 1]` over any field, for the examples. -/
def exampleNet221 (β : Type) [Field β] : Net β :=
  { m_layers := [[⟨0, [⟨1, 0⟩, ⟨2, 0⟩], 0, 0⟩, ⟨0, [⟨3, 0⟩, ⟨4, 0⟩], 1, 0⟩,
        ⟨1, [⟨5, 0⟩, ⟨6, 0⟩], 2, 0⟩],
      [⟨0, [⟨1, 0⟩], 0, 0⟩, ⟨0, [⟨2, 0⟩], 1, 0⟩, ⟨1, [⟨3, 0⟩], 2, 0⟩],
      [⟨0, [], 0, 0⟩, ⟨1, [], 1, 0⟩]]
    m_error := 0
    m_recentAverageError := 0 }

/-- The weights of the outgoing connections of a neuron. -/
def Neuron.weights (n : Neuron α) : List α := n.m_outputWeights.map (fun c => c.weight)

/-- One pass of the `while` loop of `main` on the inputs and targets read from the file:
`none` when the loop is left by `break`. -/
def mainPass (M : CMath α) (topology : List Nat) (myNet : Net α)
    (inputVals targetVals : List α) : Except Fault (Option (Net α)) := do
  let t0 ← idx topology 0
  if inputVals.length ≠ t0 then
    pure none
  else
    let myNet ← myNet.feedForward M inputVals
    let _ ← myNet.getResults []
    let last ← back topology
    if targetVals.length ≠ last then
      throw Fault.assertion
    else
      let myNet ← myNet.backProp M targetVals
      pure (some myNet)

/-- Memory content for the examples in which the member `m_recentAverageError`, which the
constructor does not initialise, holds `-1`. -/
def negativeIndet : Indeterminate ℚ := ⟨fun _ _ => 0, fun _ _ => 0, 0, -1⟩

/-- Loop `body` over the indices of a list, in the order of the list. -/
def forList {σ : Type} (body : Nat → σ → Except Fault σ) : List Nat → σ → Except Fault σ
  | [], s => .ok s
  | n :: ns, s =>
    match body n s with
    | .ok s' => forList body ns s'
    | .error e => .error e

/-- The member `Net::backProp` with its last loop nest visiting the layers in the order
`layerOrder` and the neurons of layer `layerNum` in the order `neuronOrder layerNum`; the
other steps are those of `Net.backProp`. -/
def Net.backPropReordered (layerOrder : List Nat) (neuronOrder : Nat → List Nat)
    (M : CMath α) (self : Net α) (targetVals : List α) : Except Fault (Net α) := do
  let outputLayer ← back self.m_layers
  let last := self.m_layers.length - 1
  -- overall net error
  let m_error ← forRange 0 (subSize outputLayer.length 1) (fun n m_error => do
    let t ← idx targetVals n
    let o ← idx outputLayer n
    let delta := t - o.getOutputVal
    pure (m_error + delta * delta)) 0
  let m_error := m_error / ((subSize outputLayer.length 1 : Nat) : α)
  let m_error := M.sqrt m_error
  let m_recentAverageError :=
    (self.m_recentAverageError * Net.m_recentAverageSmoothingFactor + m_error)
      / (Net.m_recentAverageSmoothingFactor + 1)
  -- output layer gradients
  let outputLayer ← forRange 0 (subSize outputLayer.length 1) (fun n outputLayer =>
    modifyAt outputLayer n (fun nrn => do
      let t ← idx targetVals n
      pure (nrn.calcOutputGradients t))) outputLayer
  let m_layers := self.m_layers.set last outputLayer
  -- gradients on hidden layers
  let m_layers ← forDown (fun layerNum m_layers => do
    let nextLayer ← idx m_layers (layerNum + 1)
    modifyAt m_layers layerNum (fun hiddenLayer =>
      forRange 0 hiddenLayer.length (fun n hiddenLayer =>
        modifyAt hiddenLayer n (fun nrn => nrn.calcHiddenGradients nextLayer)) hiddenLayer))
    (subUnsigned m_layers.length 2) m_layers
  -- update connection weights, in the given order
  let m_layers ← forList (fun layerNum m_layers => do
    let layer ← idx m_layers layerNum
    modifyAt m_layers (layerNum - 1) (fun prevLayer =>
      forList (fun n prevLayer => do
        let nrn ← idx layer n
        nrn.updateInputWeights prevLayer) (neuronOrder layerNum) prevLayer))
    layerOrder m_layers
  pure { m_layers := m_layers, m_error := m_error, m_recentAverageError := m_recentAverageError }

/-- Neuron `p` after its connections at the slots listed in `ns` went through the momentum
rule, slot `k` with the gradient of neuron `k` of `cur`. -/
def Neuron.slotsUpdatedOn (cur : Layer α) (ns : List Nat) (p : Neuron α) : Neuron α :=
  { p with m_outputWeights := p.m_outputWeights.mapIdx (fun k c =>
      if k ∈ ns then c.updated p.m_outputVal (gradAt cur k) else c) }

/-- All layers after the weight updates that read the layers listed in `done`. -/
def updatedLayersOn (layers : List (Layer α)) (done : List Nat) : List (Layer α) :=
  layers.mapIdx (fun L l =>
    if L + 1 ∈ done then Layer.updatedFrom (layers.getD (L + 1) []) l else l)

end Code

/-! ## Loops and vector access: lemmas -/

section Lemmas

variable {α : Type} [Field α]

theorem idx_of_getElem? {β : Type} {v : List β} {i : Nat} {x : β} (h : v[i]? = some x) :
    idx v i = .ok x := by
  simp [idx, h]

theorem idx_of_lt {β : Type} {v : List β} {i : Nat} (h : i < v.length) :
    idx v i = .ok v[i] := by
  simp [idx, List.getElem?_eq_getElem h]

theorem back_of_getElem? {β : Type} {v : List β} {x : β} (h : v[v.length - 1]? = some x) :
    back v = .ok x := by
  simp [back, List.getLast?_eq_getElem?, h]

theorem subSize_one {a : Nat} (h1 : 1 ≤ a) (_h2 : a ≤ UINT_MAX) : subSize a 1 = a - 1 := by
  unfold subSize
  rw [if_pos h1]

theorem subUnsigned_of_le {a b : Nat} (h1 : b ≤ a) (h2 : a ≤ UINT_MAX) :
    subUnsigned a b = a - b := by
  unfold subUnsigned subSize
  unfold UINT_MAX at h2
  rw [if_pos h1]
  omega

theorem loopUp_steps {σ : Type} (body : Nat → σ → Except Fault σ) :
    ∀ (count lo : Nat) (st : Nat → σ),
      (∀ i, i < count → body (lo + i) (st i) = .ok (st (i + 1))) →
      loopUp body count lo (st 0) = .ok (st count) := by
  intro count
  induction count with
  | zero => intro lo st _; rfl
  | succ c ih =>
    intro lo st h
    have h0 := h 0 (Nat.succ_pos c)
    simp only [Nat.add_zero] at h0
    have hrest := ih (lo + 1) (fun i => st (i + 1)) (fun i hi => by
      have := h (i + 1) (Nat.succ_lt_succ hi)
      simpa [Nat.add_assoc, Nat.add_comm 1 i] using this)
    simp only [loopUp, h0]
    simpa using hrest

theorem forDown_steps {σ : Type} (body : Nat → σ → Except Fault σ) :
    ∀ (start : Nat) (st : Nat → σ),
      (∀ i, i < start → body (start - i) (st i) = .ok (st (i + 1))) →
      forDown body start (st 0) = .ok (st start) := by
  intro start
  induction start with
  | zero => intro st _; rfl
  | succ c ih =>
    intro st h
    have h0 := h 0 (Nat.succ_pos c)
    simp only [Nat.sub_zero] at h0
    have hrest := ih (fun i => st (i + 1)) (fun i hi => by
      have := h (i + 1) (Nat.succ_lt_succ hi)
      simpa using this)
    simp only [forDown, h0]
    simpa using hrest

theorem modifyAt_ok {β : Type} {v : List β} {n : Nat} {f : β → Except Fault β} {x y : β}
    (hx : v[n]? = some x) (hf : f x = .ok y) : modifyAt v n f = .ok (v.set n y) := by
  simp [modifyAt, idx_of_getElem? hx, hf]

theorem mapIdx_self {β : Type} (v : List β) : v.mapIdx (fun _ x => x) = v := by
  apply List.ext_getElem? ; intro i
  simp

/-- Closed form of a loop that rewrites the first `count` elements of a vector in place. -/
theorem loopUp_modifyAt {β : Type} (f : Nat → β → Except Fault β) (g : Nat → β → β)
    (v : List β) (count : Nat)
    (h : ∀ i, i < count → ∃ x, v[i]? = some x ∧ f i x = .ok (g i x)) :
    loopUp (fun n w => modifyAt w n (f n)) count 0 v
      = .ok (v.mapIdx (fun i x => if i < count then g i x else x)) := by
  have key := loopUp_steps (fun n w => modifyAt w n (f n)) count 0
    (fun k => v.mapIdx (fun i x => if i < k then g i x else x)) (by
      intro i hi
      obtain ⟨x, hx, hfx⟩ := h i hi
      have hx' : (v.mapIdx (fun j x => if j < i then g j x else x))[i]? = some x := by
        simp [hx]
      simp only [Nat.zero_add]
      rw [modifyAt_ok hx' hfx]
      congr 1
      apply List.ext_getElem?
      intro j
      rw [List.getElem?_set]
      simp only [Nat.zero_add, List.length_mapIdx, List.getElem?_mapIdx]
      have hlen : i < v.length := by
        rcases List.getElem?_eq_some_iff.1 hx with ⟨hl, _⟩; exact hl
      by_cases hij : i = j
      · subst hij
        simp [hlen, hx]
      · simp only [hij, if_false]
        by_cases hj : j < i
        · have : j < i + 1 := by omega
          simp [hj, this]
        · have : ¬ j < i + 1 := by omega
          simp [hj, this])
  simpa [mapIdx_self] using key

/-! ## Closed forms of the member functions of Neuron -/

theorem Neuron.feedForward_sum (M : CMath α) (self : Neuron α) (prev : Layer α)
    (h : ∀ p ∈ prev, self.m_myIndex < p.m_outputWeights.length) :
    self.feedForward M prev
      = .ok { self with m_outputVal := M.tanh (weightedSum prev self.m_myIndex) } := by
  have key := loopUp_steps (fun n sum => do
      let p ← idx prev n
      let c ← idx p.m_outputWeights self.m_myIndex
      pure (sum + p.getOutputVal * c.weight)) prev.length 0
    (fun i => ((prev.take i).map (fun p => p.m_outputVal * p.weightAt self.m_myIndex)).sum) (by
      intro i hi
      have hp : prev[i]? = some prev[i] := List.getElem?_eq_getElem hi
      have hj := h prev[i] (List.getElem_mem hi)
      have hc : prev[i].m_outputWeights[self.m_myIndex]?
          = some prev[i].m_outputWeights[self.m_myIndex] := List.getElem?_eq_getElem hj
      simp only [Nat.zero_add, idx_of_getElem? hp, idx_of_getElem? hc, bind, Except.bind, pure,
        Except.pure, List.take_succ, hp, Option.toList, List.map_append, List.sum_append,
        List.map_cons, List.map_nil, List.sum_cons, List.sum_nil, add_zero, Neuron.weightAt, hc,
        Neuron.getOutputVal])
  simp only [Neuron.feedForward, forRange, Nat.sub_zero, bind, Except.bind, pure, Except.pure,
    Neuron.transferFunction, weightedSum]
  simp only [List.take_zero, List.map_nil, List.sum_nil, bind, Except.bind, pure, Except.pure]
    at key
  rw [key]
  simp

theorem mapIdx_set_step {β : Type} (g : Nat → β → β) (v : List β) (i : Nat) (x : β)
    (hx : v[i]? = some x) :
    (v.mapIdx (fun k y => if k < i then g k y else y)).set i (g i x)
      = v.mapIdx (fun k y => if k < i + 1 then g k y else y) := by
  apply List.ext_getElem?
  intro j
  rw [List.getElem?_set]
  simp only [List.length_mapIdx, List.getElem?_mapIdx]
  have hlen : i < v.length := by
    rcases List.getElem?_eq_some_iff.1 hx with ⟨hl, _⟩; exact hl
  by_cases hij : i = j
  · subst hij
    simp [hlen, hx]
  · simp only [hij, if_false]
    by_cases hj : j < i
    · have : j < i + 1 := by omega
      simp [hj, this]
    · have : ¬ j < i + 1 := by omega
      simp [hj, this]

theorem mapIdx_lt_length {β : Type} (g : Nat → β → β) (v : List β) :
    v.mapIdx (fun k y => if k < v.length then g k y else y) = v.mapIdx g := by
  apply List.ext_getElem?
  intro j
  simp only [List.getElem?_mapIdx]
  by_cases hj : j < v.length
  · simp [hj]
  · simp [List.getElem?_eq_none (Nat.le_of_not_lt hj)]

theorem mapIdx_const {β γ : Type} (g : β → γ) (v : List β) :
    v.mapIdx (fun _ y => g y) = v.map g := by
  apply List.ext_getElem?
  intro j
  simp

theorem Neuron.sumDOW_ok (self : Neuron α) (next : Layer α) (h1 : 1 ≤ next.length)
    (h2 : next.length ≤ UINT_MAX) (h : next.length - 1 ≤ self.m_outputWeights.length) :
    self.sumDOW next = .ok (dowSum self next) := by
  have key := loopUp_steps (fun n sum => do
      let c ← idx self.m_outputWeights n
      let nx ← idx next n
      pure (sum + c.weight * nx.m_gradient)) (next.length - 1) 0
    (fun i => ((List.range i).map (fun n => self.weightAt n * gradAt next n)).sum) (by
      intro i hi
      have hc : self.m_outputWeights[i]? = some self.m_outputWeights[i] :=
        List.getElem?_eq_getElem (by omega)
      have hn : next[i]? = some next[i] := List.getElem?_eq_getElem (by omega)
      simp only [Nat.zero_add, idx_of_getElem? hc, idx_of_getElem? hn, bind, Except.bind, pure,
        Except.pure, List.range_succ, List.map_append, List.sum_append, List.map_cons,
        List.map_nil, List.sum_cons, List.sum_nil, add_zero, Neuron.weightAt, hc, gradAt, hn])
  simp only [Neuron.sumDOW, forRange, Nat.sub_zero, subSize_one h1 h2, dowSum]
  simpa using key

theorem Neuron.calcHiddenGradients_ok (self : Neuron α) (next : Layer α) (h1 : 1 ≤ next.length)
    (h2 : next.length ≤ UINT_MAX) (h : next.length - 1 ≤ self.m_outputWeights.length) :
    self.calcHiddenGradients next
      = .ok { self with m_gradient := dowSum self next * (1 - self.m_outputVal * self.m_outputVal) } := by
  unfold Neuron.calcHiddenGradients
  rw [Neuron.sumDOW_ok self next h1 h2 h]
  rfl

theorem Neuron.updateInputWeights_ok (self : Neuron α) (prev : Layer α)
    (h : ∀ p ∈ prev, self.m_myIndex < p.m_outputWeights.length) :
    self.updateInputWeights prev
      = .ok (prev.map (fun p => p.setSlot self.m_myIndex self.m_gradient)) := by
  have key := loopUp_modifyAt (fun (_ : Nat) (neuron : Neuron α) =>
      (modifyAt neuron.m_outputWeights self.m_myIndex (fun c =>
        let oldDeltaWeight := c.deltaWeight
        let newDeltaWeight :=
          Neuron.eta * neuron.getOutputVal * self.m_gradient + Neuron.alpha * oldDeltaWeight
        .ok { weight := c.weight + newDeltaWeight, deltaWeight := newDeltaWeight })
      |>.map (fun ws => { neuron with m_outputWeights := ws })))
    (fun _ p => p.setSlot self.m_myIndex self.m_gradient) prev prev.length (by
      intro i hi
      refine ⟨prev[i], List.getElem?_eq_getElem hi, ?_⟩
      have hj := h prev[i] (List.getElem_mem hi)
      have hc : prev[i].m_outputWeights[self.m_myIndex]?
          = some prev[i].m_outputWeights[self.m_myIndex] := List.getElem?_eq_getElem hj
      simp [modifyAt, idx_of_getElem? hc, Except.map, Neuron.setSlot, hc, Connection.updated,
        Neuron.getOutputVal])
  simp only [Neuron.updateInputWeights, forRange, Nat.sub_zero]
  rw [key, mapIdx_lt_length, mapIdx_const]

theorem Neuron.setSlot_slotsUpdated (cur : Layer α) (i : Nat) (p : Neuron α) (x : Neuron α)
    (hx : cur[i]? = some x) (hi : i < p.m_outputWeights.length) :
    (p.slotsUpdated cur i).setSlot i x.m_gradient = p.slotsUpdated cur (i + 1) := by
  have hc : p.m_outputWeights[i]? = some p.m_outputWeights[i] := List.getElem?_eq_getElem hi
  have := mapIdx_set_step (fun k (c : Connection α) => c.updated p.m_outputVal (gradAt cur k))
    p.m_outputWeights i _ hc
  simp only [Neuron.setSlot, Neuron.slotsUpdated, List.getElem?_mapIdx, hc, Option.map_some',
    lt_self_iff_false, if_false]
  rw [← this]
  simp [gradAt, hx]

/-! ## Shapes -/

theorem layerShape_length (t nOut : Nat) : (layerShape t nOut).length = t + 1 := by
  simp [layerShape]

theorem shape_length {l : Layer α} {t nOut : Nat} (h : l.map Neuron.shape = layerShape t nOut) :
    l.length = t + 1 := by
  have := congrArg List.length h
  simpa [layerShape] using this

theorem shape_getElem? {l : Layer α} {t nOut : Nat} (h : l.map Neuron.shape = layerShape t nOut)
    {k : Nat} {n : Neuron α} (hk : l[k]? = some n) :
    n.m_myIndex = k ∧ n.m_outputWeights.length = nOut := by
  have h1 : (l.map Neuron.shape)[k]? = some n.shape := by simp [hk]
  rw [h] at h1
  have hlt : k < t + 1 := by
    have := shape_length h
    rcases List.getElem?_eq_some_iff.1 hk with ⟨hl, _⟩
    omega
  simp only [layerShape, List.getElem?_map, List.getElem?_range hlt, Option.map_some',
    Option.some.injEq, Neuron.shape, Prod.mk.injEq] at h1
  exact ⟨h1.1.symm, h1.2.symm⟩

theorem shape_mem {l : Layer α} {t nOut : Nat} (h : l.map Neuron.shape = layerShape t nOut)
    {p : Neuron α} (hp : p ∈ l) : p.m_outputWeights.length = nOut := by
  obtain ⟨k, hk, rfl⟩ := List.getElem_of_mem hp
  exact (shape_getElem? h (List.getElem?_eq_getElem hk)).2

theorem map_mapIdx_of {β γ : Type} (s : β → γ) (g : Nat → β → β) (v : List β)
    (h : ∀ k x, s (g k x) = s x) : (v.mapIdx g).map s = v.map s := by
  apply List.ext_getElem?
  intro j
  simp only [List.getElem?_map, List.getElem?_mapIdx]
  cases v[j]? <;> simp [h]

theorem Layer.fed_shape (M : CMath α) (prev cur : Layer α) :
    (Layer.fed M prev cur).map Neuron.shape = cur.map Neuron.shape := by
  apply map_mapIdx_of
  intro k x
  by_cases hk : k < cur.length - 1 <;> simp [hk, Neuron.shape]

theorem Layer.latched_shape (inputVals : List α) (l0 : Layer α) :
    (Layer.latched inputVals l0).map Neuron.shape = l0.map Neuron.shape := by
  apply map_mapIdx_of
  intro k x
  by_cases hk : k < inputVals.length <;> simp [hk, Neuron.shape, Neuron.setOutputVal]

theorem fedLayer_shape (M : CMath α) (layers : List (Layer α)) (inputVals : List α) (L : Nat) :
    (fedLayer M layers inputVals L).map Neuron.shape = (layers.getD L []).map Neuron.shape := by
  cases L with
  | zero => exact Layer.latched_shape _ _
  | succ L => exact Layer.fed_shape _ _ _

theorem fedLayers_shape (M : CMath α) (layers : List (Layer α)) (inputVals : List α) :
    (fedLayers M layers inputVals).map (fun l => l.map Neuron.shape)
      = layers.map (fun l => l.map Neuron.shape) := by
  apply List.ext_getElem?
  intro j
  simp only [fedLayers, List.getElem?_map, List.getElem?_mapIdx]
  cases h : layers[j]? with
  | none => simp
  | some l =>
    simp only [Option.map_some', fedLayer_shape, Option.some.injEq]
    simp [List.getD, h]

/-! ## Well-formed networks -/

theorem Net.WellFormed.length {T : List Nat} {net : Net α} (h : net.WellFormed T) :
    net.m_layers.length = T.length := by
  have := congrArg List.length h.2
  simpa [Net.shape, expectedShape] using this

theorem Net.WellFormed.layer {T : List Nat} {net : Net α} (h : net.WellFormed T) {L : Nat}
    (hL : L < T.length) :
    ∃ l, net.m_layers[L]? = some l ∧ l.map Neuron.shape = layerShape (T.getD L 0) (T.getD (L + 1) 0) := by
  have hlen := h.length
  have hl : L < net.m_layers.length := by omega
  refine ⟨net.m_layers[L], List.getElem?_eq_getElem hl, ?_⟩
  have h1 : (net.shape)[L]? = some (net.m_layers[L].map Neuron.shape) := by
    simp [Net.shape, List.getElem?_eq_getElem hl]
  rw [h.2] at h1
  simpa [expectedShape, List.getElem?_range hL] using h1.symm

theorem Net.WellFormed.size_lt {T : List Nat} {net : Net α} (h : net.WellFormed T) {L : Nat}
    (hL : L < T.length) : T.getD L 0 < UINT_MAX := by
  have : T.getD L 0 = T[L] := by simp [List.getD, List.getElem?_eq_getElem hL]
  rw [this]
  exact h.1.2 _ (List.getElem_mem hL)

theorem getD_of_getElem? {β : Type} {v : List β} {i : Nat} {x d : β} (h : v[i]? = some x) :
    v.getD i d = x := by
  simp [List.getD, h]

theorem lt_length_of_getElem? {β : Type} {v : List β} {i : Nat} {x : β} (h : v[i]? = some x) :
    i < v.length := by
  rcases List.getElem?_eq_some_iff.1 h with ⟨hl, _⟩; exact hl

theorem mapIdx_set_le {β : Type} (F : Nat → β) (v : List β) (i : Nat) :
    (v.mapIdx (fun L l => if L ≤ i then F L else l)).set (i + 1) (F (i + 1))
      = v.mapIdx (fun L l => if L ≤ i + 1 then F L else l) := by
  apply List.ext_getElem?
  intro j
  rw [List.getElem?_set]
  simp only [List.length_mapIdx, List.getElem?_mapIdx]
  by_cases hij : i + 1 = j
  · subst hij
    by_cases hl : i + 1 < v.length
    · simp [hl, List.getElem?_eq_getElem hl]
    · simp [hl, List.getElem?_eq_none (Nat.le_of_not_lt hl)]
  · simp only [hij, if_false]
    by_cases hj : j ≤ i
    · have : j ≤ i + 1 := by omega
      simp [hj, this]
    · have : ¬ j ≤ i + 1 := by omega
      simp [hj, this]

theorem feedLayer_ok (M : CMath α) (prev cur : Layer α) (h1 : 1 ≤ cur.length)
    (h2 : cur.length ≤ UINT_MAX) (hidx : ∀ (k : Nat) (n : Neuron α), cur[k]? = some n → n.m_myIndex = k)
    (hw : ∀ p ∈ prev, cur.length - 1 ≤ p.m_outputWeights.length) :
    forRange 0 (subSize cur.length 1)
        (fun n layer => modifyAt layer n (fun nrn => nrn.feedForward M prev)) cur
      = .ok (Layer.fed M prev cur) := by
  unfold forRange
  rw [subSize_one h1 h2, Nat.sub_zero]
  exact loopUp_modifyAt (fun _ nrn => nrn.feedForward M prev)
    (fun k nrn => { nrn with m_outputVal := M.tanh (weightedSum prev k) }) cur (cur.length - 1) (by
      intro i hi
      have hlt : i < cur.length := by omega
      refine ⟨cur[i], List.getElem?_eq_getElem hlt, ?_⟩
      have hi' := hidx i cur[i] (List.getElem?_eq_getElem hlt)
      show Neuron.feedForward M cur[i] prev = _
      rw [Neuron.feedForward_sum M cur[i] prev (by
        intro p hp; have := hw p hp; omega)]
      simp only [hi'])

theorem latch_ok (inputVals : List α) (layers : List (Layer α)) (l0 : Layer α)
    (h0 : layers[0]? = some l0) (hlen : inputVals.length ≤ l0.length) :
    loopUp (fun i m_layers =>
        modifyAt m_layers 0 (fun layer0 =>
          modifyAt layer0 i (fun nrn => do
            let v ← idx inputVals i
            pure (nrn.setOutputVal v)))) inputVals.length 0 layers
      = .ok (layers.set 0 (Layer.latched inputVals l0)) := by
  have hpos : 0 < layers.length := lt_length_of_getElem? h0
  have key := loopUp_steps (fun i m_layers =>
        modifyAt m_layers 0 (fun layer0 =>
          modifyAt layer0 i (fun nrn => do
            let v ← idx inputVals i
            pure (nrn.setOutputVal v)))) inputVals.length 0
    (fun i => layers.set 0 (l0.mapIdx (fun k n =>
      if k < i then n.setOutputVal (inputVals.getD k 0) else n))) (by
      intro i hi
      simp only [Nat.zero_add]
      have hx : l0[i]? = some l0[i] := List.getElem?_eq_getElem (by omega)
      have hv : inputVals[i]? = some inputVals[i] := List.getElem?_eq_getElem hi
      have hin : (l0.mapIdx (fun k n =>
          if k < i then n.setOutputVal (inputVals.getD k 0) else n))[i]? = some l0[i] := by
        simp [hx]
      have hinner : modifyAt (l0.mapIdx (fun k n =>
            if k < i then n.setOutputVal (inputVals.getD k 0) else n)) i (fun nrn => do
              let v ← idx inputVals i
              pure (nrn.setOutputVal v))
          = .ok (l0.mapIdx (fun k n =>
            if k < i + 1 then n.setOutputVal (inputVals.getD k 0) else n)) := by
        rw [modifyAt_ok hin (y := l0[i].setOutputVal (inputVals.getD i 0)) (by
          simp [idx_of_getElem? hv, bind, Except.bind, pure, Except.pure, hv])]
        rw [mapIdx_set_step (fun k (n : Neuron α) => n.setOutputVal (inputVals.getD k 0)) l0 i _ hx]
      have hout : (layers.set 0 (l0.mapIdx (fun k n =>
          if k < i then n.setOutputVal (inputVals.getD k 0) else n)))[0]?
          = some (l0.mapIdx (fun k n =>
          if k < i then n.setOutputVal (inputVals.getD k 0) else n)) := by
        simp [hpos]
      rw [modifyAt_ok hout hinner, List.set_set])
  simp only [] at key
  have h00 : layers.set 0 (l0.mapIdx (fun k n =>
      if k < 0 then n.setOutputVal (inputVals.getD k 0) else n)) = layers := by
    simp only [Nat.not_lt_zero, if_false, mapIdx_self]
    apply List.ext_getElem?
    intro j
    rw [List.getElem?_set]
    by_cases hj : 0 = j
    · subst hj; simp [hpos, h0]
    · simp [hj]
  rw [h00] at key
  rw [key]
  rfl

theorem forwardLoop_ok (M : CMath α) (net : Net α) (T : List Nat) (inputVals : List α)
    (h : net.WellFormed T) (l0 : Layer α) (h0 : net.m_layers[0]? = some l0) :
    loopUp (fun layerNum m_layers => do
        let prevLayer ← idx m_layers (layerNum - 1)
        modifyAt m_layers layerNum (fun layer =>
          forRange 0 (subSize layer.length 1) (fun n layer =>
            modifyAt layer n (fun nrn => nrn.feedForward M prevLayer)) layer))
        (net.m_layers.length - 1) 1 (net.m_layers.set 0 (Layer.latched inputVals l0))
      = .ok (fedLayers M net.m_layers inputVals) := by
  have hlen := h.length
  have hpos : 0 < net.m_layers.length := lt_length_of_getElem? h0
  have key := loopUp_steps (fun layerNum m_layers => do
        let prevLayer ← idx m_layers (layerNum - 1)
        modifyAt m_layers layerNum (fun layer =>
          forRange 0 (subSize layer.length 1) (fun n layer =>
            modifyAt layer n (fun nrn => nrn.feedForward M prevLayer)) layer))
        (net.m_layers.length - 1) 1
    (fun i => net.m_layers.mapIdx (fun L l =>
      if L ≤ i then fedLayer M net.m_layers inputVals L else l)) (by
      intro i hi
      have hi1 : i + 1 < T.length := by omega
      have hi0 : i < T.length := by omega
      obtain ⟨cur, hcur, hcs⟩ := h.layer hi1
      obtain ⟨prv, hprv, hps⟩ := h.layer hi0
      have hprev : (net.m_layers.mapIdx (fun L l =>
          if L ≤ i then fedLayer M net.m_layers inputVals L else l))[1 + i - 1]?
          = some (fedLayer M net.m_layers inputVals i) := by
        have : 1 + i - 1 = i := by omega
        simp [this, hprv]
      have hcur' : (net.m_layers.mapIdx (fun L l =>
          if L ≤ i then fedLayer M net.m_layers inputVals L else l))[1 + i]? = some cur := by
        have : 1 + i = i + 1 := by omega
        simp [this, hcur]
      have hfs : (fedLayer M net.m_layers inputVals i).map Neuron.shape
          = layerShape (T.getD i 0) (T.getD (i + 1) 0) := by
        rw [fedLayer_shape, getD_of_getElem? hprv, hps]
      have hcl := shape_length hcs
      have hstep := feedLayer_ok M (fedLayer M net.m_layers inputVals i) cur (by omega)
        (by have := h.size_lt hi1; omega)
        (fun k n hk => (shape_getElem? hcs hk).1)
        (fun p hp => by have := shape_mem hfs hp; omega)
      simp only [idx_of_getElem? hprev, bind, Except.bind]
      rw [modifyAt_ok (f := fun (layer : Layer α) =>
        forRange 0 (subSize layer.length 1) (fun n layer =>
          modifyAt layer n (fun nrn =>
            nrn.feedForward M (fedLayer M net.m_layers inputVals i))) layer) hcur' hstep]
      have : 1 + i = i + 1 := by omega
      rw [this, ← mapIdx_set_le (fedLayer M net.m_layers inputVals) net.m_layers i]
      simp only [fedLayer, getD_of_getElem? hcur])
  have h00 : net.m_layers.mapIdx (fun L l =>
      if L ≤ 0 then fedLayer M net.m_layers inputVals L else l)
      = net.m_layers.set 0 (Layer.latched inputVals l0) := by
    apply List.ext_getElem?
    intro j
    rw [List.getElem?_set]
    simp only [List.getElem?_mapIdx]
    by_cases hj : 0 = j
    · subst hj; simp [hpos, h0, fedLayer, getD_of_getElem? h0]
    · have : ¬ j ≤ 0 := by omega
      simp only [hj, this, if_false]
      cases net.m_layers[j]? <;> rfl
  have hend : net.m_layers.mapIdx (fun L l =>
      if L ≤ net.m_layers.length - 1 then fedLayer M net.m_layers inputVals L else l)
      = fedLayers M net.m_layers inputVals := by
    apply List.ext_getElem?
    intro j
    simp only [fedLayers, List.getElem?_mapIdx]
    by_cases hj : j < net.m_layers.length
    · have : j ≤ net.m_layers.length - 1 := by omega
      simp [this]
    · simp [List.getElem?_eq_none (Nat.le_of_not_lt hj)]
  simp only [] at key
  rw [h00, hend] at key
  exact key

theorem Net.feedForward_ok (M : CMath α) (net : Net α) (T : List Nat) (inputVals : List α)
    (h : net.WellFormed T) (hT : 1 ≤ T.length) (hin : inputVals.length = T.getD 0 0) :
    net.feedForward M inputVals
      = .ok { net with m_layers := fedLayers M net.m_layers inputVals } := by
  obtain ⟨l0, h0, hs0⟩ := h.layer (L := 0) (by omega)
  have hl0 := shape_length hs0
  have hlt := h.size_lt (L := 0) (by omega)
  have hsub : subSize l0.length 1 = inputVals.length := by
    rw [subSize_one (by omega) (by omega)]; omega
  have hlatch := latch_ok inputVals net.m_layers l0 h0 (by omega)
  have hfwd := forwardLoop_ok M net T inputVals h l0 h0
  unfold Net.feedForward
  rw [idx_of_getElem? h0]
  simp only [bind, Except.bind] at hlatch hfwd
  simp only [pure, Except.pure] at hlatch
  simp only [bind, Except.bind]
  rw [hsub, if_neg (fun hne => hne rfl)]
  simp only [pure, Except.pure]
  unfold forRange at hfwd ⊢
  simp only [Nat.sub_zero] at hfwd ⊢
  rw [hlatch]
  simp only [List.length_set]
  rw [hfwd]

theorem getResultsLoop_ok (out : Layer α) (h1 : 1 ≤ out.length) (h2 : out.length ≤ UINT_MAX)
    (r0 : List α) :
    forRange 0 (subSize out.length 1) (fun n resultVals => do
        let nrn ← idx out n
        pure (resultVals ++ [nrn.getOutputVal])) (r0.take 0)
      = .ok (resultsOf out) := by
  have key := loopUp_steps (fun n resultVals => do
        let nrn ← idx out n
        pure (resultVals ++ [nrn.getOutputVal])) (out.length - 1) 0
    (fun i => (out.take i).map (fun n => n.m_outputVal)) (by
      intro i hi
      have hx : out[i]? = some out[i] := List.getElem?_eq_getElem (by omega)
      simp only [Nat.zero_add, idx_of_getElem? hx, bind, Except.bind, pure, Except.pure,
        List.take_succ, hx, Option.toList, List.map_append, List.map_cons, List.map_nil,
        Neuron.getOutputVal])
  unfold forRange
  rw [subSize_one h1 h2, Nat.sub_zero]
  simpa [resultsOf] using key

theorem errorLoop_ok (targetVals : List α) (out : Layer α) (m : Nat) (hm : m ≤ out.length)
    (ht : m ≤ targetVals.length) :
    loopUp (fun n m_error => do
        let t ← idx targetVals n
        let o ← idx out n
        let delta := t - o.getOutputVal
        pure (m_error + delta * delta)) m 0 0
      = .ok (sqErr targetVals out m) := by
  have key := loopUp_steps (fun n m_error => do
        let t ← idx targetVals n
        let o ← idx out n
        let delta := t - o.getOutputVal
        pure (m_error + delta * delta)) m 0
    (fun i => sqErr targetVals out i) (by
      intro i hi
      have hx : out[i]? = some out[i] := List.getElem?_eq_getElem (by omega)
      have hv : targetVals[i]? = some targetVals[i] := List.getElem?_eq_getElem (by omega)
      simp only [Nat.zero_add, idx_of_getElem? hx, idx_of_getElem? hv, bind, Except.bind, pure,
        Except.pure, sqErr, List.range_succ, List.map_append, List.sum_append, List.map_cons,
        List.map_nil, List.sum_cons, List.sum_nil, add_zero, outAt, hx, getD_of_getElem? hv,
        Neuron.getOutputVal])
  simpa [sqErr] using key

theorem outGradLoop_ok (targetVals : List α) (out : Layer α) (h1 : 1 ≤ out.length)
    (h2 : out.length ≤ UINT_MAX) (ht : out.length - 1 ≤ targetVals.length) :
    forRange 0 (subSize out.length 1) (fun n outputLayer =>
        modifyAt outputLayer n (fun nrn => do
          let t ← idx targetVals n
          pure (nrn.calcOutputGradients t))) out
      = .ok (Layer.outGrads targetVals out) := by
  unfold forRange
  rw [subSize_one h1 h2, Nat.sub_zero]
  exact loopUp_modifyAt (fun n (nrn : Neuron α) => do
          let t ← idx targetVals n
          pure (nrn.calcOutputGradients t))
    (fun n nrn => nrn.calcOutputGradients (targetVals.getD n 0)) out (out.length - 1) (by
      intro i hi
      refine ⟨out[i], List.getElem?_eq_getElem (by omega), ?_⟩
      have hv : targetVals[i]? = some targetVals[i] := List.getElem?_eq_getElem (by omega)
      simp only [idx_of_getElem? hv, bind, Except.bind, pure, Except.pure, getD_of_getElem? hv])

theorem hidGradLoop_ok (next h : Layer α) (h1 : 1 ≤ next.length) (h2 : next.length ≤ UINT_MAX)
    (hw : ∀ p ∈ h, next.length - 1 ≤ p.m_outputWeights.length) :
    forRange 0 h.length (fun n hiddenLayer =>
        modifyAt hiddenLayer n (fun nrn => nrn.calcHiddenGradients next)) h
      = .ok (Layer.hidGrads next h) := by
  unfold forRange
  rw [Nat.sub_zero]
  rw [loopUp_modifyAt (fun _ (nrn : Neuron α) => nrn.calcHiddenGradients next)
    (fun _ nrn => { nrn with
      m_gradient := dowSum nrn next * (1 - nrn.m_outputVal * nrn.m_outputVal) }) h h.length (by
      intro i hi
      refine ⟨h[i], List.getElem?_eq_getElem hi, ?_⟩
      exact Neuron.calcHiddenGradients_ok h[i] next h1 h2 (hw _ (List.getElem_mem hi)))]
  rw [mapIdx_lt_length, mapIdx_const]
  rfl

theorem updateLoop_ok (layer prev : Layer α) (h1 : 1 ≤ layer.length)
    (h2 : layer.length ≤ UINT_MAX)
    (hidx : ∀ (k : Nat) (n : Neuron α), layer[k]? = some n → n.m_myIndex = k)
    (hw : ∀ p ∈ prev, layer.length - 1 ≤ p.m_outputWeights.length) :
    forRange 0 (subSize layer.length 1) (fun n prevLayer => do
        let nrn ← idx layer n
        nrn.updateInputWeights prevLayer) prev
      = .ok (Layer.updatedFrom layer prev) := by
  have key := loopUp_steps (fun n prevLayer => do
        let nrn ← idx layer n
        nrn.updateInputWeights prevLayer) (layer.length - 1) 0
    (fun i => prev.map (Neuron.slotsUpdated layer i)) (by
      intro i hi
      have hx : layer[i]? = some layer[i] := List.getElem?_eq_getElem (by omega)
      have hi' := hidx i _ hx
      simp only [Nat.zero_add, idx_of_getElem? hx, bind, Except.bind]
      rw [Neuron.updateInputWeights_ok _ _ (by
        intro p hp
        obtain ⟨q, hq, rfl⟩ := List.mem_map.1 hp
        have := hw q hq
        simp only [Neuron.slotsUpdated, List.length_mapIdx, hi']
        omega)]
      simp only [List.map_map, hi']
      congr 1
      apply List.map_congr_left
      intro p hp
      have := hw p hp
      exact Neuron.setSlot_slotsUpdated layer i p _ hx (by omega))
  unfold forRange
  rw [subSize_one h1 h2, Nat.sub_zero]
  have h0 : prev.map (Neuron.slotsUpdated layer 0) = prev := by
    conv_rhs => rw [← List.map_id prev]
    apply List.map_congr_left
    intro p _
    simp [Neuron.slotsUpdated, mapIdx_self]
  simp only [h0] at key
  exact key

theorem mapIdx_set_ge {β : Type} (F : Nat → β) (v : List β) (a : Nat) :
    (v.mapIdx (fun L l => if a + 1 ≤ L then F L else l)).set a (F a)
      = v.mapIdx (fun L l => if a ≤ L then F L else l) := by
  apply List.ext_getElem?
  intro j
  rw [List.getElem?_set]
  simp only [List.length_mapIdx, List.getElem?_mapIdx]
  by_cases hij : a = j
  · subst hij
    by_cases hl : a < v.length
    · simp [hl, List.getElem?_eq_getElem hl]
    · simp [hl, List.getElem?_eq_none (Nat.le_of_not_lt hl)]
  · simp only [hij, if_false]
    by_cases hj : a + 1 ≤ j
    · have : a ≤ j := by omega
      simp [hj, this]
    · have : ¬ a ≤ j := by omega
      simp [hj, this]

theorem Layer.outGrads_shape (targetVals : List α) (out : Layer α) :
    (Layer.outGrads targetVals out).map Neuron.shape = out.map Neuron.shape := by
  apply map_mapIdx_of
  intro k x
  by_cases hk : k < out.length - 1 <;> simp [hk, Neuron.shape, Neuron.calcOutputGradients]

theorem Layer.hidGrads_shape (next h : Layer α) :
    (Layer.hidGrads next h).map Neuron.shape = h.map Neuron.shape := by
  simp only [Layer.hidGrads, List.map_map]
  apply List.map_congr_left
  intro p _
  rfl

theorem Layer.updatedFrom_shape (next prev : Layer α) :
    (Layer.updatedFrom next prev).map Neuron.shape = prev.map Neuron.shape := by
  simp only [Layer.updatedFrom, List.map_map]
  apply List.map_congr_left
  intro p _
  simp [Neuron.shape, Neuron.slotsUpdated]

theorem gradLayer_shape (layers : List (Layer α)) (targetVals : List α) (d : Nat) :
    (gradLayer layers targetVals d).map Neuron.shape
      = (layers.getD (layers.length - 1 - d) []).map Neuron.shape := by
  cases d with
  | zero => exact Layer.outGrads_shape _ _
  | succ d => exact Layer.hidGrads_shape _ _

theorem gradAt_updatedFrom (x cur : Layer α) (k : Nat) :
    gradAt (Layer.updatedFrom x cur) k = gradAt cur k := by
  simp only [gradAt, Layer.updatedFrom, List.getElem?_map]
  cases cur[k]? <;> rfl

theorem Layer.updatedFrom_updatedFrom (x cur prev : Layer α) :
    Layer.updatedFrom (Layer.updatedFrom x cur) prev = Layer.updatedFrom cur prev := by
  have hg := fun k => gradAt_updatedFrom x cur k
  simp only [Layer.updatedFrom] at hg
  simp only [Layer.updatedFrom, List.length_map]
  apply List.map_congr_left
  intro p _
  simp only [Neuron.slotsUpdated, hg]

theorem mapIdx_set_gen {β : Type} (g : Nat → β → β) (P Q : Nat → Prop) [DecidablePred P]
    [DecidablePred Q] (v : List β) (a : Nat) (x : β) (hx : v[a]? = some x)
    (hQ : Q a) (hPQ : ∀ L, L ≠ a → (P L ↔ Q L)) :
    (v.mapIdx (fun L l => if P L then g L l else l)).set a (g a x)
      = v.mapIdx (fun L l => if Q L then g L l else l) := by
  apply List.ext_getElem?
  intro j
  rw [List.getElem?_set]
  simp only [List.length_mapIdx, List.getElem?_mapIdx]
  have hl := lt_length_of_getElem? hx
  by_cases hij : a = j
  · subst hij
    simp [hl, hx, hQ]
  · simp only [hij, if_false]
    have := hPQ j (fun h => hij h.symm)
    by_cases hj : P j
    · simp [hj, this.1 hj]
    · have hq : ¬ Q j := fun hq => hj (this.2 hq)
      simp [hj, hq]

theorem hiddenLoop_ok (net : Net α) (T : List Nat) (targetVals : List α)
    (h : net.WellFormed T) (hT : 2 ≤ T.length) :
    forDown (fun layerNum m_layers => do
        let nextLayer ← idx m_layers (layerNum + 1)
        modifyAt m_layers layerNum (fun hiddenLayer =>
          forRange 0 hiddenLayer.length (fun n hiddenLayer =>
            modifyAt hiddenLayer n (fun nrn => nrn.calcHiddenGradients nextLayer)) hiddenLayer))
        (net.m_layers.length - 2)
        (net.m_layers.set (net.m_layers.length - 1) (Layer.outGrads targetVals net.outputLayer))
      = .ok (gradLayers net.m_layers targetVals) := by
  have hlen := h.length
  have key := forDown_steps (fun layerNum m_layers => do
        let nextLayer ← idx m_layers (layerNum + 1)
        modifyAt m_layers layerNum (fun hiddenLayer =>
          forRange 0 hiddenLayer.length (fun n hiddenLayer =>
            modifyAt hiddenLayer n (fun nrn => nrn.calcHiddenGradients nextLayer)) hiddenLayer))
        (net.m_layers.length - 2)
    (fun i => net.m_layers.mapIdx (fun L l =>
      if net.m_layers.length - 1 - i ≤ L
      then gradLayer net.m_layers targetVals (net.m_layers.length - 1 - L) else l)) (by
      intro i hi
      generalize ha : net.m_layers.length - 2 - i = a
      have e1 : net.m_layers.length - 1 - i = a + 1 := by omega
      have e2 : net.m_layers.length - 1 - (i + 1) = a := by omega
      have e3 : net.m_layers.length - 1 - (a + 1) = i := by omega
      have e4 : net.m_layers.length - 1 - a = i + 1 := by omega
      have ha1 : a + 1 < T.length := by omega
      have ha0 : a < T.length := by omega
      obtain ⟨nxt, hnxt, hns⟩ := h.layer ha1
      obtain ⟨hid, hhid, hhs⟩ := h.layer ha0
      simp only [e1, e2]
      have hnext : (net.m_layers.mapIdx (fun L l =>
          if a + 1 ≤ L then gradLayer net.m_layers targetVals (net.m_layers.length - 1 - L)
          else l))[a + 1]? = some (gradLayer net.m_layers targetVals i) := by
        simp [hnxt, e3]
      have hcur : (net.m_layers.mapIdx (fun L l =>
          if a + 1 ≤ L then gradLayer net.m_layers targetVals (net.m_layers.length - 1 - L)
          else l))[a]? = some hid := by
        simp [hhid]
      have hgs : (gradLayer net.m_layers targetVals i).map Neuron.shape
          = layerShape (T.getD (a + 1) 0) (T.getD (a + 1 + 1) 0) := by
        rw [gradLayer_shape, e1, getD_of_getElem? hnxt, hns]
      have hgl := shape_length hgs
      have hstep := hidGradLoop_ok (gradLayer net.m_layers targetVals i) hid (by omega)
        (by have := h.size_lt ha1; omega)
        (fun p hp => by have := shape_mem hhs hp; omega)
      simp only [idx_of_getElem? hnext, bind, Except.bind]
      rw [modifyAt_ok (f := fun (hiddenLayer : Layer α) =>
          forRange 0 hiddenLayer.length (fun n hiddenLayer =>
            modifyAt hiddenLayer n (fun nrn =>
              nrn.calcHiddenGradients (gradLayer net.m_layers targetVals i))) hiddenLayer)
        hcur hstep]
      congr 1
      have := mapIdx_set_gen
        (fun L (_ : Layer α) => gradLayer net.m_layers targetVals (net.m_layers.length - 1 - L))
        (fun L => a + 1 ≤ L) (fun L => a ≤ L) net.m_layers a hid hhid (by simp)
        (by intro L hL; constructor <;> intro h' <;> omega)
      simp only [e4, gradLayer, e2, getD_of_getElem? hhid] at this
      exact this)
  have hpos : net.m_layers.length - 1 < net.m_layers.length := by omega
  have h00 : net.m_layers.mapIdx (fun L l =>
      if net.m_layers.length - 1 - 0 ≤ L
      then gradLayer net.m_layers targetVals (net.m_layers.length - 1 - L) else l)
      = net.m_layers.set (net.m_layers.length - 1) (Layer.outGrads targetVals net.outputLayer) := by
    apply List.ext_getElem?
    intro j
    rw [List.getElem?_set]
    simp only [List.getElem?_mapIdx, Nat.sub_zero]
    by_cases hj : net.m_layers.length - 1 = j
    · subst hj
      simp [hpos, List.getElem?_eq_getElem hpos, gradLayer, Net.outputLayer]
    · simp only [hj, if_false]
      by_cases hjl : j < net.m_layers.length
      · have : ¬ net.m_layers.length - 1 ≤ j := by omega
        simp [this]
      · simp [List.getElem?_eq_none (Nat.le_of_not_lt hjl)]
  have hend : net.m_layers.mapIdx (fun L l =>
      if net.m_layers.length - 1 - (net.m_layers.length - 2) ≤ L
      then gradLayer net.m_layers targetVals (net.m_layers.length - 1 - L) else l)
      = gradLayers net.m_layers targetVals := by
    have : net.m_layers.length - 1 - (net.m_layers.length - 2) = 1 := by omega
    rw [this]
    rfl
  simp only [] at key
  rw [h00, hend] at key
  exact key

theorem updateLayersLoop_ok (net : Net α) (T : List Nat) (h : net.WellFormed T)
    (hT : 1 ≤ T.length) :
    forDown (fun layerNum m_layers => do
        let layer ← idx m_layers layerNum
        modifyAt m_layers (layerNum - 1) (fun prevLayer =>
          forRange 0 (subSize layer.length 1) (fun n prevLayer => do
            let nrn ← idx layer n
            nrn.updateInputWeights prevLayer) prevLayer))
        (net.m_layers.length - 1) net.m_layers
      = .ok (updatedLayers net.m_layers) := by
  have hlen := h.length
  have key := forDown_steps (fun layerNum m_layers => do
        let layer ← idx m_layers layerNum
        modifyAt m_layers (layerNum - 1) (fun prevLayer =>
          forRange 0 (subSize layer.length 1) (fun n prevLayer => do
            let nrn ← idx layer n
            nrn.updateInputWeights prevLayer) prevLayer))
        (net.m_layers.length - 1)
    (fun i => net.m_layers.mapIdx (fun L l =>
      if net.m_layers.length - 1 - i ≤ L ∧ L + 1 < net.m_layers.length
      then Layer.updatedFrom (net.m_layers.getD (L + 1) []) l else l)) (by
      intro i hi
      generalize ha : net.m_layers.length - 1 - i - 1 = a
      have e1 : net.m_layers.length - 1 - i = a + 1 := by omega
      have e2 : net.m_layers.length - 1 - (i + 1) = a := by omega
      have ha1 : a + 1 < T.length := by omega
      have ha0 : a < T.length := by omega
      obtain ⟨cur, hcur, hcs⟩ := h.layer ha1
      obtain ⟨prv, hprv, hps⟩ := h.layer ha0
      simp only [e1, e2, Nat.add_sub_cancel]
      -- the layer read at `layerNum`: possibly already updated, same gradients and shape
      obtain ⟨X, hX, hXs, hXu⟩ : ∃ X : Layer α,
          (net.m_layers.mapIdx (fun L l =>
            if a + 1 ≤ L ∧ L + 1 < net.m_layers.length
            then Layer.updatedFrom (net.m_layers.getD (L + 1) []) l else l))[a + 1]? = some X
          ∧ X.map Neuron.shape = cur.map Neuron.shape
          ∧ Layer.updatedFrom X prv = Layer.updatedFrom cur prv := by
        by_cases hc : a + 1 + 1 < net.m_layers.length
        · refine ⟨Layer.updatedFrom (net.m_layers.getD (a + 1 + 1) []) cur, ?_, ?_, ?_⟩
          · simp [hcur, hc]
          · exact Layer.updatedFrom_shape _ _
          · exact Layer.updatedFrom_updatedFrom _ _ _
        · exact ⟨cur, by simp [hcur, hc], rfl, rfl⟩
      have hprev : (net.m_layers.mapIdx (fun L l =>
            if a + 1 ≤ L ∧ L + 1 < net.m_layers.length
            then Layer.updatedFrom (net.m_layers.getD (L + 1) []) l else l))[a]? = some prv := by
        simp [hprv]
      have hXs' : X.map Neuron.shape = layerShape (T.getD (a + 1) 0) (T.getD (a + 1 + 1) 0) := by
        rw [hXs, hcs]
      have hXl := shape_length hXs'
      have hstep := updateLoop_ok X prv (by omega) (by have := h.size_lt ha1; omega)
        (fun k n hk => (shape_getElem? hXs' hk).1)
        (fun p hp => by have := shape_mem hps hp; omega)
      have hm := modifyAt_ok (f := fun (prevLayer : Layer α) =>
          forRange 0 (subSize X.length 1) (fun n prevLayer => do
            let nrn ← idx X n
            nrn.updateInputWeights prevLayer) prevLayer) hprev hstep
      simp only [bind, Except.bind] at hm
      simp only [idx_of_getElem? hX, bind, Except.bind]
      rw [hm]
      apply congrArg Except.ok
      have := mapIdx_set_gen
        (fun L (l : Layer α) => Layer.updatedFrom (net.m_layers.getD (L + 1) []) l)
        (fun L => a + 1 ≤ L ∧ L + 1 < net.m_layers.length)
        (fun L => a ≤ L ∧ L + 1 < net.m_layers.length) net.m_layers a prv hprv
        ⟨Nat.le_refl a, by omega⟩
        (by intro L hL; constructor <;> intro h' <;> constructor <;> omega)
      simp only [getD_of_getElem? hcur] at this
      rw [hXu]
      exact this)
  have h00 : net.m_layers.mapIdx (fun L l =>
      if net.m_layers.length - 1 - 0 ≤ L ∧ L + 1 < net.m_layers.length
      then Layer.updatedFrom (net.m_layers.getD (L + 1) []) l else l) = net.m_layers := by
    apply List.ext_getElem?
    intro j
    simp only [List.getElem?_mapIdx, Nat.sub_zero]
    have : ¬ (net.m_layers.length - 1 ≤ j ∧ j + 1 < net.m_layers.length) := by omega
    simp only [this, if_false]
    cases net.m_layers[j]? <;> rfl
  have hend : net.m_layers.mapIdx (fun L l =>
      if net.m_layers.length - 1 - (net.m_layers.length - 1) ≤ L ∧ L + 1 < net.m_layers.length
      then Layer.updatedFrom (net.m_layers.getD (L + 1) []) l else l)
      = updatedLayers net.m_layers := by
    simp only [Nat.sub_self, Nat.zero_le, true_and]
    rfl
  simp only [] at key
  rw [h00, hend] at key
  exact key

theorem Net.WellFormed.of_shape {T : List Nat} {net net' : Net α} (h : net.WellFormed T)
    (hs : net'.shape = net.shape) : net'.WellFormed T :=
  ⟨h.1, hs.trans h.2⟩

theorem gradLayers_shape (layers : List (Layer α)) (targetVals : List α) :
    (gradLayers layers targetVals).map (fun l => l.map Neuron.shape)
      = layers.map (fun l => l.map Neuron.shape) := by
  apply List.ext_getElem?
  intro j
  simp only [gradLayers, List.getElem?_map, List.getElem?_mapIdx]
  cases h : layers[j]? with
  | none => simp
  | some l =>
    have hj := lt_length_of_getElem? h
    simp only [Option.map_some', Option.some.injEq]
    by_cases h1 : 1 ≤ j
    · simp only [h1, if_true, gradLayer_shape]
      have : layers.length - 1 - (layers.length - 1 - j) = j := by omega
      rw [this, getD_of_getElem? h]
    · simp [h1]

theorem updatedLayers_shape (layers : List (Layer α)) :
    (updatedLayers layers).map (fun l => l.map Neuron.shape)
      = layers.map (fun l => l.map Neuron.shape) := by
  apply List.ext_getElem?
  intro j
  simp only [updatedLayers, List.getElem?_map, List.getElem?_mapIdx]
  cases h : layers[j]? with
  | none => simp
  | some l =>
    simp only [Option.map_some', Option.some.injEq]
    by_cases h1 : j + 1 < layers.length
    · simp only [h1, if_true, Layer.updatedFrom_shape]
    · simp [h1]

theorem Net.fedForward_wf {T : List Nat} {net : Net α} (h : net.WellFormed T) (M : CMath α)
    (inputVals : List α) : (net.fedForward M inputVals).WellFormed T :=
  h.of_shape (fedLayers_shape M net.m_layers inputVals)

theorem Net.backPropagated_wf {T : List Nat} {net : Net α} (h : net.WellFormed T) (M : CMath α)
    (targetVals : List α) : (net.backPropagated M targetVals).WellFormed T :=
  h.of_shape (by
    simp only [Net.shape, Net.backPropagated]
    rw [updatedLayers_shape, gradLayers_shape])

theorem Net.WellFormed.outputLayer {T : List Nat} {net : Net α} (h : net.WellFormed T)
    (hT : 1 ≤ T.length) :
    net.m_layers[net.m_layers.length - 1]? = some net.outputLayer
      ∧ net.outputLayer.map Neuron.shape = layerShape (T.getD (T.length - 1) 0) 0 := by
  have hlen := h.length
  obtain ⟨l, hl, hs⟩ := h.layer (L := T.length - 1) (by omega)
  have e : T.length - 1 + 1 = T.length := by omega
  have hz : T.getD (T.length - 1 + 1) 0 = 0 := by
    rw [e]; simp [List.getD]
  rw [hz] at hs
  have hl' : net.m_layers[net.m_layers.length - 1]? = some l := by rw [hlen]; exact hl
  refine ⟨?_, ?_⟩
  · simp only [Net.outputLayer, getD_of_getElem? hl', hl']
  · simp only [Net.outputLayer, getD_of_getElem? hl', hs]

theorem Net.getResults_ok {T : List Nat} {net : Net α} (h : net.WellFormed T)
    (hT : 1 ≤ T.length) (resultVals : List α) :
    net.getResults resultVals = .ok (resultsOf net.outputLayer) := by
  obtain ⟨ho, hs⟩ := h.outputLayer hT
  have hl := shape_length hs
  have hlt := h.size_lt (L := T.length - 1) (by omega)
  have hloop := getResultsLoop_ok net.outputLayer (by omega) (by omega) resultVals
  simp only [bind, Except.bind, pure, Except.pure] at hloop
  unfold Net.getResults
  simp only [back_of_getElem? ho, bind, Except.bind, pure, Except.pure]
  rw [hloop]

theorem Net.backProp_ok {T : List Nat} {net : Net α} (h : net.WellFormed T) (hT : 2 ≤ T.length)
    (M : CMath α) (targetVals : List α) (ht : T.getD (T.length - 1) 0 ≤ targetVals.length) :
    net.backProp M targetVals = .ok (net.backPropagated M targetVals) := by
  have hlen := h.length
  obtain ⟨ho, hs⟩ := h.outputLayer (by omega)
  have hl := shape_length hs
  have hlt := h.size_lt (L := T.length - 1) (by omega)
  have hsub : subSize net.outputLayer.length 1 = net.outputLayer.length - 1 :=
    subSize_one (by omega) (by omega)
  have hE := errorLoop_ok targetVals net.outputLayer (net.outputLayer.length - 1) (by omega)
    (by omega)
  have hG := outGradLoop_ok targetVals net.outputLayer (by omega) (by omega) (by omega)
  have hH := hiddenLoop_ok net T targetVals h hT
  -- the network between the two phases
  have hwf' : (Net.mk (gradLayers net.m_layers targetVals) net.m_error
      net.m_recentAverageError).WellFormed T :=
    h.of_shape (by simp only [Net.shape]; rw [gradLayers_shape])
  have hU := updateLayersLoop_ok _ T hwf' (by omega)
  have hglen : (gradLayers net.m_layers targetVals).length = net.m_layers.length := by
    simp [gradLayers]
  have hs2 : subUnsigned net.m_layers.length 2 = net.m_layers.length - 2 :=
    subUnsigned_of_le (by omega) (by have := h.1.1; omega)
  have hs1 : subUnsigned net.m_layers.length 1 = net.m_layers.length - 1 :=
    subUnsigned_of_le (by omega) (by have := h.1.1; omega)
  simp only [bind, Except.bind, pure, Except.pure] at hE hG hH hU
  unfold Net.backProp
  simp only [back_of_getElem? ho, bind, Except.bind, pure, Except.pure]
  unfold forRange at hG hH hU ⊢
  simp only [hsub, Nat.sub_zero] at hG hH hU ⊢
  rw [hE]
  simp only []
  rw [hG]
  simp only [List.length_set, hs2]
  rw [hH]
  simp only [hglen, hs1]
  rw [hglen] at hU
  rw [hU]
  rfl

theorem loopUp_ok_step {σ : Type} (body : Nat → σ → Except Fault σ) :
    ∀ (count lo : Nat) (s s' : σ), loopUp body count lo s = .ok s' →
      ∀ i, i < count → ∃ si si', body (lo + i) si = .ok si' := by
  intro count
  induction count with
  | zero => intro lo s s' _ i hi; omega
  | succ c ih =>
    intro lo s s' h i hi
    simp only [loopUp] at h
    cases hb : body lo s with
    | error e => rw [hb] at h; cases h
    | ok s1 =>
      rw [hb] at h
      cases i with
      | zero => exact ⟨s, s1, hb⟩
      | succ j =>
        obtain ⟨si, si', hs⟩ := ih (lo + 1) s1 s' h j (by omega)
        refine ⟨si, si', ?_⟩
        have : lo + (j + 1) = lo + 1 + j := by omega
        rw [this]; exact hs

theorem makeLayer_ok (C : Libc) (U : Indeterminate α) (layerNum numOutputs size calls : Nat)
    (hs : size < UINT_MAX) :
    Net.makeLayer C U layerNum numOutputs size calls
      = .ok (builtLayer C U layerNum numOutputs size calls, calls + (size + 1) * numOutputs) := by
  have key := loopUp_steps (fun neuronNum (st : Layer α × Nat) =>
        let r := Neuron.construct C (U.outputVal layerNum neuronNum) (U.gradient layerNum neuronNum)
          numOutputs neuronNum st.2
        Except.ok (st.1 ++ [r.1], r.2)) (size + 1) 0
    (fun i => ((List.range i).map (fun k =>
        (Neuron.construct C (U.outputVal layerNum k) (U.gradient layerNum k) numOutputs k
          (calls + k * numOutputs)).1), calls + i * numOutputs)) (by
      intro i _
      simp only [Nat.zero_add, List.range_succ, List.map_append, List.map_cons, List.map_nil,
        Neuron.construct]
      congr 2
      rw [Nat.add_mul, Nat.one_mul, Nat.add_assoc])
  simp only [List.range_zero, List.map_nil, Nat.zero_mul, Nat.add_zero] at key
  unfold Net.makeLayer
  rw [if_pos hs, key]
  simp only [List.length_map, List.length_range, Nat.add_sub_cancel]
  have hx : ((List.range (size + 1)).map (fun k =>
        (Neuron.construct C (U.outputVal layerNum k) (U.gradient layerNum k) numOutputs k
          (calls + k * numOutputs)).1))[size]?
      = some (Neuron.construct C (U.outputVal layerNum size) (U.gradient layerNum size)
          numOutputs size (calls + size * numOutputs)).1 := by
    simp [List.getElem?_range (Nat.lt_succ_self size)]
  rw [modifyAt_ok (f := fun (nrn : Neuron α) => Except.ok (nrn.setOutputVal 1)) hx rfl]
  simp only []
  congr 2
  apply List.ext_getElem?
  intro j
  rw [List.getElem?_set]
  simp only [builtLayer, List.getElem?_map, List.length_map, List.length_range, builtNeuron]
  by_cases hj : size = j
  · subst hj
    simp [List.getElem?_range (Nat.lt_succ_self size), builtNeuron]
  · simp only [hj, if_false]
    by_cases hjl : j < size + 1
    · have : ¬ j = size := fun h => hj h.symm
      simp [List.getElem?_range hjl, this, builtNeuron]
    · have hn : (List.range (size + 1))[j]? = none :=
        List.getElem?_eq_none (by rw [List.length_range]; omega)
      simp [hn]

theorem builtLayer_shape (C : Libc) (U : Indeterminate α) (layerNum numOutputs size calls : Nat) :
    (builtLayer C U layerNum numOutputs size calls).map Neuron.shape
      = layerShape size numOutputs := by
  simp only [builtLayer, layerShape, List.map_map]
  apply List.map_congr_left
  intro k _
  by_cases hk : k = size <;>
    simp [builtNeuron, hk, Neuron.shape, Neuron.construct, Neuron.setOutputVal]

theorem builtNet_wf (C : Libc) (U : Indeterminate α) (T : List Nat) (hT : TopologyOK T) :
    (builtNet C U T).WellFormed T := by
  refine ⟨hT, ?_⟩
  simp only [Net.shape, builtNet, expectedShape, List.map_map]
  apply List.map_congr_left
  intro L _
  exact builtLayer_shape _ _ _ _ _ _

theorem makeLayer_fault (C : Libc) (U : Indeterminate α) (layerNum numOutputs size calls : Nat)
    (hs : ¬ size < UINT_MAX) :
    Net.makeLayer C U layerNum numOutputs size calls = .error .nontermination := by
  unfold Net.makeLayer
  rw [if_neg hs]

theorem Net.construct_ok (C : Libc) (U : Indeterminate α) (T : List Nat) (hT : TopologyOK T) :
    Net.construct C U T = .ok (builtNet C U T) := by
  have hmod : T.length % 4294967296 = T.length :=
    Nat.mod_eq_of_lt (by have := hT.1; unfold UINT_MAX at this; omega)
  have key := loopUp_steps (fun layerNum (st : List (Layer α) × Nat) => do
      let numOutputs ←
        if layerNum = subSize T.length 1 then pure 0 else idx T (layerNum + 1)
      let size ← idx T layerNum
      let r ← Net.makeLayer C U layerNum numOutputs size st.2
      pure (st.1 ++ [r.1], r.2)) T.length 0
    (fun i => ((List.range i).map (fun L =>
      builtLayer C U L (T.getD (L + 1) 0) (T.getD L 0) (callsBefore T L)), callsBefore T i)) (by
      intro i hi
      have hsz : T[i]? = some T[i] := List.getElem?_eq_getElem hi
      have hlt := hT.2 _ (List.getElem_mem hi)
      have hsub := subSize_one (a := T.length) (by omega) hT.1
      by_cases hl : i = T.length - 1
      · have hn : T[i + 1]? = none := List.getElem?_eq_none (by omega)
        have hd : T.getD (i + 1) 0 = 0 := by simp [List.getD, hn]
        simp only [Nat.zero_add, hsub, if_pos hl, idx_of_getElem? hsz, bind, Except.bind,
          makeLayer_ok C U i _ _ _ hlt, pure, Except.pure, List.range_succ, List.map_append,
          List.map_cons, List.map_nil, callsBefore, getD_of_getElem? hsz, hd]
      · have hn : T[i + 1]? = some T[i + 1] := List.getElem?_eq_getElem (by omega)
        simp only [Nat.zero_add, hsub, if_neg hl, idx_of_getElem? hsz, idx_of_getElem? hn, bind,
          Except.bind, makeLayer_ok C U i _ _ _ hlt, pure, Except.pure, List.range_succ,
          List.map_append, List.map_cons, List.map_nil, callsBefore, getD_of_getElem? hsz,
          getD_of_getElem? hn])
  simp only [bind, Except.bind, pure, Except.pure, List.range_zero, List.map_nil,
    callsBefore] at key
  unfold Net.construct
  simp only [bind, Except.bind, pure, Except.pure, hmod]
  unfold forRange
  rw [Nat.sub_zero, key]
  rfl

theorem Net.construct_topology (C : Libc) (U : Indeterminate α) (T : List Nat) (net : Net α)
    (hlen : T.length ≤ UINT_MAX) (h : Net.construct C U T = .ok net) : TopologyOK T := by
  refine ⟨hlen, ?_⟩
  intro t ht
  obtain ⟨i, hi, rfl⟩ := List.getElem_of_mem ht
  have hmod : T.length % 4294967296 = T.length :=
    Nat.mod_eq_of_lt (by unfold UINT_MAX at hlen; omega)
  unfold Net.construct at h
  simp only [bind, Except.bind, pure, Except.pure, hmod] at h
  unfold forRange at h
  rw [Nat.sub_zero] at h
  split at h
  · cases h
  next st hst =>
    obtain ⟨si, si', hb⟩ := loopUp_ok_step _ _ _ _ _ hst i hi
    have hsz : T[i]? = some T[i] := List.getElem?_eq_getElem hi
    by_contra hbad
    have hf : ∀ v, Net.makeLayer C U i v T[i] si.2 = .error .nontermination :=
      fun v => makeLayer_fault C U i v T[i] si.2 hbad
    simp only [Nat.zero_add, idx_of_getElem? hsz] at hb
    by_cases hl : i = subSize T.length 1
    · simp only [if_pos hl, hf] at hb
      cases hb
    · simp only [if_neg hl] at hb
      cases hv : idx T (i + 1) with
      | error e => rw [hv] at hb; cases hb
      | ok v =>
        rw [hv] at hb
        simp only [hf] at hb
        cases hb

/-! ## What each phase leaves unchanged -/

theorem fedLayers_map {β : Type} (f : Neuron α → β)
    (hf : ∀ (n : Neuron α) (o : α), f { n with m_outputVal := o } = f n)
    (M : CMath α) (layers : List (Layer α)) (inputVals : List α) :
    (fedLayers M layers inputVals).map (fun l => l.map f) = layers.map (fun l => l.map f) := by
  apply List.ext_getElem?
  intro j
  simp only [fedLayers, List.getElem?_map, List.getElem?_mapIdx]
  cases h : layers[j]? with
  | none => simp
  | some l =>
    simp only [Option.map_some', Option.some.injEq]
    cases j with
    | zero =>
      simp only [fedLayer, getD_of_getElem? h, Layer.latched]
      apply map_mapIdx_of
      intro k x
      by_cases hk : k < inputVals.length <;> simp [hk, Neuron.setOutputVal, hf]
    | succ j =>
      simp only [fedLayer, getD_of_getElem? h, Layer.fed]
      apply map_mapIdx_of
      intro k x
      by_cases hk : k < l.length - 1 <;> simp [hk, hf]

theorem gradLayers_map {β : Type} (f : Neuron α → β)
    (hf : ∀ (n : Neuron α) (g : α), f { n with m_gradient := g } = f n)
    (layers : List (Layer α)) (targetVals : List α) :
    (gradLayers layers targetVals).map (fun l => l.map f) = layers.map (fun l => l.map f) := by
  apply List.ext_getElem?
  intro j
  simp only [gradLayers, List.getElem?_map, List.getElem?_mapIdx]
  cases h : layers[j]? with
  | none => simp
  | some l =>
    have hj := lt_length_of_getElem? h
    simp only [Option.map_some', Option.some.injEq]
    by_cases h1 : 1 ≤ j
    · simp only [h1, if_true]
      cases hd : layers.length - 1 - j with
      | zero =>
        have : layers.length - 1 = j := by omega
        simp only [gradLayer, this, getD_of_getElem? h, Layer.outGrads]
        apply map_mapIdx_of
        intro k x
        by_cases hk : k < l.length - 1 <;> simp [hk, Neuron.calcOutputGradients, hf]
      | succ d =>
        have : layers.length - 1 - (d + 1) = j := by omega
        simp only [gradLayer, this, getD_of_getElem? h, Layer.hidGrads, List.map_map]
        apply List.map_congr_left
        intro p _
        exact hf _ _
    · simp [h1]

theorem updatedLayers_map {β : Type} (f : Neuron α → β)
    (hf : ∀ (n : Neuron α) (ws : List (Connection α)), f { n with m_outputWeights := ws } = f n)
    (layers : List (Layer α)) :
    (updatedLayers layers).map (fun l => l.map f) = layers.map (fun l => l.map f) := by
  apply List.ext_getElem?
  intro j
  simp only [updatedLayers, List.getElem?_map, List.getElem?_mapIdx]
  cases h : layers[j]? with
  | none => simp
  | some l =>
    simp only [Option.map_some', Option.some.injEq]
    by_cases h1 : j + 1 < layers.length
    · simp only [h1, if_true, Layer.updatedFrom, List.map_map]
      apply List.map_congr_left
      intro p _
      exact hf _ _
    · simp [h1]

theorem neuron?_of_map {β : Type} {f : Neuron α → β} {A B : Net α}
    (h : B.m_layers.map (fun l => l.map f) = A.m_layers.map (fun l => l.map f))
    {L k : Nat} {n : Neuron α} (hn : A.neuron? L k = some n) :
    ∃ n', B.neuron? L k = some n' ∧ f n' = f n := by
  have h1 := congrArg (fun ls => ls[L]?) h
  simp only [List.getElem?_map] at h1
  unfold Net.neuron? at hn ⊢
  cases hl : A.m_layers[L]? with
  | none => rw [hl] at hn; cases hn
  | some l =>
    rw [hl] at hn h1
    have hn' : l[k]? = some n := hn
    cases hl' : B.m_layers[L]? with
    | none => rw [hl'] at h1; cases h1
    | some l' =>
      rw [hl'] at h1
      have h2 : l'.map f = l.map f := by simpa using h1
      have h3 := congrArg (fun x => x[k]?) h2
      simp only [List.getElem?_map, hn'] at h3
      cases hk : l'[k]? with
      | none => rw [hk] at h3; cases h3
      | some n' =>
        rw [hk] at h3
        refine ⟨n', hk, ?_⟩
        simpa using h3

theorem loopUp_fault {σ : Type} (body : Nat → σ → Except Fault σ) (e : Fault) :
    ∀ (count lo : Nat) (st : Nat → σ) (k : Nat), k < count →
      (∀ i, i < k → body (lo + i) (st i) = .ok (st (i + 1))) →
      body (lo + k) (st k) = .error e →
      loopUp body count lo (st 0) = .error e := by
  intro count
  induction count with
  | zero => intro lo st k hk; omega
  | succ c ih =>
    intro lo st k hk hsteps hf
    cases k with
    | zero =>
      simp only [Nat.add_zero] at hf
      simp only [loopUp, hf]
    | succ k =>
      have h0 := hsteps 0 (Nat.succ_pos k)
      simp only [Nat.add_zero] at h0
      simp only [loopUp, h0]
      refine ih (lo + 1) (fun i => st (i + 1)) k (by omega) (fun i hi => ?_) ?_
      · have := hsteps (i + 1) (by omega)
        simpa [Nat.add_assoc, Nat.add_comm 1 i] using this
      · simpa [Nat.add_assoc, Nat.add_comm 1 k] using hf

theorem Net.feedForward_assert {T : List Nat} {net : Net α} (h : net.WellFormed T)
    (hT : 1 ≤ T.length) (M : CMath α) (inputVals : List α)
    (hin : inputVals.length ≠ T.getD 0 0) :
    net.feedForward M inputVals = .error .assertion := by
  obtain ⟨l0, h0, hs0⟩ := h.layer (L := 0) (by omega)
  have hl0 := shape_length hs0
  have hlt := h.size_lt (L := 0) (by omega)
  have hsub : subSize l0.length 1 = T.getD 0 0 := by
    rw [subSize_one (by omega) (by omega)]; omega
  unfold Net.feedForward
  rw [idx_of_getElem? h0]
  simp only [bind, Except.bind]
  rw [hsub, if_pos hin]

theorem Net.feedForward_inv {T : List Nat} {net net' : Net α} (h : net.WellFormed T)
    (hT : 1 ≤ T.length) {M : CMath α} {inputVals : List α}
    (hr : net.feedForward M inputVals = .ok net') :
    inputVals.length = T.getD 0 0 ∧ net' = net.fedForward M inputVals := by
  by_cases hin : inputVals.length = T.getD 0 0
  · rw [Net.feedForward_ok M net T inputVals h hT hin] at hr
    exact ⟨hin, (Except.ok.inj hr).symm⟩
  · rw [Net.feedForward_assert h hT M inputVals hin] at hr
    cases hr

theorem Net.backProp_short {T : List Nat} {net : Net α} (h : net.WellFormed T)
    (hT : 1 ≤ T.length) (M : CMath α) (targetVals : List α)
    (ht : targetVals.length < T.getD (T.length - 1) 0) :
    net.backProp M targetVals = .error .outOfBounds := by
  obtain ⟨ho, hs⟩ := h.outputLayer hT
  have hl := shape_length hs
  have hlt := h.size_lt (L := T.length - 1) (by omega)
  have hsub : subSize net.outputLayer.length 1 = net.outputLayer.length - 1 :=
    subSize_one (by omega) (by omega)
  have hE := loopUp_fault (fun n m_error => do
        let t ← idx targetVals n
        let o ← idx net.outputLayer n
        let delta := t - o.getOutputVal
        pure (m_error + delta * delta)) Fault.outOfBounds (net.outputLayer.length - 1) 0
    (fun i => sqErr targetVals net.outputLayer i) targetVals.length (by omega) (by
      intro i hi
      have hx : net.outputLayer[i]? = some net.outputLayer[i] :=
        List.getElem?_eq_getElem (by omega)
      have hv : targetVals[i]? = some targetVals[i] := List.getElem?_eq_getElem (by omega)
      simp only [Nat.zero_add, idx_of_getElem? hx, idx_of_getElem? hv, bind, Except.bind, pure,
        Except.pure, sqErr, List.range_succ, List.map_append, List.sum_append, List.map_cons,
        List.map_nil, List.sum_cons, List.sum_nil, add_zero, outAt, hx, getD_of_getElem? hv,
        Neuron.getOutputVal]) (by
      have hn : targetVals[targetVals.length]? = none := List.getElem?_eq_none (Nat.le_refl _)
      simp only [Nat.zero_add, idx, hn, bind, Except.bind])
  simp only [sqErr, List.range_zero, List.map_nil, List.sum_nil, bind, Except.bind, pure,
    Except.pure] at hE
  unfold Net.backProp
  simp only [back_of_getElem? ho, bind, Except.bind, pure, Except.pure]
  unfold forRange
  simp only [hsub, Nat.sub_zero]
  rw [hE]

theorem Net.backProp_inv {T : List Nat} {net net' : Net α} (h : net.WellFormed T)
    (hT : 2 ≤ T.length) {M : CMath α} {targetVals : List α}
    (hr : net.backProp M targetVals = .ok net') :
    T.getD (T.length - 1) 0 ≤ targetVals.length ∧ net' = net.backPropagated M targetVals := by
  by_cases ht : T.getD (T.length - 1) 0 ≤ targetVals.length
  · rw [Net.backProp_ok h hT M targetVals ht] at hr
    exact ⟨ht, (Except.ok.inj hr).symm⟩
  · rw [Net.backProp_short h (by omega) M targetVals (by omega)] at hr
    cases hr

theorem Reachable.wellFormed {C : Libc} {U : Indeterminate α} {M : CMath α} {T : List Nat}
    {net : Net α} (hlen : T.length ≤ UINT_MAX) (hT : 2 ≤ T.length)
    (hr : Reachable C U M T net) : net.WellFormed T := by
  induction hr with
  | construct hc =>
    have hok := Net.construct_topology C U T _ hlen hc
    rw [Net.construct_ok C U T hok] at hc
    rw [← Except.ok.inj hc]
    exact builtNet_wf C U T hok
  | feedForward inputVals _ hf ih =>
    rw [(Net.feedForward_inv ih (by omega) hf).2]
    exact Net.fedForward_wf ih M inputVals
  | backProp targetVals _ hb ih =>
    rw [(Net.backProp_inv ih hT hb).2]
    exact Net.backPropagated_wf ih M targetVals

theorem Net.BiasOne.of_map {net net' : Net α} (h : net.BiasOne)
    (hm : net'.m_layers.map (fun l => l.map (fun n => n.m_outputVal))
      = net.m_layers.map (fun l => l.map (fun n => n.m_outputVal))) : net'.BiasOne := by
  intro l' hl'
  have : l'.map (fun n => n.m_outputVal)
      ∈ net'.m_layers.map (fun l => l.map (fun n => n.m_outputVal)) :=
    List.mem_map.2 ⟨l', hl', rfl⟩
  rw [hm] at this
  obtain ⟨l, hl, he⟩ := List.mem_map.1 this
  rw [← he]
  exact h l hl

theorem builtNet_biasOne (C : Libc) (U : Indeterminate α) (T : List Nat) :
    (builtNet C U T).BiasOne := by
  intro l hl
  simp only [builtNet, List.mem_map, List.mem_range] at hl
  obtain ⟨L, _, rfl⟩ := hl
  rw [List.getLast?_eq_getElem?]
  simp [builtLayer, List.getElem?_range, builtNeuron, Neuron.setOutputVal]

theorem Net.fedForward_biasOne {T : List Nat} {net : Net α} (h : net.WellFormed T)
    (hb : net.BiasOne) (M : CMath α) (inputVals : List α)
    (hin : inputVals.length = T.getD 0 0) : (net.fedForward M inputVals).BiasOne := by
  intro l' hl'
  obtain ⟨L, hL, rfl⟩ := List.getElem_of_mem hl'
  simp only [Net.fedForward, fedLayers, List.length_mapIdx] at hL
  simp only [Net.fedForward, fedLayers, List.getElem_mapIdx]
  have hlen := h.length
  obtain ⟨l, hl, hs⟩ := h.layer (L := L) (by omega)
  have hll := shape_length hs
  have hb' := hb l (List.getElem?_mem hl)
  rw [List.getLast?_eq_getElem?] at hb' ⊢
  simp only [List.length_map, List.getElem?_map] at hb' ⊢
  cases L with
  | zero =>
    simp only [fedLayer, getD_of_getElem? hl, Layer.latched, List.length_mapIdx,
      List.getElem?_mapIdx]
    have : ¬ l.length - 1 < inputVals.length := by omega
    simp only [this, if_false, Option.map_map]
    cases hx : l[l.length - 1]? with
    | none => rw [hx] at hb'; cases hb'
    | some x => rw [hx] at hb'; simpa using hb'
  | succ L =>
    simp only [fedLayer, getD_of_getElem? hl, Layer.fed, List.length_mapIdx,
      List.getElem?_mapIdx, lt_self_iff_false, if_false, Option.map_map]
    cases hx : l[l.length - 1]? with
    | none => rw [hx] at hb'; cases hb'
    | some x => rw [hx] at hb'; simpa using hb'

theorem Net.backPropagated_biasOne {net : Net α} (hb : net.BiasOne) (M : CMath α)
    (targetVals : List α) : (net.backPropagated M targetVals).BiasOne := by
  apply hb.of_map
  simp only [Net.backPropagated]
  rw [updatedLayers_map (fun n => n.m_outputVal) (fun _ _ => rfl),
    gradLayers_map (fun n => n.m_outputVal) (fun _ _ => rfl)]

theorem Reachable.biasOne {C : Libc} {U : Indeterminate α} {M : CMath α} {T : List Nat}
    {net : Net α} (hlen : T.length ≤ UINT_MAX) (hT : 2 ≤ T.length)
    (hr : Reachable C U M T net) : net.BiasOne := by
  induction hr with
  | construct hc =>
    have hok := Net.construct_topology C U T _ hlen hc
    rw [Net.construct_ok C U T hok] at hc
    rw [← Except.ok.inj hc]
    exact builtNet_biasOne C U T
  | feedForward inputVals hprev hf ih =>
    have hwf := hprev.wellFormed hlen hT
    obtain ⟨hin, rfl⟩ := Net.feedForward_inv hwf (by omega) hf
    exact Net.fedForward_biasOne hwf ih M inputVals hin
  | backProp targetVals hprev hb ih =>
    have hwf := hprev.wellFormed hlen hT
    obtain ⟨_, rfl⟩ := Net.backProp_inv hwf hT hb
    exact Net.backPropagated_biasOne ih M targetVals

/-! ## Neurons of the network after each call -/

theorem Net.WellFormed.neuron {T : List Nat} {net : Net α} (h : net.WellFormed T) {L k : Nat}
    (hL : L < T.length) (hk : k < T.getD L 0 + 1) :
    ∃ l n, net.m_layers[L]? = some l ∧ l.length = T.getD L 0 + 1 ∧ l[k]? = some n
      ∧ net.neuron? L k = some n ∧ n.m_myIndex = k
      ∧ n.m_outputWeights.length = T.getD (L + 1) 0 := by
  obtain ⟨l, hl, hs⟩ := h.layer hL
  have hll := shape_length hs
  have hn : l[k]? = some l[k] := List.getElem?_eq_getElem (by omega)
  obtain ⟨h1, h2⟩ := shape_getElem? hs hn
  exact ⟨l, l[k], hl, hll, hn, by simp [Net.neuron?, hl, hn], h1, h2⟩

theorem fedLayers_getElem? (M : CMath α) (layers : List (Layer α)) (inputVals : List α)
    {L : Nat} (hL : L < layers.length) :
    (fedLayers M layers inputVals)[L]? = some (fedLayer M layers inputVals L) := by
  simp [fedLayers, List.getElem?_eq_getElem hL]

theorem Net.fedForward_neuron_zero {T : List Nat} {net : Net α} (h : net.WellFormed T)
    (hT : 1 ≤ T.length) (M : CMath α) (inputVals : List α) {k : Nat}
    (hk : k < inputVals.length) (hin : inputVals.length = T.getD 0 0) :
    ∃ n, net.neuron? 0 k = some n
      ∧ (net.fedForward M inputVals).neuron? 0 k = some (n.setOutputVal (inputVals.getD k 0)) := by
  obtain ⟨l, n, hl, _, hn, hnn, _, _⟩ := h.neuron (L := 0) (k := k) (by omega) (by omega)
  refine ⟨n, hnn, ?_⟩
  have hlen := h.length
  simp only [Net.neuron?, Net.fedForward,
    fedLayers_getElem? M net.m_layers inputVals (L := 0) (by omega), Option.bind_some]
  simp only [fedLayer]
  rw [getD_of_getElem? hl]
  simp [Layer.latched, hn, hk, getD_of_getElem? (List.getElem?_eq_getElem hk)]

theorem Net.fedForward_neuron_succ {T : List Nat} {net : Net α} (h : net.WellFormed T)
    (M : CMath α) (inputVals : List α) {L j : Nat} (hL : L + 1 < T.length)
    (hj : j < T.getD (L + 1) 0) :
    ∃ n, net.neuron? (L + 1) j = some n
      ∧ (net.fedForward M inputVals).neuron? (L + 1) j
        = some { n with
            m_outputVal := M.tanh (weightedSum (fedLayer M net.m_layers inputVals L) j) } := by
  obtain ⟨l, n, hl, hll, hn, hnn, _, _⟩ := h.neuron (L := L + 1) (k := j) hL (by omega)
  refine ⟨n, hnn, ?_⟩
  have hlen := h.length
  simp only [Net.neuron?, Net.fedForward,
    fedLayers_getElem? M net.m_layers inputVals (L := L + 1) (by omega), Option.bind_some]
  have : j < l.length - 1 := by omega
  simp only [fedLayer]
  rw [getD_of_getElem? hl]
  simp [Layer.fed, hn, this]

theorem fedLayer_slots {T : List Nat} {net : Net α} (h : net.WellFormed T) (M : CMath α)
    (inputVals : List α) {L : Nat} (hL : L < T.length) :
    ∀ p ∈ fedLayer M net.m_layers inputVals L, p.m_outputWeights.length = T.getD (L + 1) 0 := by
  obtain ⟨l, hl, hs⟩ := h.layer hL
  have hfs : (fedLayer M net.m_layers inputVals L).map Neuron.shape
      = layerShape (T.getD L 0) (T.getD (L + 1) 0) := by
    rw [fedLayer_shape, getD_of_getElem? hl, hs]
  exact fun p hp => shape_mem hfs hp

theorem Net.withGradients_wf {T : List Nat} {net : Net α} (h : net.WellFormed T)
    (targetVals : List α) : (net.withGradients targetVals).WellFormed T :=
  h.of_shape (by simp only [Net.shape, Net.withGradients]; rw [gradLayers_shape])

theorem gradAt_of_neuron {net : Net α} {L j : Nat} {l : Layer α} {n : Neuron α}
    (hl : net.m_layers[L]? = some l) (hn : net.neuron? L j = some n) :
    gradAt l j = n.m_gradient := by
  simp only [Net.neuron?, hl] at hn
  have hn' : l[j]? = some n := hn
  simp [gradAt, hn']

theorem updatedLayers_getElem?_lt (layers : List (Layer α)) {a : Nat} {l nxt : Layer α}
    (hl : layers[a]? = some l) (hn : layers[a + 1]? = some nxt) :
    (updatedLayers layers)[a]? = some (Layer.updatedFrom nxt l) := by
  have := lt_length_of_getElem? hn
  simp only [updatedLayers, List.getElem?_mapIdx, hl, Option.map_some', this, if_true,
    getD_of_getElem? hn]

/-- The connection from neuron `p` of layer `a` to neuron `j` of layer `a + 1` after
`backProp`. -/
theorem Net.backPropagated_conn {T : List Nat} {net : Net α} (h : net.WellFormed T)
    (M : CMath α) (targetVals : List α) {a p j : Nat} (ha : a + 1 < T.length)
    (hp : p < T.getD a 0 + 1) (hj : j < T.getD (a + 1) 0) :
    ∃ src src' dst' c, net.neuron? a p = some src
      ∧ (net.backPropagated M targetVals).neuron? a p = some src'
      ∧ (net.backPropagated M targetVals).neuron? (a + 1) j = some dst'
      ∧ src.m_outputWeights[j]? = some c
      ∧ src'.m_outputWeights[j]? = some (c.updated src.m_outputVal dst'.m_gradient)
      ∧ src'.m_outputVal = src.m_outputVal := by
  have hg := Net.withGradients_wf h targetVals
  obtain ⟨_, src, _, _, _, hsrc, _, hsw⟩ := h.neuron (L := a) (k := p) (by omega) hp
  obtain ⟨la, g, hla, _, hgp, hgn, _, hgw⟩ := hg.neuron (L := a) (k := p) (by omega) hp
  obtain ⟨lb, gd, hlb, hlbl, _, hgd, _, _⟩ := hg.neuron (L := a + 1) (k := j) ha (by omega)
  -- the gradient phase leaves outputs and connections alone
  obtain ⟨g', hg', hfe⟩ := neuron?_of_map (f := fun n => (n.m_outputVal, n.m_outputWeights))
    (A := net) (B := net.withGradients targetVals)
    (gradLayers_map (fun n => (n.m_outputVal, n.m_outputWeights)) (fun _ _ => rfl)
      net.m_layers targetVals) hsrc
  rw [hgn] at hg'
  cases hg'
  simp only [Prod.mk.injEq] at hfe
  -- the update phase leaves gradients alone
  obtain ⟨dst', hdst', hde⟩ := neuron?_of_map (f := fun n => n.m_gradient)
    (A := net.withGradients targetVals) (B := net.backPropagated M targetVals)
    (updatedLayers_map (fun n => n.m_gradient) (fun _ _ => rfl) _) hgd
  have hc : src.m_outputWeights[j]? = some src.m_outputWeights[j] :=
    List.getElem?_eq_getElem (by omega)
  have hga : gradAt lb j = dst'.m_gradient := by
    rw [gradAt_of_neuron hlb hgd]; exact hde.symm
  refine ⟨src, Neuron.slotsUpdated lb (lb.length - 1) g, dst', _, hsrc, ?_, hdst', hc, ?_, ?_⟩
  · simp only [Net.neuron?, Net.backPropagated]
    have := updatedLayers_getElem?_lt (gradLayers net.m_layers targetVals) hla hlb
    simp only [Net.withGradients] at this hla hlb
    rw [this]
    simp [Layer.updatedFrom, hgp]
  · have hjl : j < lb.length - 1 := by omega
    simp [Neuron.slotsUpdated, hfe.1, hfe.2, hc, hjl, hga]
  · simp [Neuron.slotsUpdated, hfe.1]

theorem sum_map_range (f : Nat → α) (m : Nat) :
    ((List.range m).map f).sum = ∑ i in Finset.range m, f i := by
  induction m with
  | zero => simp
  | succ m ih => simp [List.range_succ, Finset.sum_range_succ, ih]

theorem Net.WellFormed.neuron_outputLayer {T : List Nat} {net : Net α} (h : net.WellFormed T)
    (hT : 1 ≤ T.length) (n : Nat) :
    net.neuron? (T.length - 1) n = net.outputLayer[n]? := by
  obtain ⟨ho, _⟩ := h.outputLayer hT
  rw [h.length] at ho
  simp [Net.neuron?, ho]

theorem map_pair_eq {β γ δ : Type} (f : β → γ) (g : β → δ) {l1 l2 : List β}
    (hf : l1.map f = l2.map f) (hg : l1.map g = l2.map g) :
    l1.map (fun x => (f x, g x)) = l2.map (fun x => (f x, g x)) := by
  apply List.ext_getElem?
  intro k
  have h1 := congrArg (fun l => l[k]?) hf
  have h2 := congrArg (fun l => l[k]?) hg
  simp only [List.getElem?_map] at h1 h2 ⊢
  cases hx : l1[k]? with
  | none =>
    rw [hx] at h1
    cases hy : l2[k]? with
    | none => rfl
    | some y => rw [hy] at h1; cases h1
  | some x =>
    rw [hx] at h1 h2
    cases hy : l2[k]? with
    | none => rw [hy] at h1; cases h1
    | some y =>
      rw [hy] at h1 h2
      simp only [Option.map_some', Option.some.injEq] at h1 h2 ⊢
      rw [h1, h2]

theorem weightAt_eq (p : Neuron α) (j : Nat) :
    p.weightAt j = (p.weights[j]?).getD 0 := by
  simp only [Neuron.weightAt, Neuron.weights, List.getElem?_map]
  cases p.m_outputWeights[j]? <;> rfl

theorem weightedSum_congr {prev1 prev2 : Layer α} (j : Nat)
    (ho : prev1.map (fun n => n.m_outputVal) = prev2.map (fun n => n.m_outputVal))
    (hw : prev1.map Neuron.weights
      = prev2.map Neuron.weights) :
    weightedSum prev1 j = weightedSum prev2 j := by
  have hp := map_pair_eq _ _ ho hw
  have key : ∀ prev : Layer α, weightedSum prev j
      = ((prev.map (fun n => (n.m_outputVal, n.weights))).map
            (fun q => q.1 * (q.2[j]?).getD 0)).sum := by
    intro prev
    simp only [weightedSum, List.map_map]
    congr 1
    apply List.map_congr_left
    intro p _
    simp only [Function.comp, weightAt_eq]
  rw [key, key, hp]

theorem fed_map_out (M : CMath α) (prev cur : Layer α) (k : Nat) :
    ((Layer.fed M prev cur).map (fun n => n.m_outputVal))[k]?
      = if k < cur.length - 1 then (cur[k]?).map (fun _ => M.tanh (weightedSum prev k))
        else (cur[k]?).map (fun n => n.m_outputVal) := by
  simp only [Layer.fed, List.getElem?_map, List.getElem?_mapIdx]
  by_cases hk : k < cur.length - 1
  · simp only [hk, if_true]
    cases cur[k]? <;> rfl
  · simp only [hk, if_false]
    cases cur[k]? <;> rfl

theorem latched_map_out (inputVals : List α) (l0 : Layer α) (k : Nat) :
    ((Layer.latched inputVals l0).map (fun n => n.m_outputVal))[k]?
      = if k < inputVals.length then (l0[k]?).map (fun _ => inputVals.getD k 0)
        else (l0[k]?).map (fun n => n.m_outputVal) := by
  simp only [Layer.latched, List.getElem?_map, List.getElem?_mapIdx]
  by_cases hk : k < inputVals.length
  · simp only [hk, if_true]
    cases l0[k]? <;> rfl
  · simp only [hk, if_false]
    cases l0[k]? <;> rfl

theorem bias_getElem? {net : Net α} (hb : net.BiasOne) {L : Nat} {l : Layer α}
    (hl : net.m_layers[L]? = some l) :
    (l[l.length - 1]?).map (fun n => n.m_outputVal) = some 1 := by
  have := hb l (List.getElem?_mem hl)
  rw [List.getLast?_eq_getElem?] at this
  simpa using this

theorem fedLayer_out_congr {T : List Nat} {net1 net2 : Net α} (h1 : net1.WellFormed T)
    (h2 : net2.WellFormed T) (b1 : net1.BiasOne) (b2 : net2.BiasOne)
    (hw : net1.m_layers.map (fun l => l.map Neuron.weights)
      = net2.m_layers.map (fun l => l.map Neuron.weights))
    (M : CMath α) (inputVals : List α) (hin : inputVals.length = T.getD 0 0) :
    ∀ L, L < T.length →
      (fedLayer M net1.m_layers inputVals L).map (fun n => n.m_outputVal)
        = (fedLayer M net2.m_layers inputVals L).map (fun n => n.m_outputVal) := by
  intro L
  induction L with
  | zero =>
    intro hL
    obtain ⟨l1, hl1, hs1⟩ := h1.layer hL
    obtain ⟨l2, hl2, hs2⟩ := h2.layer hL
    have e1 := shape_length hs1
    have e2 := shape_length hs2
    have c1 := bias_getElem? b1 hl1
    have c2 := bias_getElem? b2 hl2
    apply List.ext_getElem?
    intro k
    simp only [fedLayer, getD_of_getElem? hl1, getD_of_getElem? hl2, latched_map_out]
    by_cases hk : k < inputVals.length
    · simp only [hk, if_true]
      rw [List.getElem?_eq_getElem (by omega : k < l1.length),
        List.getElem?_eq_getElem (by omega : k < l2.length)]
      rfl
    · simp only [hk, if_false]
      by_cases hk2 : k = T.getD 0 0
      · have e1' : l1.length - 1 = k := by omega
        have e2' : l2.length - 1 = k := by omega
        rw [e1'] at c1
        rw [e2'] at c2
        rw [c1, c2]
      · rw [List.getElem?_eq_none (by omega : l1.length ≤ k),
          List.getElem?_eq_none (by omega : l2.length ≤ k)]
  | succ L ih =>
    intro hL
    have ihL := ih (by omega)
    obtain ⟨l1, hl1, hs1⟩ := h1.layer hL
    obtain ⟨l2, hl2, hs2⟩ := h2.layer hL
    have e1 := shape_length hs1
    have e2 := shape_length hs2
    have c1 := bias_getElem? b1 hl1
    have c2 := bias_getElem? b2 hl2
    obtain ⟨p1, hp1, _⟩ := h1.layer (L := L) (by omega)
    obtain ⟨p2, hp2, _⟩ := h2.layer (L := L) (by omega)
    have hwL : (fedLayer M net1.m_layers inputVals L).map
          Neuron.weights
        = (fedLayer M net2.m_layers inputVals L).map
          Neuron.weights := by
      have f1 := congrArg (fun ls => ls[L]?)
        (fedLayers_map Neuron.weights (fun _ _ => rfl)
          M net1.m_layers inputVals)
      have f2 := congrArg (fun ls => ls[L]?)
        (fedLayers_map Neuron.weights (fun _ _ => rfl)
          M net2.m_layers inputVals)
      have f3 := congrArg (fun ls => ls[L]?) hw
      simp only [List.getElem?_map,
        fedLayers_getElem? M net1.m_layers inputVals (lt_length_of_getElem? hp1),
        fedLayers_getElem? M net2.m_layers inputVals (lt_length_of_getElem? hp2), hp1, hp2,
        Option.map_some', Option.some.injEq] at f1 f2 f3
      rw [f1, f2, f3]
    apply List.ext_getElem?
    intro k
    simp only [fedLayer, getD_of_getElem? hl1, getD_of_getElem? hl2, fed_map_out]
    by_cases hk : k < T.getD (L + 1) 0
    · have k1 : k < l1.length - 1 := by omega
      have k2 : k < l2.length - 1 := by omega
      simp only [k1, k2, if_true]
      rw [List.getElem?_eq_getElem (by omega : k < l1.length),
        List.getElem?_eq_getElem (by omega : k < l2.length),
        weightedSum_congr k ihL hwL]
      rfl
    · have k1 : ¬ k < l1.length - 1 := by omega
      have k2 : ¬ k < l2.length - 1 := by omega
      simp only [k1, k2, if_false]
      by_cases hk2 : k = T.getD (L + 1) 0
      · have e1' : l1.length - 1 = k := by omega
        have e2' : l2.length - 1 = k := by omega
        rw [e1'] at c1
        rw [e2'] at c2
        rw [c1, c2]
      · rw [List.getElem?_eq_none (by omega : l1.length ≤ k),
          List.getElem?_eq_none (by omega : l2.length ≤ k)]

theorem Layer.latched_latched (inputVals : List α) (l : Layer α) :
    Layer.latched inputVals (Layer.latched inputVals l) = Layer.latched inputVals l := by
  apply List.ext_getElem?
  intro k
  simp only [Layer.latched, List.getElem?_mapIdx, Option.map_map]
  cases l[k]? with
  | none => rfl
  | some n =>
    by_cases hk : k < inputVals.length <;> simp [hk, Neuron.setOutputVal]

theorem Layer.fed_fed (M : CMath α) (prev cur : Layer α) :
    Layer.fed M prev (Layer.fed M prev cur) = Layer.fed M prev cur := by
  apply List.ext_getElem?
  intro k
  simp only [Layer.fed, List.getElem?_mapIdx, Option.map_map, List.length_mapIdx]
  cases cur[k]? with
  | none => rfl
  | some n =>
    by_cases hk : k < cur.length - 1 <;> simp [hk]

theorem fedLayer_fedLayers (M : CMath α) (layers : List (Layer α)) (inputVals : List α) :
    ∀ L, L < layers.length →
      fedLayer M (fedLayers M layers inputVals) inputVals L = fedLayer M layers inputVals L := by
  intro L
  induction L with
  | zero =>
    intro hL
    simp only [fedLayer]
    rw [getD_of_getElem? (fedLayers_getElem? M layers inputVals hL)]
    simp only [fedLayer]
    exact Layer.latched_latched _ _
  | succ L ih =>
    intro hL
    simp only [fedLayer]
    rw [getD_of_getElem? (fedLayers_getElem? M layers inputVals hL), ih (by omega)]
    simp only [fedLayer]
    exact Layer.fed_fed _ _ _

theorem fedLayers_fedLayers (M : CMath α) (layers : List (Layer α)) (inputVals : List α) :
    fedLayers M (fedLayers M layers inputVals) inputVals = fedLayers M layers inputVals := by
  apply List.ext_getElem?
  intro j
  by_cases hj : j < layers.length
  · rw [fedLayers_getElem? M _ inputVals (by simpa [fedLayers] using hj),
      fedLayers_getElem? M layers inputVals hj, fedLayer_fedLayers M layers inputVals j hj]
  · rw [List.getElem?_eq_none (by simpa [fedLayers] using hj),
      List.getElem?_eq_none (by simpa [fedLayers] using hj)]

theorem Net.fedForward_results_congr {T : List Nat} {net1 net2 : Net α}
    (h1 : net1.WellFormed T) (h2 : net2.WellFormed T) (b1 : net1.BiasOne) (b2 : net2.BiasOne)
    (hw : net1.m_layers.map (fun l => l.map Neuron.weights)
      = net2.m_layers.map (fun l => l.map Neuron.weights))
    (hT : 1 ≤ T.length) (M : CMath α) (inputVals : List α)
    (hin : inputVals.length = T.getD 0 0) :
    resultsOf (net1.fedForward M inputVals).outputLayer
      = resultsOf (net2.fedForward M inputVals).outputLayer := by
  have hc := fedLayer_out_congr h1 h2 b1 b2 hw M inputVals hin (T.length - 1) (by omega)
  have o1 : (net1.fedForward M inputVals).outputLayer
      = fedLayer M net1.m_layers inputVals (T.length - 1) := by
    have := (Net.fedForward_wf h1 M inputVals).length
    have hl := h1.length
    simp only [Net.outputLayer, this]
    exact getD_of_getElem? (fedLayers_getElem? M _ inputVals (by omega))
  have o2 : (net2.fedForward M inputVals).outputLayer
      = fedLayer M net2.m_layers inputVals (T.length - 1) := by
    have := (Net.fedForward_wf h2 M inputVals).length
    have hl := h2.length
    simp only [Net.outputLayer, this]
    exact getD_of_getElem? (fedLayers_getElem? M _ inputVals (by omega))
  have hlen := congrArg List.length hc
  simp only [List.length_map] at hlen
  rw [o1, o2]
  simp only [resultsOf, ← List.map_take, hlen]
  rw [List.map_take, List.map_take, hc]

theorem mainPass_assert {T : List Nat} {net : Net α} (h : net.WellFormed T) (hT : 2 ≤ T.length)
    (M : CMath α) (inputVals targetVals : List α) (hin : inputVals.length = T.getD 0 0)
    (ht : targetVals.length ≠ T.getD (T.length - 1) 0) :
    mainPass M T net inputVals targetVals = .error .assertion := by
  have h0 : T[0]? = some (T.getD 0 0) := by
    rw [List.getD_eq_getElem?_getD, List.getElem?_eq_getElem (by omega : 0 < T.length)]
    rfl
  have hb : T[T.length - 1]? = some (T.getD (T.length - 1) 0) := by
    rw [List.getD_eq_getElem?_getD,
      List.getElem?_eq_getElem (by omega : T.length - 1 < T.length)]
    rfl
  have hf := Net.feedForward_ok M net T inputVals h (by omega) hin
  have hg := Net.getResults_ok (Net.fedForward_wf h M inputVals) (by omega) []
  unfold mainPass
  simp only [idx_of_getElem? h0, bind, Except.bind, hin, ne_eq, not_true_eq_false, if_false]
  rw [hf]
  simp only [Net.fedForward] at hg
  simp only [Net.fedForward, hg, back_of_getElem? hb, ht, not_false_eq_true, if_true]
  rfl

theorem getD_take {β : Type} (l : List β) (m n : Nat) (d : β) (h : n < m) :
    (l.take m).getD n d = l.getD n d := by
  rw [List.getD_eq_getElem?_getD, List.getD_eq_getElem?_getD, List.getElem?_take_of_lt h]

theorem outGrads_take (targetVals : List α) (out : Layer α) (m : Nat) (hm : out.length - 1 ≤ m) :
    Layer.outGrads (targetVals.take m) out = Layer.outGrads targetVals out := by
  apply List.ext_getElem?
  intro k
  simp only [Layer.outGrads, List.getElem?_mapIdx]
  by_cases hk : k < out.length - 1
  · simp only [hk, if_true, getD_take targetVals m k 0 (by omega)]
  · simp only [hk, if_false]

theorem gradLayer_take (layers : List (Layer α)) (targetVals : List α) (m : Nat)
    (hm : (layers.getD (layers.length - 1) []).length - 1 ≤ m) (d : Nat) :
    gradLayer layers (targetVals.take m) d = gradLayer layers targetVals d := by
  induction d with
  | zero => exact outGrads_take _ _ _ hm
  | succ d ih => simp only [gradLayer, ih]

theorem sqErr_take (targetVals : List α) (out : Layer α) (m : Nat) :
    sqErr (targetVals.take m) out m = sqErr targetVals out m := by
  simp only [sqErr]
  congr 1
  apply List.map_congr_left
  intro n hn
  rw [getD_take targetVals m n 0 (List.mem_range.1 hn)]

theorem Net.backPropagated_take (M : CMath α) (net : Net α) (targetVals : List α) :
    net.backPropagated M (targetVals.take (net.outputLayer.length - 1))
      = net.backPropagated M targetVals := by
  have hg : gradLayers net.m_layers (targetVals.take (net.outputLayer.length - 1))
      = gradLayers net.m_layers targetVals := by
    simp only [gradLayers]
    congr 1
    funext L l
    have := gradLayer_take net.m_layers targetVals (net.outputLayer.length - 1)
      (Nat.le_refl _) (net.m_layers.length - 1 - L)
    rw [this]
  simp only [Net.backPropagated, Net.errorOf, hg, sqErr_take]

theorem getD_length_zero (T : List Nat) (hT : 1 ≤ T.length) : T.getD (T.length - 1 + 1) 0 = 0 := by
  have e : T.length - 1 + 1 = T.length := by omega
  rw [e, List.getD_eq_getElem?_getD, List.getElem?_eq_none (Nat.le_refl _)]
  rfl

theorem Net.fedForward_bias {T : List Nat} {net : Net α} (h : net.WellFormed T)
    (M : CMath α) (inputVals : List α) (hin : inputVals.length = T.getD 0 0) {L : Nat}
    (hL : L < T.length) :
    (net.fedForward M inputVals).neuron? L (T.getD L 0) = net.neuron? L (T.getD L 0) := by
  obtain ⟨l, hl, hs⟩ := h.layer hL
  have hll := shape_length hs
  have hlen := h.length
  simp only [Net.neuron?, Net.fedForward,
    fedLayers_getElem? M net.m_layers inputVals (L := L) (by omega), hl, Option.some_bind]
  cases L with
  | zero =>
    simp only [fedLayer]
    rw [getD_of_getElem? hl]
    have : ¬ T.getD 0 0 < inputVals.length := by omega
    simp only [Layer.latched, List.getElem?_mapIdx, this, if_false, Option.some_bind]
    cases l[T.getD 0 0]? <;> rfl
  | succ L =>
    simp only [fedLayer]
    rw [getD_of_getElem? hl]
    have : ¬ T.getD (L + 1) 0 < l.length - 1 := by omega
    simp only [Layer.fed, List.getElem?_mapIdx, this, if_false, Option.some_bind]
    cases l[T.getD (L + 1) 0]? <;> rfl

/-! ## Gradients after `backProp` -/

theorem gradLayers_getElem? (layers : List (Layer α)) (targetVals : List α) {L : Nat}
    (h1 : 1 ≤ L) (hL : L < layers.length) :
    (gradLayers layers targetVals)[L]?
      = some (gradLayer layers targetVals (layers.length - 1 - L)) := by
  simp [gradLayers, List.getElem?_eq_getElem hL, h1]

theorem Net.withGradients_output {T : List Nat} {net : Net α} (h : net.WellFormed T)
    (hT : 2 ≤ T.length) (targetVals : List α) {n : Nat} (hn : n < T.getD (T.length - 1) 0 + 1) :
    ∃ x, net.neuron? (T.length - 1) n = some x
      ∧ (net.withGradients targetVals).neuron? (T.length - 1) n
        = some (if n < T.getD (T.length - 1) 0
            then x.calcOutputGradients (targetVals.getD n 0) else x) := by
  obtain ⟨l, x, hl, hll, hx, hxn, _, _⟩ := h.neuron (L := T.length - 1) (k := n) (by omega) hn
  have hlen := h.length
  refine ⟨x, hxn, ?_⟩
  have hg := gradLayers_getElem? net.m_layers targetVals (L := T.length - 1) (by omega)
    (by omega)
  have e : net.m_layers.length - 1 - (T.length - 1) = 0 := by omega
  rw [e] at hg
  simp only [Net.neuron?, Net.withGradients, hg, Option.some_bind, gradLayer]
  rw [hlen, getD_of_getElem? hl]
  simp only [Layer.outGrads, List.getElem?_mapIdx, hx, Option.map_some', hll,
    Nat.add_sub_cancel]

theorem Net.withGradients_hidden {T : List Nat} {net : Net α} (h : net.WellFormed T)
    (targetVals : List α) {L k : Nat} (h1 : 1 ≤ L) (hL : L + 1 < T.length)
    (hk : k < T.getD L 0 + 1) :
    ∃ x nxt, net.neuron? L k = some x
      ∧ (net.withGradients targetVals).m_layers[L + 1]? = some nxt
      ∧ nxt.length = T.getD (L + 1) 0 + 1
      ∧ (net.withGradients targetVals).neuron? L k
        = some { x with
            m_gradient := dowSum x nxt * (1 - x.m_outputVal * x.m_outputVal) } := by
  obtain ⟨l, x, hl, hll, hx, hxn, _, _⟩ := h.neuron (L := L) (k := k) (by omega) hk
  have hlen := h.length
  have hwf := Net.withGradients_wf h targetVals
  obtain ⟨nxt, hnxt, hns⟩ := hwf.layer hL
  have hg1 := gradLayers_getElem? net.m_layers targetVals (L := L + 1) (by omega) (by omega)
  have hg := gradLayers_getElem? net.m_layers targetVals (L := L) h1 (by omega)
  have e : net.m_layers.length - 1 - L = (net.m_layers.length - 1 - (L + 1)) + 1 := by omega
  have e2 : net.m_layers.length - 1 - (net.m_layers.length - 1 - (L + 1) + 1) = L := by omega
  rw [e] at hg
  simp only [Net.withGradients] at hnxt
  rw [hg1] at hnxt
  refine ⟨x, nxt, hxn, hnxt ▸ hg1, shape_length hns, ?_⟩
  simp only [Net.neuron?, Net.withGradients, hg, Option.some_bind, gradLayer]
  rw [e2, getD_of_getElem? hl, Option.some.inj hnxt]
  simp [Layer.hidGrads, hx]

/-- The weight-update phase of `backProp` leaves every gradient and output where the gradient
phase put it. -/
theorem Net.backPropagated_of_withGradients (M : CMath α) (net : Net α) (targetVals : List α)
    {L k : Nat} {g : Neuron α} (hg : (net.withGradients targetVals).neuron? L k = some g) :
    ∃ n', (net.backPropagated M targetVals).neuron? L k = some n'
      ∧ n'.m_gradient = g.m_gradient ∧ n'.m_outputVal = g.m_outputVal := by
  obtain ⟨n', hn', he⟩ := neuron?_of_map (f := fun n => (n.m_gradient, n.m_outputVal))
    (A := net.withGradients targetVals) (B := net.backPropagated M targetVals)
    (updatedLayers_map (fun n => (n.m_gradient, n.m_outputVal)) (fun _ _ => rfl) _) hg
  simp only [Prod.mk.injEq] at he
  exact ⟨n', hn', he.1, he.2⟩

theorem gradAt_of_map {l l' : Layer α}
    (h : l'.map (fun n => n.m_gradient) = l.map (fun n => n.m_gradient)) (n : Nat) :
    gradAt l' n = gradAt l n := by
  have h1 := congrArg (fun ls => ls[n]?) h
  simp only [List.getElem?_map] at h1
  unfold gradAt
  cases hl : l[n]? <;> cases hl' : l'[n]? <;> simp_all

/-- The layers of the network after `backProp` hold the gradients of the gradient phase. -/
theorem Net.backPropagated_layer_grad (M : CMath α) (net : Net α) (targetVals : List α)
    {L : Nat} {nxt : Layer α} (hn : (net.withGradients targetVals).m_layers[L]? = some nxt) :
    ∃ nxt', (net.backPropagated M targetVals).m_layers[L]? = some nxt'
      ∧ nxt'.length = nxt.length ∧ ∀ n, gradAt nxt' n = gradAt nxt n := by
  have h := updatedLayers_map (fun n => n.m_gradient) (fun _ _ => rfl)
    (gradLayers net.m_layers targetVals)
  have h1 := congrArg (fun ls => ls[L]?) h
  simp only [List.getElem?_map] at h1
  simp only [Net.withGradients] at hn
  rw [hn] at h1
  simp only [Net.backPropagated]
  cases hl : (updatedLayers (gradLayers net.m_layers targetVals))[L]? with
  | none => rw [hl] at h1; cases h1
  | some nxt' =>
    rw [hl] at h1
    simp only [Option.map_some', Option.some.injEq] at h1
    refine ⟨nxt', rfl, ?_, gradAt_of_map h1⟩
    simpa using congrArg List.length h1

/-! ## The weight-update phase in another order -/

theorem Neuron.slotsUpdatedOn_nil (cur : Layer α) (p : Neuron α) :
    Neuron.slotsUpdatedOn cur [] p = p := by
  simp [Neuron.slotsUpdatedOn, mapIdx_self]

theorem Neuron.slotsUpdatedOn_cons (cur : Layer α) (n : Nat) (ns : List Nat) (p : Neuron α)
    (hn : n ∉ ns) (hi : n < p.m_outputWeights.length) :
    Neuron.slotsUpdatedOn cur ns (p.setSlot n (gradAt cur n))
      = Neuron.slotsUpdatedOn cur (n :: ns) p := by
  have hc : p.m_outputWeights[n]? = some p.m_outputWeights[n] := List.getElem?_eq_getElem hi
  simp only [Neuron.setSlot, hc, Neuron.slotsUpdatedOn]
  congr 1
  apply List.ext_getElem?
  intro j
  simp only [List.getElem?_mapIdx, List.getElem?_set, List.mem_cons]
  by_cases hj : n = j
  · subst hj
    simp [hi, hc, hn]
  · have hj' : ¬ j = n := fun e => hj e.symm
    simp [hj, hj']

theorem Neuron.slotsUpdatedOn_perm (cur : Layer α) {ns : List Nat} {m : Nat}
    (h : ns.Perm (List.range m)) (p : Neuron α) :
    Neuron.slotsUpdatedOn cur ns p = Neuron.slotsUpdated cur m p := by
  simp only [Neuron.slotsUpdatedOn, Neuron.slotsUpdated, h.mem_iff, List.mem_range]

theorem updateList_ok (layer : Layer α)
    (hidx : ∀ (k : Nat) (n : Neuron α), layer[k]? = some n → n.m_myIndex = k) :
    ∀ (ns : List Nat) (prev : Layer α), ns.Nodup → (∀ n ∈ ns, n < layer.length) →
      (∀ p ∈ prev, ∀ n ∈ ns, n < p.m_outputWeights.length) →
      forList (fun n prevLayer => do
          let nrn ← idx layer n
          nrn.updateInputWeights prevLayer) ns prev
        = .ok (prev.map (Neuron.slotsUpdatedOn layer ns)) := by
  intro ns
  induction ns with
  | nil =>
    intro prev _ _ _
    have : prev.map (Neuron.slotsUpdatedOn layer []) = prev := by
      conv_rhs => rw [← List.map_id prev]
      apply List.map_congr_left
      intro p _
      exact Neuron.slotsUpdatedOn_nil layer p
    rw [this]
    rfl
  | cons n ns ih =>
    intro prev hnd hlt hw
    have hn : n < layer.length := hlt n (List.mem_cons_self _ _)
    have hx : layer[n]? = some layer[n] := List.getElem?_eq_getElem hn
    have hi' := hidx n _ hx
    have hg : layer[n].m_gradient = gradAt layer n := by simp [gradAt, hx]
    have hrest := ih (prev.map (fun p => p.setSlot n (gradAt layer n)))
      (List.nodup_cons.1 hnd).2 (fun m hm => hlt m (List.mem_cons_of_mem _ hm)) (by
        intro p hp m hm
        obtain ⟨q, hq, rfl⟩ := List.mem_map.1 hp
        have := hw q hq m (List.mem_cons_of_mem _ hm)
        simp only [Neuron.setSlot]
        split <;> simp [this])
    simp only [bind, Except.bind] at hrest
    simp only [forList, idx_of_getElem? hx, bind, Except.bind]
    rw [Neuron.updateInputWeights_ok _ _ (by
      intro p hp
      rw [hi']
      exact hw p hp n (List.mem_cons_self _ _))]
    simp only [hi', hg]
    rw [hrest, List.map_map]
    apply congrArg Except.ok
    apply List.map_congr_left
    intro p hp
    exact Neuron.slotsUpdatedOn_cons layer n ns p (List.nodup_cons.1 hnd).1
      (hw p hp n (List.mem_cons_self _ _))

theorem updateList_perm (layer prev : Layer α) (ns : List Nat)
    (hidx : ∀ (k : Nat) (n : Neuron α), layer[k]? = some n → n.m_myIndex = k)
    (hp : ns.Perm (List.range (layer.length - 1)))
    (hw : ∀ p ∈ prev, layer.length - 1 ≤ p.m_outputWeights.length) :
    forList (fun n prevLayer => do
        let nrn ← idx layer n
        nrn.updateInputWeights prevLayer) ns prev
      = .ok (Layer.updatedFrom layer prev) := by
  have hm : ∀ n ∈ ns, n < layer.length - 1 := fun n hn => List.mem_range.1 (hp.mem_iff.1 hn)
  rw [updateList_ok layer hidx ns prev (hp.nodup_iff.2 (List.nodup_range _))
    (fun n hn => by have := hm n hn; omega)
    (fun p hq n hn => by have := hm n hn; have := hw p hq; omega)]
  apply congrArg Except.ok
  simp only [Layer.updatedFrom]
  apply List.map_congr_left
  intro p _
  exact Neuron.slotsUpdatedOn_perm layer hp p

theorem updateLayersList_ok (net : Net α) (T : List Nat) (h : net.WellFormed T)
    (neuronOrder : Nat → List Nat) :
    ∀ (Ls done : List Nat), Ls.Nodup →
      (∀ L ∈ Ls, 1 ≤ L ∧ L < T.length ∧ L ∉ done
        ∧ (neuronOrder L).Perm (List.range (T.getD L 0))) →
      forList (fun layerNum m_layers => do
          let layer ← idx m_layers layerNum
          modifyAt m_layers (layerNum - 1) (fun prevLayer =>
            forList (fun n prevLayer => do
              let nrn ← idx layer n
              nrn.updateInputWeights prevLayer) (neuronOrder layerNum) prevLayer))
          Ls (updatedLayersOn net.m_layers done)
        = .ok (updatedLayersOn net.m_layers (done ++ Ls)) := by
  have hlen := h.length
  intro Ls
  induction Ls with
  | nil => intro done _ _; simp [forList]
  | cons b Ls ih =>
    intro done hnd hall
    obtain ⟨hb1, hbT, hbd, hbp⟩ := hall b (List.mem_cons_self _ _)
    obtain ⟨a, rfl⟩ : ∃ a, b = a + 1 := ⟨b - 1, by omega⟩
    have ha0 : a < T.length := by omega
    obtain ⟨cur, hcur, hcs⟩ := h.layer hbT
    obtain ⟨prv, hprv, hps⟩ := h.layer ha0
    obtain ⟨X, hX, hXs, hXu⟩ : ∃ X : Layer α,
        (updatedLayersOn net.m_layers done)[a + 1]? = some X
        ∧ X.map Neuron.shape = cur.map Neuron.shape
        ∧ Layer.updatedFrom X prv = Layer.updatedFrom cur prv := by
      by_cases hc : a + 1 + 1 ∈ done
      · refine ⟨Layer.updatedFrom (net.m_layers.getD (a + 1 + 1) []) cur, ?_, ?_, ?_⟩
        · simp [updatedLayersOn, hcur, hc]
        · exact Layer.updatedFrom_shape _ _
        · exact Layer.updatedFrom_updatedFrom _ _ _
      · exact ⟨cur, by simp [updatedLayersOn, hcur, hc], rfl, rfl⟩
    have hprev : (updatedLayersOn net.m_layers done)[a]? = some prv := by
      simp [updatedLayersOn, hprv, hbd]
    have hXs' : X.map Neuron.shape = layerShape (T.getD (a + 1) 0) (T.getD (a + 1 + 1) 0) := by
      rw [hXs, hcs]
    have hXl := shape_length hXs'
    have hstep := updateList_perm X prv (neuronOrder (a + 1))
      (fun k n hk => (shape_getElem? hXs' hk).1)
      (by rw [hXl, Nat.add_sub_cancel]; exact hbp)
      (fun p hp => by have := shape_mem hps hp; omega)
    have hm := modifyAt_ok (f := fun (prevLayer : Layer α) =>
        forList (fun n prevLayer => do
          let nrn ← idx X n
          nrn.updateInputWeights prevLayer) (neuronOrder (a + 1)) prevLayer) hprev hstep
    have hrest := ih (done ++ [a + 1]) (List.nodup_cons.1 hnd).2 (by
      intro L hL
      obtain ⟨h1, h2, h3, h4⟩ := hall L (List.mem_cons_of_mem _ hL)
      refine ⟨h1, h2, ?_, h4⟩
      intro hmem
      rcases List.mem_append.1 hmem with hmem | hmem
      · exact h3 hmem
      · have : L = a + 1 := by simpa using hmem
        subst this
        exact (List.nodup_cons.1 hnd).1 hL)
    simp only [bind, Except.bind] at hm hrest
    simp only [forList, idx_of_getElem? hX, bind, Except.bind, Nat.add_sub_cancel]
    rw [hm]
    simp only []
    have hset := mapIdx_set_gen
      (fun L (l : Layer α) => Layer.updatedFrom (net.m_layers.getD (L + 1) []) l)
      (fun L => L + 1 ∈ done) (fun L => L + 1 ∈ done ++ [a + 1]) net.m_layers a prv hprv
      (by simp)
      (by intro L hL; simp only [List.mem_append, List.mem_singleton]
          constructor
          · intro h'; exact Or.inl h'
          · intro h'; rcases h' with h' | h'
            · exact h'
            · omega)
    simp only [getD_of_getElem? hcur] at hset
    rw [hXu]
    unfold updatedLayersOn at hrest ⊢
    rw [hset, hrest]
    simp

theorem updatedLayersOn_nil (layers : List (Layer α)) : updatedLayersOn layers [] = layers := by
  simp [updatedLayersOn, mapIdx_self]

theorem updatedLayersOn_perm (layers : List (Layer α)) {Ls : List Nat}
    (h : Ls.Perm (List.range' 1 (layers.length - 1))) :
    updatedLayersOn layers Ls = updatedLayers layers := by
  unfold updatedLayersOn updatedLayers
  apply List.ext_getElem?
  intro j
  simp only [List.getElem?_mapIdx, h.mem_iff, List.mem_range'_1]
  cases hl : layers[j]? with
  | none => rfl
  | some l =>
    have := lt_length_of_getElem? hl
    have e : (1 ≤ j + 1 ∧ j + 1 < 1 + (layers.length - 1)) ↔ j + 1 < layers.length := by omega
    simp only [e]

theorem Net.backPropReordered_ok {T : List Nat} {net : Net α} (h : net.WellFormed T)
    (hT : 2 ≤ T.length) (M : CMath α) (targetVals : List α)
    (ht : T.getD (T.length - 1) 0 ≤ targetVals.length)
    (layerOrder : List Nat) (neuronOrder : Nat → List Nat)
    (hL : layerOrder.Perm (List.range' 1 (T.length - 1)))
    (hN : ∀ L ∈ layerOrder, (neuronOrder L).Perm (List.range (T.getD L 0))) :
    net.backPropReordered layerOrder neuronOrder M targetVals
      = .ok (net.backPropagated M targetVals) := by
  have hlen := h.length
  obtain ⟨ho, hs⟩ := h.outputLayer (by omega)
  have hl := shape_length hs
  have hlt := h.size_lt (L := T.length - 1) (by omega)
  have hsub : subSize net.outputLayer.length 1 = net.outputLayer.length - 1 :=
    subSize_one (by omega) (by omega)
  have hE := errorLoop_ok targetVals net.outputLayer (net.outputLayer.length - 1) (by omega)
    (by omega)
  have hG := outGradLoop_ok targetVals net.outputLayer (by omega) (by omega) (by omega)
  have hH := hiddenLoop_ok net T targetVals h hT
  have hwf' : (Net.mk (gradLayers net.m_layers targetVals) net.m_error
      net.m_recentAverageError).WellFormed T :=
    h.of_shape (by simp only [Net.shape]; rw [gradLayers_shape])
  have hglen : (gradLayers net.m_layers targetVals).length = net.m_layers.length := by
    simp [gradLayers]
  have hU := updateLayersList_ok _ T hwf' neuronOrder layerOrder []
    (hL.nodup_iff.2 (List.nodup_range' _ _)) (by
      intro L hLm
      have := List.mem_range'_1.1 (hL.mem_iff.1 hLm)
      exact ⟨this.1, by omega, by simp, hN L hLm⟩)
  rw [updatedLayersOn_nil, List.nil_append, updatedLayersOn_perm _ (by
    simp only [hglen, hlen]; exact hL)] at hU
  have hs2 : subUnsigned net.m_layers.length 2 = net.m_layers.length - 2 :=
    subUnsigned_of_le (by omega) (by have := h.1.1; omega)
  simp only [bind, Except.bind, pure, Except.pure] at hE hG hH hU
  unfold Net.backPropReordered
  simp only [back_of_getElem? ho, bind, Except.bind, pure, Except.pure]
  unfold forRange at hG hH ⊢
  simp only [hsub, Nat.sub_zero] at hG hH ⊢
  rw [hE]
  simp only []
  rw [hG]
  simp only [List.length_set, hs2]
  rw [hH]
  simp only []
  rw [hU]
  rfl

/-! ## The fixed point at zero error -/

theorem Connection.updated_zero (c : Connection α) (out : α) (h : c.deltaWeight = 0) :
    c.updated out 0 = c := by
  cases c with
  | mk w d =>
    simp only at h
    subst h
    simp [Connection.updated]

/-- When the targets are the stored outputs, the gradient phase of `backProp` writes only
zeros: on the functional neurons of the output layer and on all neurons of the hidden layers. -/
theorem Net.withGradients_zero {T : List Nat} {net : Net α} (h : net.WellFormed T)
    (hT : 2 ≤ T.length) (targetVals : List α)
    (heq : ∀ n, n < T.getD (T.length - 1) 0 →
      ∃ x, net.neuron? (T.length - 1) n = some x ∧ targetVals.getD n 0 = x.m_outputVal) :
    ∀ d L, L + d + 1 = T.length → 1 ≤ L →
      ∀ k, k < T.getD L 0 + (if L + 1 < T.length then 1 else 0) →
        ∃ g, (net.withGradients targetVals).neuron? L k = some g ∧ g.m_gradient = 0 := by
  intro d
  induction d with
  | zero =>
    intro L hL _ k hk
    have e : L = T.length - 1 := by omega
    subst e
    rw [if_neg (by omega), Nat.add_zero] at hk
    obtain ⟨x, hx, hg⟩ := Net.withGradients_output h hT targetVals (n := k) (by omega)
    obtain ⟨x0, hx0, ht0⟩ := heq k hk
    rw [hx] at hx0
    cases hx0
    rw [if_pos hk] at hg
    refine ⟨_, hg, ?_⟩
    show (targetVals.getD k 0 - x.m_outputVal) * _ = 0
    rw [ht0, sub_self, zero_mul]
  | succ d ih =>
    intro L hL h1 k hk
    have hL1 : L + 1 < T.length := by omega
    rw [if_pos hL1] at hk
    obtain ⟨x, nxt, _, hnxt, hnl, hg⟩ := Net.withGradients_hidden h targetVals h1 hL1 hk
    refine ⟨_, hg, ?_⟩
    have hsum : dowSum x nxt = 0 := by
      unfold dowSum
      apply List.sum_eq_zero
      intro y hy
      obtain ⟨n, hn, rfl⟩ := List.mem_map.1 hy
      have hn' : n < T.getD (L + 1) 0 := by
        have := List.mem_range.1 hn
        omega
      obtain ⟨g, hgn, hg0⟩ := ih (L + 1) (by omega) (by omega) n (by omega)
      rw [gradAt_of_neuron hnxt hgn, hg0, mul_zero]
    simp [hsum]

end Lemmas

/-! ## The claims -/

section Claims

variable {α : Type} [Field α]

/-- C1: on a network of topology `T` (at least two layers) and an input vector of length
`T[0]`, `feedForward` returns; afterwards (a) neuron `k < T[0]` of layer 0 outputs `inputs[k]`,
and (b) every functional neuron `j` of a layer `L + 1` outputs `tanh` of the sum, over all
neurons of layer `L` after the pass (bias included, each holding a connection at slot `j`), of
output times the weight of that connection. -/
theorem C1_feedForward_outputs (M : CMath α) (T : List Nat) (net : Net α) (inputVals : List α)
    (h : net.WellFormed T) (hT : 2 ≤ T.length) (hin : inputVals.length = T.getD 0 0) :
    ∃ net', net.feedForward M inputVals = .ok net'
      ∧ (∀ k, k < T.getD 0 0 →
          (net'.neuron? 0 k).map (fun n => n.m_outputVal) = inputVals[k]?)
      ∧ (∀ L j, L + 1 < T.length → j < T.getD (L + 1) 0 →
          ∃ prev, net'.m_layers[L]? = some prev
            ∧ prev.length = T.getD L 0 + 1
            ∧ (∀ p ∈ prev, j < p.m_outputWeights.length)
            ∧ (net'.neuron? (L + 1) j).map (fun n => n.m_outputVal)
                = some (M.tanh ((prev.map (fun p => p.m_outputVal * p.weightAt j)).sum))) := by
  refine ⟨net.fedForward M inputVals, Net.feedForward_ok M net T inputVals h (by omega) hin, ?_, ?_⟩
  · intro k hk
    have hk' : k < inputVals.length := by omega
    obtain ⟨n, _, hn'⟩ := Net.fedForward_neuron_zero h (by omega) M inputVals hk' hin
    rw [hn', getD_of_getElem? (List.getElem?_eq_getElem hk'), List.getElem?_eq_getElem hk']
    rfl
  · intro L j hL hj
    have hlen := h.length
    obtain ⟨n, _, hn'⟩ := Net.fedForward_neuron_succ h M inputVals hL hj
    refine ⟨fedLayer M net.m_layers inputVals L, ?_, ?_, ?_, ?_⟩
    · exact fedLayers_getElem? M net.m_layers inputVals (by omega)
    · obtain ⟨l, hl, hs⟩ := h.layer (L := L) (by omega)
      have := congrArg List.length (fedLayer_shape M net.m_layers inputVals L)
      simp only [List.length_map, getD_of_getElem? hl] at this
      rw [this]
      exact shape_length hs
    · intro p hp
      rw [fedLayer_slots h M inputVals (L := L) (by omega) p hp]
      exact hj
    · rw [hn']
      rfl

theorem C1_feedForward_outputs_witness :
    exampleNet.WellFormed [1, 1] ∧ 2 ≤ [1, 1].length ∧ [(2 : ℚ)].length = [1, 1].getD 0 0
      ∧ ∃ net', exampleNet.feedForward exampleMath [2] = .ok net'
      ∧ (∀ k, k < [1, 1].getD 0 0 →
          (net'.neuron? 0 k).map (fun n => n.m_outputVal) = [(2 : ℚ)][k]?)
      ∧ (∀ L j, L + 1 < [1, 1].length → j < [1, 1].getD (L + 1) 0 →
          ∃ prev, net'.m_layers[L]? = some prev
            ∧ prev.length = [1, 1].getD L 0 + 1
            ∧ (∀ p ∈ prev, j < p.m_outputWeights.length)
            ∧ (net'.neuron? (L + 1) j).map (fun n => n.m_outputVal)
                = some (exampleMath.tanh
                    ((prev.map (fun p => p.m_outputVal * p.weightAt j)).sum))) :=
  ⟨by decide, by decide, by decide,
    C1_feedForward_outputs exampleMath [1, 1] exampleNet [2] (by decide) (by decide) (by decide)⟩

/-- C2: on a network of topology `T` (at least two layers) and a target vector of length
`T.back()`, `backProp` returns, and every connection from a neuron `p` of a layer `L`
(bias included) to a functional neuron `j` of layer `L + 1` ends with
`deltaWeight' = 0.15 * outputVal(p) * gradient(j) + 0.5 * deltaWeight` and
`weight' = weight + deltaWeight'`, where `gradient(j)` is the gradient stored after the call
and `weight`, `deltaWeight` are the values before it. -/
theorem C2_backProp_momentum (M : CMath α) (T : List Nat) (net : Net α) (targetVals : List α)
    (h : net.WellFormed T) (hT : 2 ≤ T.length)
    (ht : targetVals.length = T.getD (T.length - 1) 0) :
    ∃ net', net.backProp M targetVals = .ok net'
      ∧ ∀ L p j, L + 1 < T.length → p < T.getD L 0 + 1 → j < T.getD (L + 1) 0 →
          ∃ src src' dst' c c', net.neuron? L p = some src
            ∧ net'.neuron? L p = some src'
            ∧ net'.neuron? (L + 1) j = some dst'
            ∧ src.m_outputWeights[j]? = some c
            ∧ src'.m_outputWeights[j]? = some c'
            ∧ c'.deltaWeight
                = 0.15 * src.m_outputVal * dst'.m_gradient + 0.5 * c.deltaWeight
            ∧ c'.weight = c.weight + c'.deltaWeight := by
  refine ⟨net.backPropagated M targetVals, Net.backProp_ok h hT M targetVals (by omega), ?_⟩
  intro L p j hL hp hj
  obtain ⟨src, src', dst', c, h1, h2, h3, h4, h5, _⟩ :=
    Net.backPropagated_conn h M targetVals hL hp hj
  exact ⟨src, src', dst', c, _, h1, h2, h3, h4, h5, rfl, rfl⟩

theorem C2_backProp_momentum_witness :
    exampleNet.WellFormed [1, 1] ∧ 2 ≤ [1, 1].length
      ∧ [(1 : ℚ)].length = [1, 1].getD ([1, 1].length - 1) 0
      ∧ ∃ net', exampleNet.backProp exampleMath [1] = .ok net'
      ∧ ∀ L p j, L + 1 < [1, 1].length → p < [1, 1].getD L 0 + 1 → j < [1, 1].getD (L + 1) 0 →
          ∃ src src' dst' c c', exampleNet.neuron? L p = some src
            ∧ net'.neuron? L p = some src'
            ∧ net'.neuron? (L + 1) j = some dst'
            ∧ src.m_outputWeights[j]? = some c
            ∧ src'.m_outputWeights[j]? = some c'
            ∧ c'.deltaWeight
                = 0.15 * src.m_outputVal * dst'.m_gradient + 0.5 * c.deltaWeight
            ∧ c'.weight = c.weight + c'.deltaWeight :=
  ⟨by decide, by decide, by decide,
    C2_backProp_momentum exampleMath [1, 1] exampleNet [1] (by decide) (by decide) (by decide)⟩

/-- C3: on a network of topology `T` (at least two layers) with running average `A` and a
target vector of length `m = T.back()`, `backProp` returns; the stored error is
`sqrt((1/m) * sum over n < m of (t[n] - output of output neuron n)^2)`, the bias neuron of the
output layer taking no part, and `getRecentAverageError` then returns
`(A * 100 + error) / 101`. -/
theorem C3_backProp_error (M : CMath α) (T : List Nat) (net : Net α) (targetVals : List α)
    (h : net.WellFormed T) (hT : 2 ≤ T.length)
    (ht : targetVals.length = T.getD (T.length - 1) 0) :
    ∃ net', net.backProp M targetVals = .ok net'
      ∧ net'.m_error = M.sqrt ((1 / (T.getD (T.length - 1) 0 : α))
          * ∑ n in Finset.range (T.getD (T.length - 1) 0),
              (targetVals.getD n 0 - outAt net.outputLayer n) ^ 2)
      ∧ net'.getRecentAverageError = (net.m_recentAverageError * 100 + net'.m_error) / 101 := by
  refine ⟨net.backPropagated M targetVals, Net.backProp_ok h hT M targetVals (by omega), ?_, ?_⟩
  · obtain ⟨_, hs⟩ := h.outputLayer (by omega)
    have hl := shape_length hs
    have hm : net.outputLayer.length - 1 = T.getD (T.length - 1) 0 := by omega
    simp only [Net.backPropagated, Net.errorOf, hm, sqErr, sum_map_range]
    congr 1
    rw [div_eq_inv_mul, one_div]
    congr 1
    apply Finset.sum_congr rfl
    intro n _
    rw [sq]
  · simp only [Net.getRecentAverageError, Net.backPropagated, Net.m_recentAverageSmoothingFactor]
    norm_num

theorem C3_backProp_error_witness :
    exampleNet.WellFormed [1, 1] ∧ 2 ≤ [1, 1].length
      ∧ [(1 : ℚ)].length = [1, 1].getD ([1, 1].length - 1) 0
      ∧ ∃ net', exampleNet.backProp exampleMath [1] = .ok net'
      ∧ net'.m_error = exampleMath.sqrt ((1 / (([1, 1].getD ([1, 1].length - 1) 0 : Nat) : ℚ))
          * ∑ n in Finset.range ([1, 1].getD ([1, 1].length - 1) 0),
              (([1] : List ℚ).getD n 0 - outAt exampleNet.outputLayer n) ^ 2)
      ∧ net'.getRecentAverageError
          = (exampleNet.m_recentAverageError * 100 + net'.m_error) / 101 :=
  ⟨by decide, by decide, by decide,
    C3_backProp_error exampleMath [1, 1] exampleNet [1] (by decide) (by decide) (by decide)⟩

/-- C4: on a network of topology `T` (at least two layers), `getResults` returns, whatever
the result vector held before, a vector of length exactly `T.back()` whose entry `n` is the
output of neuron `n` of the last layer; the entry of the bias neuron (position `T.back()`) is
not part of it. -/
theorem C4_getResults (T : List Nat) (net : Net α) (resultVals : List α)
    (h : net.WellFormed T) (hT : 2 ≤ T.length) :
    ∃ res, net.getResults resultVals = .ok res
      ∧ net.getResults [] = .ok res
      ∧ res.length = T.getD (T.length - 1) 0
      ∧ ∀ n, n < T.getD (T.length - 1) 0 →
          res[n]? = (net.neuron? (T.length - 1) n).map (fun x => x.m_outputVal) := by
  obtain ⟨_, hs⟩ := h.outputLayer (by omega)
  have hl := shape_length hs
  refine ⟨resultsOf net.outputLayer, Net.getResults_ok h (by omega) resultVals,
    Net.getResults_ok h (by omega) [], ?_, ?_⟩
  · simp only [resultsOf, List.length_map, List.length_take]
    omega
  · intro n hn
    rw [h.neuron_outputLayer (by omega)]
    simp only [resultsOf, List.getElem?_map]
    rw [List.getElem?_take_of_lt (by omega)]

theorem C4_getResults_witness :
    exampleNet.WellFormed [1, 1] ∧ 2 ≤ [1, 1].length
      ∧ ∃ res, exampleNet.getResults [5, 6] = .ok res
      ∧ exampleNet.getResults [] = .ok res
      ∧ res.length = [1, 1].getD ([1, 1].length - 1) 0
      ∧ ∀ n, n < [1, 1].getD ([1, 1].length - 1) 0 →
          res[n]? = (exampleNet.neuron? ([1, 1].length - 1) n).map (fun x => x.m_outputVal) :=
  ⟨by decide, by decide, C4_getResults [1, 1] exampleNet [5, 6] (by decide) (by decide)⟩

/-- C5 (as stated, refuted): for the topology `[4294967295, 1]` of length 2 the constructor
does not produce a network: with the bound `UINT_MAX` the test `neuronNum <= topology[0]` of
the neuron loop never fails. -/
theorem C5_constructor_counterexample :
    2 ≤ [4294967295, 1].length
      ∧ Net.construct exampleLibc exampleIndet [4294967295, 1] = .error .nontermination :=
  ⟨by decide, rfl⟩

/-- C5 (amended): for every topology `T` of length at least 2 whose length and entries fit the
program's `unsigned` counters (length at most `UINT_MAX`, every entry below `UINT_MAX`), the
constructor returns a network of exactly `len(T)` layers, layer `i` holds exactly `T[i] + 1`
neurons (the last layer too), and the neuron at position `k` of a layer stores index `k`. -/
theorem C5_constructor_layout (C : Libc) (U : Indeterminate α) (T : List Nat)
    (hok : TopologyOK T) (_hT : 2 ≤ T.length) :
    ∃ net, Net.construct C U T = .ok net
      ∧ net.m_layers.length = T.length
      ∧ ∀ i, i < T.length →
          ∃ l, net.m_layers[i]? = some l ∧ l.length = T.getD i 0 + 1
            ∧ ∀ k, k < l.length → (l[k]?).map (fun n => n.m_myIndex) = some k := by
  have hwf := builtNet_wf C U T hok
  refine ⟨builtNet C U T, Net.construct_ok C U T hok, hwf.length, ?_⟩
  intro i hi
  obtain ⟨l, hl, hs⟩ := hwf.layer hi
  refine ⟨l, hl, shape_length hs, ?_⟩
  intro k hk
  have hn : l[k]? = some l[k] := List.getElem?_eq_getElem hk
  rw [hn]
  simp [(shape_getElem? hs hn).1]

theorem C5_constructor_layout_witness :
    TopologyOK [2, 2, 1] ∧ 2 ≤ [2, 2, 1].length
      ∧ ∃ net, Net.construct exampleLibc exampleIndet [2, 2, 1] = .ok net
      ∧ net.m_layers.length = [2, 2, 1].length
      ∧ ∀ i, i < [2, 2, 1].length →
          ∃ l, net.m_layers[i]? = some l ∧ l.length = [2, 2, 1].getD i 0 + 1
            ∧ ∀ k, k < l.length → (l[k]?).map (fun n => n.m_myIndex) = some k :=
  ⟨by decide, by decide,
    C5_constructor_layout exampleLibc exampleIndet [2, 2, 1] (by decide) (by decide)⟩

/-- C6: bias invariant.  For a topology `T` of at least two layers (and at most `UINT_MAX`
of them), in every state the program reaches (the constructed network, and the network after
any successful calls of `feedForward` and `backProp`), the last neuron of every layer has
output exactly `1`. -/
theorem C6_bias_invariant (C : Libc) (U : Indeterminate α) (M : CMath α) (T : List Nat)
    (net : Net α) (hlen : T.length ≤ UINT_MAX) (hT : 2 ≤ T.length)
    (hr : Reachable C U M T net) :
    ∀ l ∈ net.m_layers, ∃ b, l.getLast? = some b ∧ b.m_outputVal = 1 := by
  intro l hl
  have hb := hr.biasOne hlen hT l hl
  rw [List.getLast?_map] at hb
  cases hx : l.getLast? with
  | none => rw [hx] at hb; cases hb
  | some b =>
    rw [hx] at hb
    exact ⟨b, rfl, by simpa using hb⟩

theorem C6_bias_invariant_witness :
    [2, 2, 1].length ≤ UINT_MAX ∧ 2 ≤ [2, 2, 1].length
      ∧ Reachable exampleLibc exampleIndet exampleMath [2, 2, 1]
          (builtNet exampleLibc exampleIndet [2, 2, 1])
      ∧ ∀ l ∈ (builtNet exampleLibc exampleIndet [2, 2, 1]).m_layers,
          ∃ b, l.getLast? = some b ∧ b.m_outputVal = 1 :=
  ⟨by decide, by decide,
    Reachable.construct (Net.construct_ok exampleLibc exampleIndet [2, 2, 1] (by decide)),
    C6_bias_invariant exampleLibc exampleIndet exampleMath [2, 2, 1] _ (by decide) (by decide)
      (Reachable.construct (Net.construct_ok exampleLibc exampleIndet [2, 2, 1] (by decide)))⟩

/-- C7: on a network of topology `T` (at least two layers), `feedForward` with an input
vector whose length differs from `T[0]` fails its assertion: the call yields the assertion
fault and no network state, so no neuron output is overwritten. -/
theorem C7_feedForward_length_mismatch (M : CMath α) (T : List Nat) (net : Net α)
    (inputVals : List α) (h : net.WellFormed T) (hT : 2 ≤ T.length)
    (hin : inputVals.length ≠ T.getD 0 0) :
    net.feedForward M inputVals = .error .assertion
      ∧ ∀ net', net.feedForward M inputVals ≠ .ok net' := by
  have h1 := Net.feedForward_assert h (by omega) M inputVals hin
  refine ⟨h1, ?_⟩
  intro net' h2
  rw [h1] at h2
  cases h2

theorem C7_feedForward_length_mismatch_witness :
    exampleNet.WellFormed [1, 1] ∧ 2 ≤ [1, 1].length ∧ [(1 : ℚ), 2].length ≠ [1, 1].getD 0 0
      ∧ exampleNet.feedForward exampleMath [1, 2] = .error .assertion
      ∧ ∀ net', exampleNet.feedForward exampleMath [1, 2] ≠ .ok net' :=
  ⟨by decide, by decide, by decide,
    C7_feedForward_length_mismatch exampleMath [1, 1] exampleNet [1, 2] (by decide) (by decide)
      (by decide)⟩

/-- C9: the forward-pass result depends only on the connection weights and the input vector.
For two reachable states of the same topology `T` (at least two layers, at most `UINT_MAX`)
with the same weight on every connection, whatever their stored outputs, gradients, delta
weights and error fields, `feedForward` on the same input vector of length `T[0]` followed by
`getResults` gives the same vector; and calling `feedForward` a second time with the same
input leaves the state as the first call left it. -/
theorem C9_forward_determined_by_weights (C1 C2 : Libc) (U1 U2 : Indeterminate α)
    (M : CMath α) (T : List Nat) (net1 net2 : Net α) (inputVals r1 r2 : List α)
    (hlen : T.length ≤ UINT_MAX) (hT : 2 ≤ T.length)
    (hr1 : Reachable C1 U1 M T net1) (hr2 : Reachable C2 U2 M T net2)
    (hw : net1.m_layers.map (fun l => l.map Neuron.weights)
      = net2.m_layers.map (fun l => l.map Neuron.weights))
    (hin : inputVals.length = T.getD 0 0) :
    (∃ n1 n2 res, net1.feedForward M inputVals = .ok n1
        ∧ net2.feedForward M inputVals = .ok n2
        ∧ n1.getResults r1 = .ok res ∧ n2.getResults r2 = .ok res)
      ∧ (∃ n1, net1.feedForward M inputVals = .ok n1
        ∧ n1.feedForward M inputVals = .ok n1) := by
  have h1 := hr1.wellFormed hlen hT
  have h2 := hr2.wellFormed hlen hT
  have b1 := hr1.biasOne hlen hT
  have b2 := hr2.biasOne hlen hT
  have w1 := Net.fedForward_wf h1 M inputVals
  have w2 := Net.fedForward_wf h2 M inputVals
  refine ⟨⟨net1.fedForward M inputVals, net2.fedForward M inputVals,
    resultsOf (net1.fedForward M inputVals).outputLayer,
    Net.feedForward_ok M net1 T inputVals h1 (by omega) hin,
    Net.feedForward_ok M net2 T inputVals h2 (by omega) hin,
    Net.getResults_ok w1 (by omega) r1, ?_⟩,
    ⟨net1.fedForward M inputVals, Net.feedForward_ok M net1 T inputVals h1 (by omega) hin, ?_⟩⟩
  · rw [Net.fedForward_results_congr h1 h2 b1 b2 hw (by omega) M inputVals hin]
    exact Net.getResults_ok w2 (by omega) r2
  · rw [Net.feedForward_ok M _ T inputVals w1 (by omega) hin]
    simp only [Net.fedForward, fedLayers_fedLayers]

theorem C9_forward_determined_by_weights_witness :
    [2, 2, 1].length ≤ UINT_MAX ∧ 2 ≤ [2, 2, 1].length
      ∧ Reachable exampleLibc exampleIndet exampleMath [2, 2, 1]
          (builtNet exampleLibc exampleIndet [2, 2, 1])
      ∧ Reachable exampleLibc exampleIndet exampleMath [2, 2, 1]
          ((builtNet exampleLibc exampleIndet [2, 2, 1]).fedForward exampleMath [1, 2])
      ∧ (builtNet exampleLibc exampleIndet [2, 2, 1]).m_layers.map
            (fun l => l.map Neuron.weights)
          = ((builtNet exampleLibc exampleIndet [2, 2, 1]).fedForward exampleMath
              [1, 2]).m_layers.map (fun l => l.map Neuron.weights)
      ∧ [(3 : ℚ), 4].length = [2, 2, 1].getD 0 0
      ∧ (∃ n1 n2 res,
          (builtNet exampleLibc exampleIndet [2, 2, 1]).feedForward exampleMath [3, 4] = .ok n1
        ∧ ((builtNet exampleLibc exampleIndet [2, 2, 1]).fedForward exampleMath
              [1, 2]).feedForward exampleMath [3, 4] = .ok n2
        ∧ n1.getResults [] = .ok res ∧ n2.getResults [9] = .ok res)
      ∧ (∃ n1,
          (builtNet exampleLibc exampleIndet [2, 2, 1]).feedForward exampleMath [3, 4] = .ok n1
        ∧ n1.feedForward exampleMath [3, 4] = .ok n1) :=
  ⟨by decide, by decide,
    Reachable.construct (Net.construct_ok exampleLibc exampleIndet [2, 2, 1] (by decide)),
    Reachable.feedForward [1, 2]
      (Reachable.construct (Net.construct_ok exampleLibc exampleIndet [2, 2, 1] (by decide)))
      (Net.feedForward_ok exampleMath _ [2, 2, 1] [1, 2]
        (builtNet_wf exampleLibc exampleIndet [2, 2, 1] (by decide)) (by decide) (by decide)),
    (fedLayers_map Neuron.weights (fun _ _ => rfl) exampleMath _ [1, 2]).symm,
    by decide,
    C9_forward_determined_by_weights exampleLibc exampleLibc exampleIndet exampleIndet
      exampleMath [2, 2, 1] _ _ [3, 4] [] [9] (by decide) (by decide)
      (Reachable.construct (Net.construct_ok exampleLibc exampleIndet [2, 2, 1] (by decide)))
      (Reachable.feedForward [1, 2]
        (Reachable.construct (Net.construct_ok exampleLibc exampleIndet [2, 2, 1] (by decide)))
        (Net.feedForward_ok exampleMath _ [2, 2, 1] [1, 2]
          (builtNet_wf exampleLibc exampleIndet [2, 2, 1] (by decide)) (by decide) (by decide)))
      (fedLayers_map Neuron.weights (fun _ _ => rfl) exampleMath _ [1, 2]).symm
      (by decide)⟩

/-- C10 (as stated, refuted): on the network `exampleNet` of topology `[1, 1]`, `backProp`
with a target vector of length 2 reports no violation: it returns a network, and the running
average error of that network differs from the one before the call. -/
theorem C10_backProp_counterexample :
    [(1 : ℚ), 5].length ≠ [1, 1].getD ([1, 1].length - 1) 0
      ∧ ∃ net', exampleNet.backProp exampleMath [1, 5] = .ok net'
          ∧ net'.m_recentAverageError ≠ exampleNet.m_recentAverageError := by
  refine ⟨by decide, exampleNet.backPropagated exampleMath [1, 5],
    Net.backProp_ok (T := [1, 1]) (by decide) (by decide) exampleMath [1, 5] (by decide), ?_⟩
  norm_num [Net.backPropagated, Net.errorOf, sqErr, Net.outputLayer, exampleNet, exampleMath,
    outAt, Net.m_recentAverageSmoothingFactor, List.range_succ]

/-- C10 (amended): `backProp` itself does not check the length of the target vector (the
caller `main` asserts `targetVals.size() == topology.back()` before the call).  On a network
of topology `T` (at least two layers): with a target vector at least `T.back()` long it
returns, and the network it returns is the one it returns for the first `T.back()` targets,
the surplus being ignored; with a shorter vector it reads past the end of the vector.  In a
pass of `main` with a well-sized input, a target vector of any other length than `T.back()`
fails the assertion of `main`, and `backProp` is not reached. -/
theorem C10_backProp_unchecked (M : CMath α) (T : List Nat) (net : Net α) (targetVals : List α)
    (h : net.WellFormed T) (hT : 2 ≤ T.length) :
    (T.getD (T.length - 1) 0 ≤ targetVals.length →
        ∃ net', net.backProp M targetVals = .ok net'
          ∧ net.backProp M (targetVals.take (T.getD (T.length - 1) 0)) = .ok net')
      ∧ (targetVals.length < T.getD (T.length - 1) 0 →
        net.backProp M targetVals = .error .outOfBounds)
      ∧ (∀ inputVals : List α, inputVals.length = T.getD 0 0 →
          targetVals.length ≠ T.getD (T.length - 1) 0 →
          mainPass M T net inputVals targetVals = .error .assertion) := by
  refine ⟨fun ht => ?_, fun ht => Net.backProp_short h (by omega) M targetVals ht,
    fun inputVals hin ht => mainPass_assert h hT M inputVals targetVals hin ht⟩
  obtain ⟨_, hs⟩ := h.outputLayer (by omega)
  have hl := shape_length hs
  have hm : net.outputLayer.length - 1 = T.getD (T.length - 1) 0 := by omega
  refine ⟨net.backPropagated M targetVals, Net.backProp_ok h hT M targetVals ht, ?_⟩
  rw [Net.backProp_ok h hT M _ (by rw [List.length_take]; omega), ← hm,
    Net.backPropagated_take]

theorem C10_backProp_unchecked_witness :
    exampleNet.WellFormed [1, 1] ∧ 2 ≤ [1, 1].length
      ∧ ([1, 1].getD ([1, 1].length - 1) 0 ≤ [(1 : ℚ), 5].length →
        ∃ net', exampleNet.backProp exampleMath [1, 5] = .ok net'
          ∧ exampleNet.backProp exampleMath
              ([(1 : ℚ), 5].take ([1, 1].getD ([1, 1].length - 1) 0)) = .ok net')
      ∧ ([(1 : ℚ), 5].length < [1, 1].getD ([1, 1].length - 1) 0 →
        exampleNet.backProp exampleMath [1, 5] = .error .outOfBounds)
      ∧ (∀ inputVals : List ℚ, inputVals.length = [1, 1].getD 0 0 →
          [(1 : ℚ), 5].length ≠ [1, 1].getD ([1, 1].length - 1) 0 →
          mainPass exampleMath [1, 1] exampleNet inputVals [1, 5] = .error .assertion) :=
  ⟨by decide, by decide,
    C10_backProp_unchecked exampleMath [1, 1] exampleNet [1, 5] (by decide) (by decide)⟩

/-- C11: connection-count invariant.  For a topology `T` of at least two layers (and at most
`UINT_MAX` of them), every state the program reaches (the constructed network, and the network
after any successful calls of `feedForward` and `backProp`) has exactly `len(T)` layers, layer
`i` has exactly `T[i] + 1` neurons, every neuron of a layer `i < len(T) - 1` (the functional
ones and the bias neuron) holds exactly `T[i+1]` outgoing connections, and every neuron of the
last layer holds none. -/
theorem C11_connection_count (C : Libc) (U : Indeterminate α) (M : CMath α) (T : List Nat)
    (net : Net α) (hlen : T.length ≤ UINT_MAX) (hT : 2 ≤ T.length)
    (hr : Reachable C U M T net) :
    net.m_layers.length = T.length
      ∧ (∀ i, i < T.length → ∃ l, net.m_layers[i]? = some l ∧ l.length = T.getD i 0 + 1)
      ∧ (∀ i k, i + 1 < T.length → k < T.getD i 0 + 1 →
          ∃ n, net.neuron? i k = some n ∧ n.m_outputWeights.length = T.getD (i + 1) 0)
      ∧ (∀ k, k < T.getD (T.length - 1) 0 + 1 →
          ∃ n, net.neuron? (T.length - 1) k = some n ∧ n.m_outputWeights.length = 0) := by
  have h := hr.wellFormed hlen hT
  refine ⟨h.length, ?_, ?_, ?_⟩
  · intro i hi
    obtain ⟨l, hl, hs⟩ := h.layer hi
    exact ⟨l, hl, shape_length hs⟩
  · intro i k hi hk
    obtain ⟨_, n, _, _, _, hn, _, hw⟩ := h.neuron (L := i) (k := k) (by omega) hk
    exact ⟨n, hn, hw⟩
  · intro k hk
    obtain ⟨_, n, _, _, _, hn, _, hw⟩ := h.neuron (L := T.length - 1) (k := k) (by omega) hk
    rw [getD_length_zero T (by omega)] at hw
    exact ⟨n, hn, hw⟩

theorem C11_connection_count_witness :
    [2, 2, 1].length ≤ UINT_MAX ∧ 2 ≤ [2, 2, 1].length
      ∧ Reachable exampleLibc exampleIndet exampleMath [2, 2, 1]
          ((builtNet exampleLibc exampleIndet [2, 2, 1]).fedForward exampleMath [1, 2])
      ∧ ((builtNet exampleLibc exampleIndet [2, 2, 1]).fedForward exampleMath
            [1, 2]).m_layers.length = [2, 2, 1].length
      ∧ (∀ i, i < [2, 2, 1].length →
          ∃ l, ((builtNet exampleLibc exampleIndet [2, 2, 1]).fedForward exampleMath
            [1, 2]).m_layers[i]? = some l ∧ l.length = [2, 2, 1].getD i 0 + 1)
      ∧ (∀ i k, i + 1 < [2, 2, 1].length → k < [2, 2, 1].getD i 0 + 1 →
          ∃ n, ((builtNet exampleLibc exampleIndet [2, 2, 1]).fedForward exampleMath
            [1, 2]).neuron? i k = some n
            ∧ n.m_outputWeights.length = [2, 2, 1].getD (i + 1) 0)
      ∧ (∀ k, k < [2, 2, 1].getD ([2, 2, 1].length - 1) 0 + 1 →
          ∃ n, ((builtNet exampleLibc exampleIndet [2, 2, 1]).fedForward exampleMath
            [1, 2]).neuron? ([2, 2, 1].length - 1) k = some n
            ∧ n.m_outputWeights.length = 0) :=
  ⟨by decide, by decide,
    Reachable.feedForward [1, 2]
      (Reachable.construct (Net.construct_ok exampleLibc exampleIndet [2, 2, 1] (by decide)))
      (Net.feedForward_ok exampleMath _ [2, 2, 1] [1, 2]
        (builtNet_wf exampleLibc exampleIndet [2, 2, 1] (by decide)) (by decide) (by decide)),
    C11_connection_count exampleLibc exampleIndet exampleMath [2, 2, 1] _ (by decide)
      (by decide)
      (Reachable.feedForward [1, 2]
        (Reachable.construct (Net.construct_ok exampleLibc exampleIndet [2, 2, 1] (by decide)))
        (Net.feedForward_ok exampleMath _ [2, 2, 1] [1, 2]
          (builtNet_wf exampleLibc exampleIndet [2, 2, 1] (by decide)) (by decide)
          (by decide)))⟩

/-- C12: the learned state is not touched by the forward pass.  On a network of topology `T`
(at least two layers) and an input vector of length `T[0]`, `feedForward` returns a network
with the same error and running average error, in which every neuron keeps its connections
(weight and delta weight of each), its gradient and its index, and in which the bias neuron of
every layer is unchanged altogether: only outputs of non-bias neurons change.  `getResults` is
a const member: in the embedding it yields the result vector and no new state. -/
theorem C12_forward_frame (M : CMath α) (T : List Nat) (net : Net α) (inputVals : List α)
    (h : net.WellFormed T) (hT : 2 ≤ T.length) (hin : inputVals.length = T.getD 0 0) :
    ∃ net', net.feedForward M inputVals = .ok net'
      ∧ net'.m_error = net.m_error
      ∧ net'.getRecentAverageError = net.getRecentAverageError
      ∧ net'.m_layers.length = net.m_layers.length
      ∧ (∀ L k n, net.neuron? L k = some n →
          ∃ n', net'.neuron? L k = some n'
            ∧ n'.m_outputWeights = n.m_outputWeights
            ∧ n'.m_gradient = n.m_gradient
            ∧ n'.m_myIndex = n.m_myIndex)
      ∧ (∀ L, L < T.length →
          net'.neuron? L (T.getD L 0) = net.neuron? L (T.getD L 0)) := by
  refine ⟨net.fedForward M inputVals, Net.feedForward_ok M net T inputVals h (by omega) hin,
    rfl, rfl, ?_, ?_, ?_⟩
  · simp [Net.fedForward, fedLayers]
  · intro L k n hn
    obtain ⟨n', hn', he⟩ := neuron?_of_map
      (f := fun x => (x.m_outputWeights, x.m_gradient, x.m_myIndex)) (A := net)
      (B := net.fedForward M inputVals)
      (fedLayers_map (fun x => (x.m_outputWeights, x.m_gradient, x.m_myIndex))
        (fun _ _ => rfl) M net.m_layers inputVals) hn
    simp only [Prod.mk.injEq] at he
    exact ⟨n', hn', he.1, he.2.1, he.2.2⟩
  · intro L hL
    exact Net.fedForward_bias h M inputVals hin hL

theorem C12_forward_frame_witness :
    exampleNet.WellFormed [1, 1] ∧ 2 ≤ [1, 1].length ∧ [(2 : ℚ)].length = [1, 1].getD 0 0
      ∧ ∃ net', exampleNet.feedForward exampleMath [2] = .ok net'
      ∧ net'.m_error = exampleNet.m_error
      ∧ net'.getRecentAverageError = exampleNet.getRecentAverageError
      ∧ net'.m_layers.length = exampleNet.m_layers.length
      ∧ (∀ L k n, exampleNet.neuron? L k = some n →
          ∃ n', net'.neuron? L k = some n'
            ∧ n'.m_outputWeights = n.m_outputWeights
            ∧ n'.m_gradient = n.m_gradient
            ∧ n'.m_myIndex = n.m_myIndex)
      ∧ (∀ L, L < [1, 1].length →
          net'.neuron? L ([1, 1].getD L 0) = exampleNet.neuron? L ([1, 1].getD L 0)) :=
  ⟨by decide, by decide, by decide,
    C12_forward_frame exampleMath [1, 1] exampleNet [2] (by decide) (by decide) (by decide)⟩

/-- C13 (the code at the failing input): the constructor `Net::Net` never writes
`m_recentAverageError`; when that memory holds `-1`, the network constructed from the topology
`[1, 1]` returns a negative value from `getRecentAverageError`. -/
theorem C13_average_error_uninitialised :
    ∃ net, Net.construct exampleLibc negativeIndet [1, 1] = .ok net
      ∧ net.getRecentAverageError = -1 ∧ net.getRecentAverageError < 0 := by
  refine ⟨builtNet exampleLibc negativeIndet [1, 1],
    Net.construct_ok exampleLibc negativeIndet [1, 1] (by decide), rfl, ?_⟩
  norm_num [Net.getRecentAverageError, builtNet, negativeIndet]

/-- C14 (as stated, refuted): `rand()` may return `RAND_MAX` itself, and the weight
`randomWeight()` then computes is `1`, outside `[0, 1)`. -/
theorem C14_randomWeight_counterexample :
    (⟨32767, fun _ => 32767⟩ : Libc).rand 0 ≤ (⟨32767, fun _ => 32767⟩ : Libc).RAND_MAX
      ∧ (Neuron.randomWeight ⟨32767, fun _ => 32767⟩ 0 : ℚ) = 1
      ∧ ¬ ((Neuron.randomWeight ⟨32767, fun _ => 32767⟩ 0 : ℚ) < 1) := by
  refine ⟨by decide, ?_, ?_⟩ <;> norm_num [Neuron.randomWeight]

/-- C14 (amended): every initial connection weight lies in the closed interval `[0, 1]`: when
`rand()` only returns values `r` with `0 <= r <= RAND_MAX` (and `RAND_MAX > 0`), the weight
`randomWeight() = r / RAND_MAX` satisfies `0 <= weight <= 1`, it is below `1` exactly when
`r < RAND_MAX`, and so every weight the `Neuron` constructor stores is in `[0, 1]`, with delta
weight `0`. -/
theorem C14_randomWeight_range {β : Type} [LinearOrderedField β] (C : Libc) (out grad : β)
    (numOutputs myIndex calls : Nat) (hr : ∀ k, C.rand k ≤ C.RAND_MAX) (hpos : 0 < C.RAND_MAX) :
    (∀ k, 0 ≤ (Neuron.randomWeight C k : β) ∧ (Neuron.randomWeight C k : β) ≤ 1
        ∧ ((Neuron.randomWeight C k : β) < 1 ↔ C.rand k < C.RAND_MAX))
      ∧ ∀ c ∈ (Neuron.construct C out grad numOutputs myIndex calls).1.m_outputWeights,
          0 ≤ c.weight ∧ c.weight ≤ 1 ∧ c.deltaWeight = 0 := by
  have hp : (0 : β) < (C.RAND_MAX : β) := by exact_mod_cast hpos
  have key : ∀ k, 0 ≤ (Neuron.randomWeight C k : β) ∧ (Neuron.randomWeight C k : β) ≤ 1
      ∧ ((Neuron.randomWeight C k : β) < 1 ↔ C.rand k < C.RAND_MAX) := by
    intro k
    unfold Neuron.randomWeight
    refine ⟨div_nonneg (Nat.cast_nonneg _) hp.le, ?_, ?_⟩
    · rw [div_le_one hp]
      exact_mod_cast hr k
    · rw [div_lt_one hp]
      exact Nat.cast_lt
  refine ⟨key, ?_⟩
  intro c hc
  simp only [Neuron.construct, List.mem_map, List.mem_range] at hc
  obtain ⟨i, _, rfl⟩ := hc
  exact ⟨(key _).1, (key _).2.1, rfl⟩

theorem C14_randomWeight_range_witness :
    (∀ k, exampleLibc.rand k ≤ exampleLibc.RAND_MAX) ∧ 0 < exampleLibc.RAND_MAX
      ∧ (∀ k, 0 ≤ (Neuron.randomWeight exampleLibc k : ℚ)
        ∧ (Neuron.randomWeight exampleLibc k : ℚ) ≤ 1
        ∧ ((Neuron.randomWeight exampleLibc k : ℚ) < 1
          ↔ exampleLibc.rand k < exampleLibc.RAND_MAX))
      ∧ ∀ c ∈ (Neuron.construct exampleLibc (0 : ℚ) 0 2 0 0).1.m_outputWeights,
          0 ≤ c.weight ∧ c.weight ≤ 1 ∧ c.deltaWeight = 0 :=
  ⟨fun k => Nat.le_of_lt_succ (Nat.mod_lt _ (by decide)), by decide,
    C14_randomWeight_range exampleLibc 0 0 2 0 0
      (fun k => Nat.le_of_lt_succ (Nat.mod_lt _ (by decide))) (by decide)⟩

/-- C15 (the code at the failing input): the first line `layers: 2 1`, whose leading word is
not the tag `topology:`, does not make `getTopology` abort when more lines follow: the numbers
of the line are read as the topology.  The tag is never compared: the word is read into `line`
and the empty `label` is tested for being equal to the tag, so that with the end-of-file flag
unset no first line aborts, and with the flag set every first line does. -/
theorem C15_getTopology_tag_unchecked (readNumbers : List Char → Except Fault (List Nat))
    (topology : List Nat) :
    (extractWord "layers: 2 1".toList).1 = "layers:".toList
      ∧ "layers:".toList ≠ "topology:".toList
      ∧ TrainingData.getTopology readNumbers "layers: 2 1".toList false topology
          = (readNumbers " 2 1".toList).map (fun ns => topology ++ ns)
      ∧ (∀ firstLine, TrainingData.getTopology readNumbers firstLine false topology
          = (readNumbers (extractWord firstLine).2).map (fun ns => topology ++ ns))
      ∧ (∀ firstLine, TrainingData.getTopology readNumbers firstLine true topology
          = .error .abort) := by
  have hgen : ∀ firstLine, TrainingData.getTopology readNumbers firstLine false topology
      = (readNumbers (extractWord firstLine).2).map (fun ns => topology ++ ns) := by
    intro firstLine
    simp only [TrainingData.getTopology, Bool.false_or]
    rw [if_neg (by decide)]
    cases readNumbers (extractWord firstLine).2 <;> rfl
  refine ⟨by decide, by decide, ?_, hgen, ?_⟩
  · rw [hgen]
    have : (extractWord "layers: 2 1".toList).2 = " 2 1".toList := by decide
    rw [this]
  · intro firstLine
    simp [TrainingData.getTopology]

/-- C16: on a network of topology `T` (at least two layers) and a target vector of length
`T.back()`, `backProp` returns, and every functional neuron `n` of the output layer ends with
gradient `(t[n] - outputVal) * (1 - outputVal * outputVal)`, where `outputVal` is the output the
neuron stores (the same before and after the call); the gradient of the bias neuron of the
output layer is the one it had before the call. -/
theorem C16_output_gradients (M : CMath α) (T : List Nat) (net : Net α) (targetVals : List α)
    (h : net.WellFormed T) (hT : 2 ≤ T.length)
    (ht : targetVals.length = T.getD (T.length - 1) 0) :
    ∃ net', net.backProp M targetVals = .ok net'
      ∧ (∀ n, n < T.getD (T.length - 1) 0 →
          ∃ x x' t, net.neuron? (T.length - 1) n = some x
            ∧ net'.neuron? (T.length - 1) n = some x'
            ∧ targetVals[n]? = some t
            ∧ x'.m_outputVal = x.m_outputVal
            ∧ x'.m_gradient = (t - x.m_outputVal) * (1 - x.m_outputVal * x.m_outputVal))
      ∧ ∃ b b', net.neuron? (T.length - 1) (T.getD (T.length - 1) 0) = some b
            ∧ net'.neuron? (T.length - 1) (T.getD (T.length - 1) 0) = some b'
            ∧ b'.m_gradient = b.m_gradient := by
  refine ⟨net.backPropagated M targetVals, Net.backProp_ok h hT M targetVals (by omega), ?_, ?_⟩
  · intro n hn
    obtain ⟨x, hx, hg⟩ := Net.withGradients_output h hT targetVals (n := n) (by omega)
    rw [if_pos hn] at hg
    obtain ⟨x', hx', hgr, hov⟩ := Net.backPropagated_of_withGradients M net targetVals hg
    have htn : targetVals[n]? = some targetVals[n] := List.getElem?_eq_getElem (by omega)
    refine ⟨x, x', _, hx, hx', htn, hov, ?_⟩
    rw [hgr]
    simp [Neuron.calcOutputGradients, Neuron.transferFunctionDerivative, List.getD, htn]
  · obtain ⟨b, hb, hg⟩ := Net.withGradients_output h hT targetVals
      (n := T.getD (T.length - 1) 0) (by omega)
    rw [if_neg (by omega)] at hg
    obtain ⟨b', hb', hgr, _⟩ := Net.backPropagated_of_withGradients M net targetVals hg
    exact ⟨b, b', hb, hb', hgr⟩

theorem C16_output_gradients_witness :
    exampleNet.WellFormed [1, 1] ∧ 2 ≤ [1, 1].length
      ∧ [(1 : ℚ)].length = [1, 1].getD ([1, 1].length - 1) 0
      ∧ ∃ net', exampleNet.backProp exampleMath [1] = .ok net'
      ∧ (∀ n, n < [1, 1].getD ([1, 1].length - 1) 0 →
          ∃ x x' t, exampleNet.neuron? ([1, 1].length - 1) n = some x
            ∧ net'.neuron? ([1, 1].length - 1) n = some x'
            ∧ ([1] : List ℚ)[n]? = some t
            ∧ x'.m_outputVal = x.m_outputVal
            ∧ x'.m_gradient = (t - x.m_outputVal) * (1 - x.m_outputVal * x.m_outputVal))
      ∧ ∃ b b', exampleNet.neuron? ([1, 1].length - 1) ([1, 1].getD ([1, 1].length - 1) 0)
              = some b
            ∧ net'.neuron? ([1, 1].length - 1) ([1, 1].getD ([1, 1].length - 1) 0) = some b'
            ∧ b'.m_gradient = b.m_gradient :=
  ⟨by decide, by decide, by decide,
    C16_output_gradients exampleMath [1, 1] exampleNet [1] (by decide) (by decide) (by decide)⟩

/-- C17: on a network of topology `T` with at least three layers and a target vector of length
`T.back()`, `backProp` returns, and every neuron `k` (bias included) of every hidden layer `L`
(`1 ≤ L`, `L + 1 < T.length`) ends with gradient
`(sum over n < T[L+1] of w(k, n) * gradient(n)) * (1 - outputVal * outputVal)`, where `w(k, n)` is
the weight of its connection `n` before the call, `gradient(n)` is the gradient neuron `n` of layer
`L + 1` holds after the call, and `outputVal` is the output the neuron stores. -/
theorem C17_hidden_gradients (M : CMath α) (T : List Nat) (net : Net α) (targetVals : List α)
    (h : net.WellFormed T) (hT : 3 ≤ T.length)
    (ht : targetVals.length = T.getD (T.length - 1) 0) :
    ∃ net', net.backProp M targetVals = .ok net'
      ∧ ∀ L k, 1 ≤ L → L + 1 < T.length → k < T.getD L 0 + 1 →
          ∃ x x' nxt', net.neuron? L k = some x
            ∧ net'.neuron? L k = some x'
            ∧ net'.m_layers[L + 1]? = some nxt'
            ∧ nxt'.length = T.getD (L + 1) 0 + 1
            ∧ x.m_outputWeights.length = T.getD (L + 1) 0
            ∧ x'.m_outputVal = x.m_outputVal
            ∧ x'.m_gradient
                = (∑ n in Finset.range (T.getD (L + 1) 0), x.weightAt n * gradAt nxt' n)
                  * (1 - x.m_outputVal * x.m_outputVal) := by
  refine ⟨net.backPropagated M targetVals, Net.backProp_ok h (by omega) M targetVals (by omega),
    ?_⟩
  intro L k h1 hL hk
  obtain ⟨x, nxt, hx, hnxt, hnl, hg⟩ := Net.withGradients_hidden h targetVals h1 hL hk
  obtain ⟨x', hx', hgr, hov⟩ := Net.backPropagated_of_withGradients M net targetVals hg
  obtain ⟨nxt', hnxt', hl', hga⟩ := Net.backPropagated_layer_grad M net targetVals hnxt
  obtain ⟨_, x0, _, _, _, hx0, _, hw⟩ := h.neuron (L := L) (k := k) (by omega) hk
  rw [hx] at hx0
  cases hx0
  refine ⟨x, x', nxt', hx, hx', hnxt', by omega, hw, hov, ?_⟩
  rw [hgr]
  simp only [dowSum, sum_map_range, hnl, Nat.add_sub_cancel]
  congr 1
  apply Finset.sum_congr rfl
  intro n _
  rw [hga]

theorem C17_hidden_gradients_witness :
    exampleNet3.WellFormed [1, 1, 1] ∧ 3 ≤ [1, 1, 1].length
      ∧ [(1 : ℚ)].length = [1, 1, 1].getD ([1, 1, 1].length - 1) 0
      ∧ ∃ net', exampleNet3.backProp exampleMath [1] = .ok net'
      ∧ ∀ L k, 1 ≤ L → L + 1 < [1, 1, 1].length → k < [1, 1, 1].getD L 0 + 1 →
          ∃ x x' nxt', exampleNet3.neuron? L k = some x
            ∧ net'.neuron? L k = some x'
            ∧ net'.m_layers[L + 1]? = some nxt'
            ∧ nxt'.length = [1, 1, 1].getD (L + 1) 0 + 1
            ∧ x.m_outputWeights.length = [1, 1, 1].getD (L + 1) 0
            ∧ x'.m_outputVal = x.m_outputVal
            ∧ x'.m_gradient
                = (∑ n in Finset.range ([1, 1, 1].getD (L + 1) 0), x.weightAt n * gradAt nxt' n)
                  * (1 - x.m_outputVal * x.m_outputVal) :=
  ⟨by decide, by decide, by decide,
    C17_hidden_gradients exampleMath [1, 1, 1] exampleNet3 [1] (by decide) (by decide)
      (by decide)⟩

/-- C18: on a network of topology `T` (at least two layers) and a target vector of length
`T.back()`, the variant of `backProp` whose weight-update phase visits the layers
`1 .. T.length - 1` in any order `layerOrder` (a permutation of them) and the functional neurons
of each layer `L` in any order `neuronOrder L` (a permutation of `0 .. T[L] - 1`) returns the
very state `backProp` returns: same layers (every weight and deltaWeight), same error, same
running average; in particular so does the front-to-back order `1, 2, .., T.length - 1`. -/
theorem C18_update_order_independent (M : CMath α) (T : List Nat) (net : Net α)
    (targetVals : List α) (layerOrder : List Nat) (neuronOrder : Nat → List Nat)
    (h : net.WellFormed T) (hT : 2 ≤ T.length)
    (ht : targetVals.length = T.getD (T.length - 1) 0)
    (hL : layerOrder.Perm (List.range' 1 (T.length - 1)))
    (hN : ∀ L, 1 ≤ L → L < T.length → (neuronOrder L).Perm (List.range (T.getD L 0))) :
    ∃ net', net.backProp M targetVals = .ok net'
      ∧ net.backPropReordered layerOrder neuronOrder M targetVals = .ok net'
      ∧ net.backPropReordered (List.range' 1 (T.length - 1)) neuronOrder M targetVals
          = .ok net' := by
  have hN' : ∀ (Ls : List Nat), Ls.Perm (List.range' 1 (T.length - 1)) →
      ∀ L ∈ Ls, (neuronOrder L).Perm (List.range (T.getD L 0)) := by
    intro Ls hp L hm
    have := List.mem_range'_1.1 (hp.mem_iff.1 hm)
    exact hN L this.1 (by omega)
  exact ⟨net.backPropagated M targetVals, Net.backProp_ok h hT M targetVals (by omega),
    Net.backPropReordered_ok h hT M targetVals (by omega) layerOrder neuronOrder hL
      (hN' _ hL),
    Net.backPropReordered_ok h hT M targetVals (by omega) _ neuronOrder (List.Perm.refl _)
      (hN' _ (List.Perm.refl _))⟩

theorem C18_update_order_independent_witness :
    (exampleNet221 ℚ).WellFormed [2, 2, 1] ∧ 2 ≤ [2, 2, 1].length
      ∧ [(1 : ℚ)].length = [2, 2, 1].getD ([2, 2, 1].length - 1) 0
      ∧ [1, 2].Perm (List.range' 1 ([2, 2, 1].length - 1))
      ∧ (∀ L, 1 ≤ L → L < [2, 2, 1].length →
          ((fun L => if L = 1 then [1, 0] else [0]) L).Perm (List.range ([2, 2, 1].getD L 0)))
      ∧ ∃ net', (exampleNet221 ℚ).backProp exampleMath [1] = .ok net'
        ∧ (exampleNet221 ℚ).backPropReordered [1, 2] (fun L => if L = 1 then [1, 0] else [0])
            exampleMath [1] = .ok net'
        ∧ (exampleNet221 ℚ).backPropReordered (List.range' 1 ([2, 2, 1].length - 1))
            (fun L => if L = 1 then [1, 0] else [0]) exampleMath [1] = .ok net' :=
  ⟨by decide, by decide, by decide, by decide, by decide,
    C18_update_order_independent exampleMath [2, 2, 1] (exampleNet221 ℚ) [1]
      [1, 2] (fun L => if L = 1 then [1, 0] else [0])
      (by decide) (by decide) (by decide) (by decide) (by decide)⟩

/-- C19: let `T` be a topology of at least two layers (and at most `UINT_MAX`, the range of the
constructor's layer counter) with all entries positive, and `net` any state reached from the
network constructed from `T` by successful calls of `feedForward` and `backProp`.  With an input
vector of length `T[0]` and a target vector of length `T.back()`, `feedForward`, `backProp` and
`getResults` all return without a fault (in the embedding every access out of bounds is a
fault).  Moreover the loop starts `m_layers.size() - 2` and `m_layers.size() - 1` do not wrap,
`size() - 1` wraps for no layer, every connection slot `m_outputWeights[m_myIndex]` read between
two consecutive layers exists, every `targetVals[n]` read exists, and the divisor
`outputLayer.size() - 1` of the mean error is `T.back()`, which is not zero. -/
theorem C19_index_safety (C : Libc) (U : Indeterminate α) (M : CMath α) (T : List Nat)
    (net : Net α) (inputVals targetVals resultVals : List α)
    (hlen : T.length ≤ UINT_MAX) (hT : 2 ≤ T.length) (hpos : ∀ t ∈ T, 0 < t)
    (hr : Reachable C U M T net)
    (hin : inputVals.length = T.getD 0 0)
    (ht : targetVals.length = T.getD (T.length - 1) 0) :
    (∃ net', net.feedForward M inputVals = .ok net')
      ∧ (∃ net', net.backProp M targetVals = .ok net')
      ∧ (∃ r, net.getResults resultVals = .ok r)
      ∧ (2 ≤ net.m_layers.length
          ∧ subUnsigned net.m_layers.length 2 = net.m_layers.length - 2
          ∧ subUnsigned net.m_layers.length 1 = net.m_layers.length - 1)
      ∧ (∀ l ∈ net.m_layers, 1 ≤ l.length ∧ subSize l.length 1 = l.length - 1)
      ∧ (∀ L p j, L + 1 < T.length → p < T.getD L 0 + 1 → j < T.getD (L + 1) 0 →
          ∃ src dst c, net.neuron? L p = some src ∧ net.neuron? (L + 1) j = some dst
            ∧ src.m_outputWeights[dst.m_myIndex]? = some c)
      ∧ (∀ n, n < subSize net.outputLayer.length 1 → ∃ t, targetVals[n]? = some t)
      ∧ subSize net.outputLayer.length 1 = T.getD (T.length - 1) 0
      ∧ subSize net.outputLayer.length 1 ≠ 0 := by
  have h := hr.wellFormed hlen hT
  have hl := h.length
  obtain ⟨_, hs⟩ := h.outputLayer (by omega)
  have hol := shape_length hs
  have hdiv : subSize net.outputLayer.length 1 = T.getD (T.length - 1) 0 := by
    rw [subSize_one (by omega) (by have := h.size_lt (L := T.length - 1) (by omega); omega), hol,
      Nat.add_sub_cancel]
  have hback : 0 < T.getD (T.length - 1) 0 := by
    have hi : T.length - 1 < T.length := by omega
    have : T.getD (T.length - 1) 0 = T[T.length - 1] := by
      simp [List.getD, List.getElem?_eq_getElem hi]
    rw [this]
    exact hpos _ (List.getElem_mem _)
  refine ⟨⟨_, Net.feedForward_ok M net T inputVals h (by omega) hin⟩,
    ⟨_, Net.backProp_ok h hT M targetVals (by omega)⟩,
    ⟨_, Net.getResults_ok h (by omega) resultVals⟩,
    ⟨by omega, subUnsigned_of_le (by omega) (by omega), subUnsigned_of_le (by omega) (by omega)⟩,
    ?_, ?_, ?_, hdiv, by omega⟩
  · intro l hmem
    obtain ⟨L, hL, rfl⟩ := List.getElem_of_mem hmem
    obtain ⟨l', hl', hs'⟩ := h.layer (L := L) (by omega)
    rw [List.getElem?_eq_getElem hL] at hl'
    cases hl'
    have := shape_length hs'
    have := h.size_lt (L := L) (by omega)
    exact ⟨by omega, subSize_one (by omega) (by omega)⟩
  · intro L p j hL hp hj
    obtain ⟨_, src, _, _, _, hsrc, _, hsw⟩ := h.neuron (L := L) (k := p) (by omega) hp
    obtain ⟨_, dst, _, _, _, hdst, hdi, _⟩ := h.neuron (L := L + 1) (k := j) hL (by omega)
    have hjw : j < src.m_outputWeights.length := by omega
    refine ⟨src, dst, src.m_outputWeights[j], hsrc, hdst, ?_⟩
    have e : src.m_outputWeights[dst.m_myIndex]? = src.m_outputWeights[j]? := by rw [hdi]
    rw [e]
    exact List.getElem?_eq_getElem hjw
  · intro n hn
    exact ⟨targetVals[n], List.getElem?_eq_getElem (by omega)⟩

theorem C19_index_safety_witness :
    [2, 2, 1].length ≤ UINT_MAX ∧ 2 ≤ [2, 2, 1].length ∧ (∀ t ∈ [2, 2, 1], 0 < t)
      ∧ Reachable exampleLibc exampleIndet exampleMath [2, 2, 1]
          (builtNet exampleLibc exampleIndet [2, 2, 1])
      ∧ [(1 : ℚ), 2].length = [2, 2, 1].getD 0 0
      ∧ [(1 : ℚ)].length = [2, 2, 1].getD ([2, 2, 1].length - 1) 0
      ∧ (∃ net', (builtNet exampleLibc exampleIndet [2, 2, 1]).feedForward exampleMath [1, 2]
          = .ok net')
      ∧ (∃ net', (builtNet exampleLibc exampleIndet [2, 2, 1]).backProp exampleMath [1]
          = .ok net')
      ∧ (∃ r, (builtNet exampleLibc exampleIndet [2, 2, 1]).getResults [] = .ok r)
      ∧ (2 ≤ (builtNet exampleLibc exampleIndet [2, 2, 1]).m_layers.length
          ∧ subUnsigned (builtNet exampleLibc exampleIndet [2, 2, 1]).m_layers.length 2
              = (builtNet exampleLibc exampleIndet [2, 2, 1]).m_layers.length - 2
          ∧ subUnsigned (builtNet exampleLibc exampleIndet [2, 2, 1]).m_layers.length 1
              = (builtNet exampleLibc exampleIndet [2, 2, 1]).m_layers.length - 1)
      ∧ (∀ l ∈ (builtNet exampleLibc exampleIndet [2, 2, 1]).m_layers,
          1 ≤ l.length ∧ subSize l.length 1 = l.length - 1)
      ∧ (∀ L p j, L + 1 < [2, 2, 1].length → p < [2, 2, 1].getD L 0 + 1 →
          j < [2, 2, 1].getD (L + 1) 0 →
          ∃ src dst c, (builtNet exampleLibc exampleIndet [2, 2, 1]).neuron? L p = some src
            ∧ (builtNet exampleLibc exampleIndet [2, 2, 1]).neuron? (L + 1) j = some dst
            ∧ src.m_outputWeights[dst.m_myIndex]? = some c)
      ∧ (∀ n, n < subSize (builtNet exampleLibc exampleIndet [2, 2, 1]).outputLayer.length 1 →
          ∃ t, ([1] : List ℚ)[n]? = some t)
      ∧ subSize (builtNet exampleLibc exampleIndet [2, 2, 1]).outputLayer.length 1
          = [2, 2, 1].getD ([2, 2, 1].length - 1) 0
      ∧ subSize (builtNet exampleLibc exampleIndet [2, 2, 1]).outputLayer.length 1 ≠ 0 :=
  ⟨by decide, by decide, by decide,
    Reachable.construct (Net.construct_ok exampleLibc exampleIndet [2, 2, 1] (by decide)),
    by decide, by decide,
    C19_index_safety exampleLibc exampleIndet exampleMath [2, 2, 1]
      (builtNet exampleLibc exampleIndet [2, 2, 1]) [1, 2] [1] []
      (by decide) (by decide) (by decide)
      (Reachable.construct (Net.construct_ok exampleLibc exampleIndet [2, 2, 1] (by decide)))
      (by decide) (by decide)⟩

/-- C20: on a network of topology `T` (at least two layers, `T.back()` positive) in which every
connection has `deltaWeight` 0, with a target vector of length `T.back()` whose entry `n` is the
output stored in neuron `n` of the output layer, and a `sqrt` with `sqrt(0) = 0`, `backProp`
returns a network whose error is 0 (the mean being taken over `T.back()`, not zero, terms), in
which every functional neuron of the output layer and every neuron of every hidden layer has
gradient 0, and in which every neuron holds exactly the connections (weight and deltaWeight) it
held before the call. -/
theorem C20_zero_error_fixed_point (M : CMath α) (T : List Nat) (net : Net α)
    (targetVals : List α) (h : net.WellFormed T) (hT : 2 ≤ T.length)
    (hpos : 0 < T.getD (T.length - 1) 0) (hsqrt : M.sqrt 0 = 0)
    (hdw : ∀ l ∈ net.m_layers, ∀ x ∈ l, ∀ c ∈ x.m_outputWeights, c.deltaWeight = 0)
    (ht : targetVals.length = T.getD (T.length - 1) 0)
    (heq : ∀ n, n < T.getD (T.length - 1) 0 →
      targetVals[n]? = (net.neuron? (T.length - 1) n).map (fun x => x.m_outputVal)) :
    ∃ net', net.backProp M targetVals = .ok net'
      ∧ subSize net.outputLayer.length 1 ≠ 0
      ∧ net'.m_error = 0
      ∧ (∀ n, n < T.getD (T.length - 1) 0 →
          ∃ x', net'.neuron? (T.length - 1) n = some x' ∧ x'.m_gradient = 0)
      ∧ (∀ L k, 1 ≤ L → L + 1 < T.length → k < T.getD L 0 + 1 →
          ∃ x', net'.neuron? L k = some x' ∧ x'.m_gradient = 0)
      ∧ (∀ L k, L < T.length → k < T.getD L 0 + 1 →
          ∃ x x', net.neuron? L k = some x ∧ net'.neuron? L k = some x'
            ∧ x'.m_outputWeights = x.m_outputWeights) := by
  have heq' : ∀ n, n < T.getD (T.length - 1) 0 →
      ∃ x, net.neuron? (T.length - 1) n = some x ∧ targetVals.getD n 0 = x.m_outputVal := by
    intro n hn
    obtain ⟨_, x, _, _, _, hx, _, _⟩ := h.neuron (L := T.length - 1) (k := n) (by omega)
      (by omega)
    have := heq n hn
    rw [hx] at this
    exact ⟨x, hx, by simp [List.getD, this]⟩
  have hzero := Net.withGradients_zero h hT targetVals heq'
  -- gradients of the returned network
  have hgrad : ∀ L k, 1 ≤ L → L < T.length →
      k < T.getD L 0 + (if L + 1 < T.length then 1 else 0) →
      ∃ x', (net.backPropagated M targetVals).neuron? L k = some x' ∧ x'.m_gradient = 0 := by
    intro L k h1 hL hk
    obtain ⟨g, hg, hg0⟩ := hzero (T.length - 1 - L) L (by omega) h1 k hk
    obtain ⟨x', hx', hgr, _⟩ := Net.backPropagated_of_withGradients M net targetVals hg
    exact ⟨x', hx', by rw [hgr, hg0]⟩
  have hwf' := Net.backPropagated_wf h M targetVals
  refine ⟨net.backPropagated M targetVals, Net.backProp_ok h hT M targetVals (by omega),
    ?_, ?_, ?_, ?_, ?_⟩
  · obtain ⟨_, hs⟩ := h.outputLayer (by omega)
    have hl := shape_length hs
    rw [subSize_one (by omega) (by have := h.size_lt (L := T.length - 1) (by omega); omega)]
    omega
  · -- the error
    obtain ⟨_, hs⟩ := h.outputLayer (by omega)
    have hl := shape_length hs
    have hsq : sqErr targetVals net.outputLayer (net.outputLayer.length - 1) = 0 := by
      unfold sqErr
      apply List.sum_eq_zero
      intro y hy
      obtain ⟨n, hn, rfl⟩ := List.mem_map.1 hy
      have hn' : n < T.getD (T.length - 1) 0 := by
        have := List.mem_range.1 hn
        omega
      obtain ⟨x, hx, hxe⟩ := heq' n hn'
      rw [h.neuron_outputLayer (by omega)] at hx
      simp only [outAt, hx]
      rw [hxe, sub_self, mul_zero]
    simp only [Net.backPropagated, Net.errorOf, hsq, zero_div, hsqrt]
  · intro n hn
    exact hgrad (T.length - 1) n (by omega) (by omega) (by rw [if_neg (by omega)]; omega)
  · intro L k h1 hL hk
    exact hgrad L k h1 (by omega) (by rw [if_pos hL]; exact hk)
  · intro L k hL hk
    obtain ⟨l, x, hl, _, hlx, hx, _, hxw⟩ := h.neuron (L := L) (k := k) hL hk
    obtain ⟨_, x', _, _, _, hx', _, hxw'⟩ := hwf'.neuron (L := L) (k := k) hL hk
    refine ⟨x, x', hx, hx', ?_⟩
    apply List.ext_getElem?
    intro j
    by_cases hj : j < T.getD (L + 1) 0
    · have hL1 : L + 1 < T.length := by
        by_contra hc
        have : T.getD (L + 1) 0 = 0 := by
          simp [List.getD, List.getElem?_eq_none (Nat.le_of_not_lt hc)]
        omega
      obtain ⟨src, src', dst', c, h1, h2, h3, h4, h5, _⟩ :=
        Net.backPropagated_conn h M targetVals hL1 hk hj
      rw [hx] at h1
      cases h1
      rw [hx'] at h2
      cases h2
      obtain ⟨d', hd', hd0⟩ := hgrad (L + 1) j (by omega) hL1 (by
        have : 0 ≤ (if L + 1 + 1 < T.length then 1 else 0) := Nat.zero_le _
        omega)
      rw [h3] at hd'
      cases hd'
      rw [h5, h4, hd0, Connection.updated_zero c _ (hdw l (List.getElem?_mem hl) _ (List.getElem?_mem hlx) c (List.getElem?_mem h4))]
    · rw [List.getElem?_eq_none (by omega), List.getElem?_eq_none (by omega)]

theorem C20_zero_error_fixed_point_witness :
    exampleNet3.WellFormed [1, 1, 1] ∧ 2 ≤ [1, 1, 1].length
      ∧ 0 < [1, 1, 1].getD ([1, 1, 1].length - 1) 0 ∧ exampleMath.sqrt 0 = 0
      ∧ (∀ l ∈ exampleNet3.m_layers, ∀ x ∈ l, ∀ c ∈ x.m_outputWeights, c.deltaWeight = 0)
      ∧ [(0 : ℚ)].length = [1, 1, 1].getD ([1, 1, 1].length - 1) 0
      ∧ (∀ n, n < [1, 1, 1].getD ([1, 1, 1].length - 1) 0 →
          ([0] : List ℚ)[n]?
            = (exampleNet3.neuron? ([1, 1, 1].length - 1) n).map (fun x => x.m_outputVal))
      ∧ ∃ net', exampleNet3.backProp exampleMath [0] = .ok net'
        ∧ subSize exampleNet3.outputLayer.length 1 ≠ 0
        ∧ net'.m_error = 0
        ∧ (∀ n, n < [1, 1, 1].getD ([1, 1, 1].length - 1) 0 →
            ∃ x', net'.neuron? ([1, 1, 1].length - 1) n = some x' ∧ x'.m_gradient = 0)
        ∧ (∀ L k, 1 ≤ L → L + 1 < [1, 1, 1].length → k < [1, 1, 1].getD L 0 + 1 →
            ∃ x', net'.neuron? L k = some x' ∧ x'.m_gradient = 0)
        ∧ (∀ L k, L < [1, 1, 1].length → k < [1, 1, 1].getD L 0 + 1 →
            ∃ x x', exampleNet3.neuron? L k = some x ∧ net'.neuron? L k = some x'
              ∧ x'.m_outputWeights = x.m_outputWeights) :=
  ⟨by decide, by decide, by decide, rfl, by decide, by decide, by decide,
    C20_zero_error_fixed_point exampleMath [1, 1, 1] exampleNet3 [0] (by decide) (by decide)
      (by decide) rfl (by decide) (by decide) (by decide)⟩

end Claims

end NeuralNet
